import Mathlib

/-!
Modular pipeline system: queue, stage worker, transforms, loader and orchestrator.

A shallow embedding of the C sources

* `plugins/sync/monitor.c`            (latch),
* `plugins/sync/consumer_producer.c`  (bounded ring-buffer queue),
* `plugins/plugin_common.c`           (stage context, worker thread, place_work),
* `plugins/{uppercaser,flipper,rotator,expander,logger,typewriter}.c` (transforms),
* `plugin_runtime.c`                  (init_all_plugins, attach_chain),
* `plugin_loader.c`                   (find_duplicate_name, load_all_plugins),
* `main.c`                            (the feed loop),

followed by theorems about them.

Conventions of the embedding.

* A C string is the list of its bytes before the terminating NUL (`CStr`); a nullable
  `char*` is an `Option CStr`.
* Every queue operation runs with `queue->lock` held, so it is one atomic function on
  the queue record.  An operation that would sleep in `monitor_wait` yields `parked`;
  the threads inside a wait loop, and their resumption, are the subject of `sys_step`.
* `int` fields that the code only ever holds non-negative (`capacity`, `count`, `head`,
  `tail`) are natural numbers; C truth values are `Bool`.
* `free` calls and diagnostics written to stderr are not part of the observable state.
-/

namespace Pipeline

/-! ## C strings -/

/-- A C string, as the list of its bytes (the terminating NUL is not stored). -/
abbrev CStr := List Nat

/-- The bytes of a string literal. -/
def cstr (s : String) : CStr := s.toList.map Char.toNat

/-- The end-of-stream sentinel `"<END>"`. -/
def END_TOKEN : CStr := cstr "<END>"

/-! ## monitor.c -/

/-- The record `monitor_t`.  The mutex and the condition variable are not represented;
`signal_calls` is a ghost counter of the `monitor_signal` calls that reached line 47. -/
structure monitor_t where
  is_initialized : Bool
  signaled : Bool
  signal_calls : Nat
  deriving DecidableEq, Repr

/-- The value `(monitor_t){0}`. -/
def monitor_zero : monitor_t := ⟨false, false, 0⟩

/-- `monitor_init`; `res_ok` tells whether the mutex and the condition variable could
be created.  Returns the C return code and the monitor afterwards. -/
def monitor_init (monitor : monitor_t) (res_ok : Bool) : Int × monitor_t :=
  if monitor.is_initialized then (-1, monitor)
  else if !res_ok then (-1, monitor)
  else (0, { monitor with signaled := false, is_initialized := true })

/-- `monitor_destroy`. -/
def monitor_destroy (monitor : monitor_t) : monitor_t :=
  if !monitor.is_initialized then monitor
  else { monitor with is_initialized := false, signaled := false }

/-- `monitor_signal`. -/
def monitor_signal (monitor : monitor_t) : monitor_t :=
  if !monitor.is_initialized then monitor
  else { monitor with signaled := true, signal_calls := monitor.signal_calls + 1 }

/-- `monitor_reset`. -/
def monitor_reset (monitor : monitor_t) : monitor_t :=
  if !monitor.is_initialized then monitor
  else { monitor with signaled := false }

/-- `monitor_wait`: `some rc` when the call returns `rc`, `none` while the caller sleeps
on the condition variable (the latch is unsignalled). -/
def monitor_wait (monitor : monitor_t) : Option Int :=
  if !monitor.is_initialized then some (-1)
  else if monitor.signaled then some 0
  else none

/-! ## consumer_producer.c -/

/-- The record `consumer_producer_t`.  `items` is the slot array (a null array is the
empty list), `magic_set` stands for `magic == CP_MAGIC`. -/
structure consumer_producer_t where
  items : List (Option CStr)
  capacity : Nat
  count : Nat
  head : Nat
  tail : Nat
  finished : Bool
  is_initialized : Bool
  magic_set : Bool
  not_full_monitor : monitor_t
  not_empty_monitor : monitor_t
  finished_monitor : monitor_t
  deriving DecidableEq, Repr

/-- A zeroed queue record, as a caller obtains it before `consumer_producer_init`. -/
def queue_zero : consumer_producer_t :=
  { items := [], capacity := 0, count := 0, head := 0, tail := 0, finished := false,
    is_initialized := false, magic_set := false, not_full_monitor := monitor_zero,
    not_empty_monitor := monitor_zero, finished_monitor := monitor_zero }

/-- Outcome of the resource acquisitions made by `consumer_producer_init`. -/
structure init_env where
  calloc_ok : Bool
  lock_ok : Bool
  not_full_ok : Bool
  not_empty_ok : Bool
  finished_ok : Bool
  deriving DecidableEq, Repr

/-- The environment in which every acquisition succeeds. -/
def env_ok : init_env := ⟨true, true, true, true, true⟩

/-- `SIZE_MAX` of a 64-bit target, 2^64 - 1. -/
def SIZE_MAX : Nat := 18446744073709551615

/-- `sizeof(char*)` of a 64-bit target. -/
def SIZEOF_PTR : Nat := 8

/-- `consumer_producer_init`: the returned error string (`none` is the C `NULL`, i.e.
success) and the queue record afterwards. -/
def consumer_producer_init (queue : consumer_producer_t) (capacity : Int) (env : init_env) :
    Option String × consumer_producer_t :=
  if capacity ≤ 0 then (some "capacity must be > 0", queue)
  else if queue.magic_set && queue.is_initialized then (some "queue already initialized", queue)
  else
    let q0 : consumer_producer_t :=
      { queue with
        not_full_monitor := monitor_zero, not_empty_monitor := monitor_zero,
        finished_monitor := monitor_zero,
        capacity := capacity.toNat, count := 0, head := 0, tail := 0,
        finished := false, is_initialized := false }
    if capacity.toNat > SIZE_MAX / SIZEOF_PTR then
      (some "capacity is too large", { q0 with capacity := 0 })
    else if !env.calloc_ok then
      (some "calloc failed", { q0 with items := [], capacity := 0 })
    else
      let q1 := { q0 with items := List.replicate capacity.toNat none }
      if !env.lock_ok then
        (some "pthread_mutex_init(lock) failed", { q1 with items := [], capacity := 0 })
      else
        let r1 := monitor_init q1.not_full_monitor env.not_full_ok
        if r1.1 ≠ 0 then
          (some "monitor_init(not_full) failed", { q1 with items := [], capacity := 0 })
        else
          let q2 := { q1 with not_full_monitor := r1.2 }
          let r2 := monitor_init q2.not_empty_monitor env.not_empty_ok
          if r2.1 ≠ 0 then
            (some "monitor_init(not_empty) failed",
              { q2 with not_full_monitor := monitor_destroy q2.not_full_monitor,
                        items := [], capacity := 0 })
          else
            let q3 := { q2 with not_empty_monitor := r2.2 }
            let r3 := monitor_init q3.finished_monitor env.finished_ok
            if r3.1 ≠ 0 then
              (some "monitor_init(finished) failed",
                { q3 with not_empty_monitor := monitor_destroy q3.not_empty_monitor,
                          not_full_monitor := monitor_destroy q3.not_full_monitor,
                          items := [], capacity := 0 })
            else
              (none, { q3 with finished_monitor := r3.2, is_initialized := true,
                               magic_set := true })

/-- The queue record that a successful `consumer_producer_init(queue, capacity)` leaves
behind (lines 22-32, 40 and 74-75, with the three `monitor_init` in between). -/
def fresh_queue (capacity : Nat) : consumer_producer_t :=
  { items := List.replicate capacity none, capacity := capacity, count := 0, head := 0,
    tail := 0, finished := false, is_initialized := true, magic_set := true,
    not_full_monitor := ⟨true, false, 0⟩, not_empty_monitor := ⟨true, false, 0⟩,
    finished_monitor := ⟨true, false, 0⟩ }

/-- What a call of `consumer_producer_put` does: it returns an error string (`none` is
`NULL`, success) with the queue as the call leaves it, or it is parked in
`monitor_wait(&queue->not_full_monitor)` inside the loop of lines 135-139, the queue
being as it was. -/
inductive put_result where
  | returned (err : Option String) (queue : consumer_producer_t)
  | parked
  deriving DecidableEq, Repr

/-- Lines 141-152 of `consumer_producer_put`: store the item and update the latches. -/
def put_store (queue : consumer_producer_t) (item : CStr) : consumer_producer_t :=
  let was_empty := queue.count == 0
  let q1 := { queue with
    items := queue.items.set queue.tail (some item),
    tail := (queue.tail + 1) % queue.capacity,
    count := queue.count + 1 }
  let q2 := if was_empty then
      { q1 with not_empty_monitor := monitor_signal q1.not_empty_monitor } else q1
  if q2.count == q2.capacity then
    { q2 with not_full_monitor := monitor_reset q2.not_full_monitor } else q2

/-- Lines 135-155 of `consumer_producer_put`, entered with the lock held: the test of
the `while`, then either the wait or the store. -/
def put_wait_loop (queue : consumer_producer_t) (item : CStr) : put_result :=
  if queue.count == queue.capacity then .parked
  else .returned none (put_store queue item)

/-- `consumer_producer_put` from its entry (the queue pointer is non-null). -/
def consumer_producer_put (queue : consumer_producer_t) (item : Option CStr) : put_result :=
  if !queue.is_initialized then .returned (some "queue is not initialized") queue
  else
    match item with
    | none => .returned (some "item is NULL") queue
    | some it =>
      if queue.finished then .returned (some "queue finished") queue
      else put_wait_loop queue it

/-- A parked `consumer_producer_put` looked at again (lines 137-139): while
`monitor_wait` has not returned it stays parked, otherwise it re-takes the lock and
re-evaluates the `while` test on the queue as it is now. -/
def put_wake (queue : consumer_producer_t) (item : CStr) : put_result :=
  match monitor_wait queue.not_full_monitor with
  | none => .parked
  | some _ => put_wait_loop queue item

/-- What a call of `consumer_producer_get` does: it returns a pointer (`none` is `NULL`)
with the queue as the call leaves it, or it is parked in
`monitor_wait(&queue->not_empty_monitor)`, the queue being as it was. -/
inductive get_result where
  | returned (item : Option CStr) (queue : consumer_producer_t)
  | parked
  deriving DecidableEq, Repr

/-- Lines 175-194 of `consumer_producer_get`: take the item at `head` and update the
latches. -/
def get_take (queue : consumer_producer_t) : Option CStr × consumer_producer_t :=
  let was_full := queue.count == queue.capacity
  let item := (queue.items.getD queue.head none)
  let q1 := { queue with
    items := queue.items.set queue.head none,
    head := (queue.head + 1) % queue.capacity,
    count := queue.count - 1 }
  let q2 := if was_full then
      { q1 with not_full_monitor := monitor_signal q1.not_full_monitor } else q1
  let q3 := if q2.count == 0 then
      let q := { q2 with not_empty_monitor := monitor_reset q2.not_empty_monitor }
      if q.finished then { q with finished_monitor := monitor_signal q.finished_monitor }
      else q
    else q2
  (item, q3)

/-- `consumer_producer_get` from its entry (the queue pointer is non-null). -/
def consumer_producer_get (queue : consumer_producer_t) : get_result :=
  if !queue.is_initialized then .returned none queue
  else if queue.count == 0 && !queue.finished then .parked
  else if queue.count == 0 && queue.finished then .returned none queue
  else .returned (get_take queue).1 (get_take queue).2

/-- `consumer_producer_signal_finished`. -/
def consumer_producer_signal_finished (queue : consumer_producer_t) : consumer_producer_t :=
  if !queue.is_initialized then queue
  else if !queue.finished then
    let q1 := { queue with finished := true }
    let q2 := { q1 with not_empty_monitor := monitor_signal q1.not_empty_monitor }
    let q3 := { q2 with not_full_monitor := monitor_signal q2.not_full_monitor }
    if q3.count == 0 then
      { q3 with finished_monitor := monitor_signal q3.finished_monitor }
    else q3
  else queue

/-- `consumer_producer_destroy`: the items it frees, in the order of the loop of lines
86-91 (every non-null slot among the first `capacity`), and the queue record
afterwards. -/
def consumer_producer_destroy (queue : consumer_producer_t) :
    List CStr × consumer_producer_t :=
  if !queue.is_initialized then ([], queue)
  else
    ((List.range queue.capacity).filterMap (fun i => queue.items.getD i none),
      { queue with
        items := [],
        finished_monitor := monitor_destroy queue.finished_monitor,
        not_empty_monitor := monitor_destroy queue.not_empty_monitor,
        not_full_monitor := monitor_destroy queue.not_full_monitor,
        capacity := 0, count := 0, head := 0, tail := 0, finished := false,
        is_initialized := false, magic_set := false })

/-! ### Sequences of queue operations -/

/-- A call made on a queue by some thread. -/
inductive queue_op where
  | put (item : Option CStr)
  | get
  | signal_finished
  deriving DecidableEq, Repr

/-- The queue after one operation taken as an atomic step.  A call that parks has not
touched the queue; what the parked thread does when it is resumed is a move of
`sys_step`. -/
def queue_step (queue : consumer_producer_t) : queue_op → consumer_producer_t
  | .put item =>
    match consumer_producer_put queue item with
    | .returned _ q => q
    | .parked => queue
  | .get =>
    match consumer_producer_get queue with
    | .returned _ q => q
    | .parked => queue
  | .signal_finished => consumer_producer_signal_finished queue

/-- The queue after a sequence of operations. -/
def queue_run (queue : consumer_producer_t) (ops : List queue_op) : consumer_producer_t :=
  ops.foldl queue_step queue

/-! ### Calls that wait and are resumed -/

/-- Lines 164-194 of `consumer_producer_get`, entered with the lock held: the test of
the `while`, then the wait, the drained return, or the take. -/
def get_wait_loop (queue : consumer_producer_t) : get_result :=
  if queue.count == 0 && !queue.finished then .parked
  else if queue.count == 0 && queue.finished then .returned none queue
  else .returned (get_take queue).1 (get_take queue).2

/-- A thread inside the loop of lines 135-139 of `consumer_producer_put`: the item it
is to store, and whether its `monitor_wait` has returned (it has then still to re-take
`queue->lock` and to re-evaluate the test of the `while`). -/
structure put_waiter where
  item : CStr
  woken : Bool
  deriving DecidableEq, Repr

/-- A queue shared by several threads: the queue record; the threads that are inside
the wait loop of a `put` (lines 135-139) and of a `get` (lines 164-168; for each,
whether its `monitor_wait` has returned); and the history of the calls that have
returned.  `stored` lists the items of the puts that returned `NULL`, in the order in
which they were stored, `got` the values returned by the gets, in order, and
`late_stores` counts the items that were stored while `finished` was set. -/
structure queue_sys where
  queue : consumer_producer_t
  put_waiters : List put_waiter
  get_waiters : List Bool
  stored : List CStr
  got : List (Option CStr)
  late_stores : Nat
  deriving DecidableEq, Repr

/-- The shared queue right after `consumer_producer_init`: no thread waits, no call has
returned. -/
def sys_init (queue : consumer_producer_t) : queue_sys :=
  { queue := queue, put_waiters := [], get_waiters := [], stored := [], got := [],
    late_stores := 0 }

/-- What one thread does next on the shared queue, between two points at which another
thread can run.  `call op`: a thread enters the operation and runs it to its return or
to its first `monitor_wait`.  `put_wait_returns i`, `get_wait_returns i`: the
`monitor_wait` of the `i`-th waiting put, resp. get, returns if the latch is signalled.
`put_relock i`, `get_relock i`: that thread re-takes `queue->lock`, re-evaluates the
test of its `while` and either goes back to waiting or runs the rest of the operation. -/
inductive queue_move where
  | call (op : queue_op)
  | put_wait_returns (i : Nat)
  | put_relock (i : Nat)
  | get_wait_returns (i : Nat)
  | get_relock (i : Nat)
  deriving DecidableEq, Repr

/-- The shared queue after one move. -/
def sys_step (s : queue_sys) : queue_move → queue_sys
  | .call (.put none) =>
    match consumer_producer_put s.queue none with
    | .returned _ q => { s with queue := q }
    | .parked => s
  | .call (.put (some item)) =>
    match consumer_producer_put s.queue (some item) with
    | .returned none q =>
      { s with queue := q, stored := s.stored ++ [item],
               late_stores := s.late_stores + (if s.queue.finished then 1 else 0) }
    | .returned (some _) q => { s with queue := q }
    | .parked => { s with put_waiters := s.put_waiters ++ [⟨item, false⟩] }
  | .call .get =>
    match consumer_producer_get s.queue with
    | .returned r q => { s with queue := q, got := s.got ++ [r] }
    | .parked => { s with get_waiters := s.get_waiters ++ [false] }
  | .call .signal_finished =>
    { s with queue := consumer_producer_signal_finished s.queue }
  | .put_wait_returns i =>
    match s.put_waiters[i]? with
    | none => s
    | some w =>
      match monitor_wait s.queue.not_full_monitor with
      | none => s
      | some _ => { s with put_waiters := s.put_waiters.set i { w with woken := true } }
  | .put_relock i =>
    match s.put_waiters[i]? with
    | none => s
    | some w =>
      if w.woken then
        match put_wait_loop s.queue w.item with
        | .returned none q =>
          { s with queue := q, put_waiters := s.put_waiters.eraseIdx i,
                   stored := s.stored ++ [w.item],
                   late_stores := s.late_stores + (if s.queue.finished then 1 else 0) }
        | .returned (some _) q => { s with queue := q, put_waiters := s.put_waiters.eraseIdx i }
        | .parked => { s with put_waiters := s.put_waiters.set i { w with woken := false } }
      else s
  | .get_wait_returns i =>
    match s.get_waiters[i]? with
    | none => s
    | some _ =>
      match monitor_wait s.queue.not_empty_monitor with
      | none => s
      | some _ => { s with get_waiters := s.get_waiters.set i true }
  | .get_relock i =>
    match s.get_waiters[i]? with
    | none => s
    | some woken =>
      if woken then
        match get_wait_loop s.queue with
        | .returned r q =>
          { s with queue := q, get_waiters := s.get_waiters.eraseIdx i, got := s.got ++ [r] }
        | .parked => { s with get_waiters := s.get_waiters.set i false }
      else s

/-- The shared queue after a sequence of moves. -/
def sys_run (s : queue_sys) (moves : List queue_move) : queue_sys :=
  moves.foldl sys_step s

/-- The items among the values returned by the gets. -/
def got_items (s : queue_sys) : List CStr := s.got.filterMap id

/-! ## The transforms (`plugin_transform` of each plugin) -/

/-- The pointer a transform returns: its own argument (`same`), a newly allocated
string (`fresh`), or `NULL` (`null`). -/
inductive transform_result where
  | same
  | fresh (s : CStr)
  | null
  deriving DecidableEq, Repr

/-- What one call of a transform does: the pointer it returns and the bytes it wrote
to stdout. -/
structure transform_out where
  result : transform_result
  stdout : CStr
  deriving DecidableEq, Repr

/-- The string behind the pointer a transform returned for the input `s`. -/
def transform_result.value (s : CStr) : transform_result → Option CStr
  | .same => some s
  | .fresh o => some o
  | .null => none

/-- The libc function `toupper` on an `unsigned char` in the "C" locale, which is the
locale in effect (the program never calls `setlocale`). -/
def toupper (c : Nat) : Nat := if 97 ≤ c ∧ c ≤ 122 then c - 32 else c

/-- The type of `plugin_transform`, with the outcome of its `malloc` as first argument. -/
abbrev transform_fn := Option CStr → transform_out

namespace uppercaser

/-- The function `plugin_transform` of uppercaser.c. -/
def plugin_transform (malloc_ok : Bool) (input : Option CStr) : transform_out :=
  match input with
  | none => ⟨.null, []⟩
  | some s =>
    if s = END_TOKEN then ⟨.same, []⟩
    else
      let n := s.length
      if n = 0 then ⟨.same, []⟩
      else if !malloc_ok then ⟨.null, []⟩
      else ⟨.fresh ((List.range n).map (fun i => toupper (s.getD i 0))), []⟩

end uppercaser

namespace flipper

/-- The function `plugin_transform` of flipper.c. -/
def plugin_transform (malloc_ok : Bool) (input : Option CStr) : transform_out :=
  match input with
  | none => ⟨.null, []⟩
  | some s =>
    if s = END_TOKEN then ⟨.same, []⟩
    else
      let n := s.length
      if n ≤ 1 then ⟨.same, []⟩
      else if !malloc_ok then ⟨.null, []⟩
      else ⟨.fresh ((List.range n).map (fun i => s.getD (n - 1 - i) 0)), []⟩

end flipper

namespace rotator

/-- The function `plugin_transform` of rotator.c. -/
def plugin_transform (malloc_ok : Bool) (input : Option CStr) : transform_out :=
  match input with
  | none => ⟨.null, []⟩
  | some s =>
    if s = END_TOKEN then ⟨.same, []⟩
    else
      let n := s.length
      if n ≤ 1 then ⟨.same, []⟩
      else if !malloc_ok then ⟨.null, []⟩
      else ⟨.fresh (s.getD (n - 1) 0 :: s.take (n - 1)), []⟩

end rotator

namespace expander

/-- The loop of lines 28-31 of expander.c from index `i` on: each input byte, followed
by a space unless it is the last one. -/
def expand_from (s : CStr) (n : Nat) : Nat → Nat → CStr
  | _, 0 => []
  | i, fuel + 1 =>
    if i < n then
      (if i + 1 < n then [s.getD i 0, 32] else [s.getD i 0]) ++ expand_from s n (i + 1) fuel
    else []

/-- The function `plugin_transform` of expander.c. -/
def plugin_transform (malloc_ok : Bool) (input : Option CStr) : transform_out :=
  match input with
  | none => ⟨.null, []⟩
  | some s =>
    if s = END_TOKEN then ⟨.same, []⟩
    else
      let n := s.length
      if n ≤ 1 then ⟨.same, []⟩
      else if !malloc_ok then ⟨.null, []⟩
      else ⟨.fresh (expand_from s n 0 n), []⟩

end expander

namespace logger

/-- The function `is_end_token` of logger.c. -/
def is_end_token (s : Option CStr) : Bool :=
  match s with
  | none => false
  | some x => x == END_TOKEN

/-- The function `plugin_transform` of logger.c (it allocates nothing). -/
def plugin_transform (input : Option CStr) : transform_out :=
  match input with
  | none => ⟨.null, []⟩
  | some s =>
    if is_end_token (some s) then ⟨.same, []⟩
    else ⟨.same, cstr "[logger] " ++ s ++ cstr "\n"⟩

end logger

namespace typewriter

/-- The function `is_end_token` of typewriter.c. -/
def is_end_token (s : Option CStr) : Bool :=
  match s with
  | none => false
  | some x => x == END_TOKEN

/-- The function `plugin_transform` of typewriter.c; the bytes go out one `fputc` at a
time, the pauses between them are not represented. -/
def plugin_transform (input : Option CStr) : transform_out :=
  match input with
  | none => ⟨.null, []⟩
  | some s =>
    if is_end_token (some s) then ⟨.same, []⟩
    else ⟨.same, cstr "[typewriter] " ++ s ++ cstr "\n"⟩

end typewriter

/-! ## plugin_common.c -/

/-- The address of a `place_work` function, as stored in `next_place_work`. -/
abbrev hook_ptr := Nat

/-- The record `plugin_context_t` (the declaration in plugin_common.h is read off the
uses in plugin_common.c).  The state lock and the thread handle are not represented. -/
structure plugin_context_t where
  name : Option CStr
  process_function : Option transform_fn
  next_place_work : Option hook_ptr
  queue : Option consumer_producer_t
  finished : Bool
  thread_created : Bool
  thread_joined : Bool
  end_pushed : Bool
  initialized : Bool
  finished_monitor : monitor_t

/-- Outcome of the resource acquisitions made by `common_plugin_init`; `queue_raw` is
the content of the record returned by `malloc` before `consumer_producer_init`. -/
structure plugin_env where
  lock_state_ok : Bool
  finished_monitor_ok : Bool
  queue_alloc_ok : Bool
  queue_raw : consumer_producer_t
  queue_env : init_env
  thread_ok : Bool

/-- The environment in which every acquisition succeeds. -/
def plugin_env_ok : plugin_env := ⟨true, true, true, queue_zero, env_ok, true⟩

/-- The zero-initialised `g_context_instance` of a freshly loaded plugin. -/
def context_zero : plugin_context_t :=
  { name := none, process_function := none, next_place_work := none, queue := none,
    finished := false, thread_created := false, thread_joined := false,
    end_pushed := false, initialized := false, finished_monitor := monitor_zero }

/-- `common_plugin_init` on the plugin's context `g` (the C `g_context_instance`): the
returned error string and the context afterwards.  On success the worker thread has
been created. -/
def common_plugin_init (g : plugin_context_t) (process_function : Option transform_fn)
    (name : Option CStr) (queue_size : Int) (env : plugin_env) :
    Option String × plugin_context_t :=
  match process_function with
  | none => (some "process_function is NULL", g)
  | some f =>
    if queue_size ≤ 0 then (some "invalid queue_size", g)
    else if g.initialized then (some "already initialized", g)
    else if name = none ∨ name = some [] then (some "name is invalid", g)
    else
      let g1 := { g with
        name := name, process_function := some f, next_place_work := none,
        finished := false, thread_created := false, thread_joined := false,
        end_pushed := false, queue := none }
      if !env.lock_state_ok then (some "lock_state init failed", g1)
      else
        let r := monitor_init g1.finished_monitor env.finished_monitor_ok
        if r.1 ≠ 0 then (some "finished_monitor init failed", g1)
        else
          let g2 := { g1 with finished_monitor := r.2 }
          if !env.queue_alloc_ok then
            (some "queue alloc failed",
              { g2 with finished_monitor := monitor_destroy g2.finished_monitor })
          else
            let qr := consumer_producer_init env.queue_raw queue_size env.queue_env
            match qr.1 with
            | some _ =>
              (some "queue init failed",
                { g2 with finished_monitor := monitor_destroy g2.finished_monitor })
            | none =>
              let g3 := { g2 with queue := some qr.2 }
              if !env.thread_ok then
                (some "pthread_create failed",
                  { g3 with queue := none,
                            finished_monitor := monitor_destroy g3.finished_monitor })
              else (none, { g3 with thread_created := true, initialized := true })

/-- `plugin_attach`. -/
def plugin_attach (ctx : plugin_context_t) (next_place_work : Option hook_ptr) :
    plugin_context_t :=
  if !ctx.initialized then ctx
  else if ctx.finished || (match ctx.queue with
                           | some q => q.finished
                           | none => false) then ctx
  else if ctx.next_place_work ≠ none then ctx
  else { ctx with next_place_work := next_place_work }

/-- `plugin_fini`; `ctx` is the context as the worker thread has left it when
`pthread_join` returns.  The queue record is destroyed and freed, so the context keeps
no queue. -/
def plugin_fini (ctx : plugin_context_t) : Option String × plugin_context_t :=
  if !ctx.initialized then (some "plugin not initialized", ctx)
  else
    let c1 := if ctx.thread_created && !ctx.thread_joined then
        { ctx with queue := ctx.queue.map consumer_producer_signal_finished,
                   thread_joined := true }
      else ctx
    let c2 := { c1 with queue := none }
    (none, { c2 with
      finished_monitor := monitor_destroy c2.finished_monitor,
      initialized := false, finished := false, thread_created := false,
      end_pushed := false, thread_joined := false, next_place_work := none,
      process_function := none })

/-- What the worker thread does that another component can observe. -/
inductive worker_event where
  | transform (s : CStr)
  | write (bytes : CStr)
  | forward (hook : hook_ptr) (s : CStr)
  deriving DecidableEq, Repr

/-- One pass through the body of the `for (;;)` of `plugin_consumer_thread` (lines
20-66), `s` being what `consumer_producer_get` returned: the context afterwards, the
events of the pass, and whether the loop was left (`break`). -/
def worker_iteration (ctx : plugin_context_t) (s : Option CStr) :
    plugin_context_t × List worker_event × Bool :=
  match s with
  | none => (ctx, [], true)
  | some s =>
    if s = END_TOKEN then
      let next_fn : Option hook_ptr := if !ctx.end_pushed then ctx.next_place_work else none
      let ctx1 := if !ctx.end_pushed then { ctx with end_pushed := true } else ctx
      let ev : List worker_event :=
        match next_fn with
        | some h => [.forward h END_TOKEN]
        | none => []
      ({ ctx1 with queue := ctx1.queue.map consumer_producer_signal_finished }, ev, true)
    else
      let r : Option transform_out := ctx.process_function.map (fun f => f (some s))
      let out : Option CStr :=
        match r with
        | some o => o.result.value s
        | none => some s
      let ev1 : List worker_event :=
        match r with
        | some o => [.transform s, .write o.stdout]
        | none => []
      let ev2 : List worker_event :=
        match ctx.next_place_work, out with
        | some h, some o => [.forward h o]
        | _, _ => []
      (ctx, ev1 ++ ev2, false)

/-- Lines 70-73 of `plugin_consumer_thread`, after the loop. -/
def worker_exit (ctx : plugin_context_t) : plugin_context_t :=
  { ctx with finished := true, finished_monitor := monitor_signal ctx.finished_monitor }

/-- The outcome of running the worker: its context, its events in order, and whether
the thread function has returned. -/
structure worker_run where
  ctx : plugin_context_t
  events : List worker_event
  exited : Bool

/-- `plugin_consumer_thread`, given the values that the successive calls of
`consumer_producer_get` return to it.  When that list is used up the worker is parked
in the next `consumer_producer_get`. -/
def plugin_consumer_thread (ctx : plugin_context_t) : List (Option CStr) → worker_run
  | [] => ⟨ctx, [], false⟩
  | s :: rest =>
    let it := worker_iteration ctx s
    if it.2.2 then ⟨worker_exit it.1, it.2.1, true⟩
    else
      let r := plugin_consumer_thread it.1 rest
      ⟨r.ctx, it.2.1 ++ r.events, r.exited⟩

/-- The calls of a next-hook, in order: the function called and its argument. -/
def hook_calls : List worker_event → List (hook_ptr × CStr)
  | [] => []
  | .forward h s :: es => (h, s) :: hook_calls es
  | _ :: es => hook_calls es

/-- The strings handed to a next-hook, in call order. -/
def forwarded (es : List worker_event) : List CStr := (hook_calls es).map Prod.snd

/-- The strings a transform was called on, in call order. -/
def transformed : List worker_event → List CStr
  | [] => []
  | .transform s :: es => s :: transformed es
  | _ :: es => transformed es

/-- What a call of `plugin_place_work` does: it returns an error string (`none` is
`NULL`) with the context as the call leaves it, or it is parked inside
`consumer_producer_put`. -/
inductive place_result where
  | returned (err : Option String) (ctx : plugin_context_t)
  | parked

/-- `plugin_place_work`; `malloc_ok` is the outcome of the `malloc` in `dup_cstr`.  A
null `ctx->queue` makes `consumer_producer_put` return "queue is NULL". -/
def plugin_place_work (ctx : plugin_context_t) (str : Option CStr) (malloc_ok : Bool) :
    place_result :=
  if !ctx.initialized then .returned (some "plugin not initialized") ctx
  else
    match str with
    | none => .returned (some "string is NULL") ctx
    | some s =>
      if !malloc_ok then .returned (some "alloc failed") ctx
      else
        let copy := s
        match ctx.queue with
        | none => .returned (some "queue is NULL") ctx
        | some q =>
          match consumer_producer_put q (some copy) with
          | .returned (some qerr) _ => .returned (some qerr) ctx
          | .returned none q1 => .returned none { ctx with queue := some q1 }
          | .parked => .parked

/-! ### `plugin_init` of each plugin -/

/-- The function `plugin_init` of uppercaser.c. -/
def uppercaser.plugin_init (g : plugin_context_t) (queue_size : Int) (malloc_ok : Bool)
    (env : plugin_env) : Option String × plugin_context_t :=
  common_plugin_init g (some (uppercaser.plugin_transform malloc_ok))
    (some (cstr "uppercaser")) queue_size env

/-- The function `plugin_init` of flipper.c. -/
def flipper.plugin_init (g : plugin_context_t) (queue_size : Int) (malloc_ok : Bool)
    (env : plugin_env) : Option String × plugin_context_t :=
  common_plugin_init g (some (flipper.plugin_transform malloc_ok))
    (some (cstr "flipper")) queue_size env

/-- The function `plugin_init` of rotator.c. -/
def rotator.plugin_init (g : plugin_context_t) (queue_size : Int) (malloc_ok : Bool)
    (env : plugin_env) : Option String × plugin_context_t :=
  common_plugin_init g (some (rotator.plugin_transform malloc_ok))
    (some (cstr "rotator")) queue_size env

/-- The function `plugin_init` of expander.c. -/
def expander.plugin_init (g : plugin_context_t) (queue_size : Int) (malloc_ok : Bool)
    (env : plugin_env) : Option String × plugin_context_t :=
  common_plugin_init g (some (expander.plugin_transform malloc_ok))
    (some (cstr "expander")) queue_size env

/-- The function `plugin_init` of logger.c. -/
def logger.plugin_init (g : plugin_context_t) (queue_size : Int) (env : plugin_env) :
    Option String × plugin_context_t :=
  common_plugin_init g (some logger.plugin_transform) (some (cstr "logger")) queue_size env

/-- The function `plugin_init` of typewriter.c. -/
def typewriter.plugin_init (g : plugin_context_t) (queue_size : Int) (env : plugin_env) :
    Option String × plugin_context_t :=
  common_plugin_init g (some typewriter.plugin_transform) (some (cstr "typewriter"))
    queue_size env

/-! ## plugin_runtime.c -/

/-- The record `plugin_handle_t` of plugin_loader.h, as far as the runtime uses it.
`init` and `fini` are nullable function pointers: `init` maps the queue size to the
error string it returns, `fini` is the error string it returns; `place_work` is the
address of the stage's `plugin_place_work`; `attach` tells whether the pointer is set. -/
structure plugin_handle_t where
  init : Option (Int → Option String)
  fini : Option (Option String)
  place_work : Option hook_ptr
  attach : Bool
  wait_finished : Bool
  name : Option CStr

/-- A call made through a handle, with the index of the stage. -/
inductive lifecycle_call where
  | init (i : Nat)
  | fini (i : Nat)
  deriving DecidableEq, Repr

/-- What `init_all_plugins` leaves behind: its return value, the out-parameters
`*failed_index` and `*failed_msg`, and the calls it made, in order. -/
structure init_all_result where
  rc : Int
  failed_index : Nat
  failed_msg : Option String
  calls : List lifecycle_call
  deriving DecidableEq, Repr

/-- The value of `arr[i].init ? arr[i].init(queue_size) : "missing init()"`. -/
def init_outcome (h : plugin_handle_t) (queue_size : Int) : Option String :=
  match h.init with
  | some f => f queue_size
  | none => some "missing init()"

/-- The call made by evaluating `init_outcome` on stage `i`. -/
def init_calls (h : plugin_handle_t) (i : Nat) : List lifecycle_call :=
  match h.init with
  | some _ => [.init i]
  | none => []

/-- The rollback loop of lines 27-29: `fini` on the stages `j, j+1, ...` of `arr`
(the list holds the stages from index `j` on). -/
def fini_loop : List plugin_handle_t → Nat → List lifecycle_call
  | [], _ => []
  | h :: rest, j =>
    (match h.fini with
     | some _ => [lifecycle_call.fini j]
     | none => []) ++ fini_loop rest (j + 1)

/-- The loop of lines 21-32 of `init_all_plugins` from index `i` on; `arr` is the whole
array and `rest` its part from `i` on. -/
def init_loop (arr : List plugin_handle_t) (queue_size : Int) (malloc_ok : Bool) :
    List plugin_handle_t → Nat → init_all_result
  | [], _ => ⟨0, SIZE_MAX, none, []⟩
  | h :: rest, i =>
    match init_outcome h queue_size with
    | some err =>
      ⟨-1, i, if malloc_ok then some err else none,
        init_calls h i ++ fini_loop (arr.take i) 0⟩
    | none =>
      let r := init_loop arr queue_size malloc_ok rest (i + 1)
      { r with calls := init_calls h i ++ r.calls }

/-- `init_all_plugins(arr, count, queue_size, &failed_index, &failed_msg)` with
`count` the length of `arr`; `malloc_ok` is the outcome of the `malloc` in `dup_cstr`. -/
def init_all_plugins (arr : List plugin_handle_t) (queue_size : Int) (malloc_ok : Bool) :
    init_all_result :=
  init_loop arr queue_size malloc_ok arr 0

/-- What `attach_chain` leaves behind: its return value, the out-parameters
`*failed_index` and `*failed_msg`, and the contexts of the stages. -/
structure attach_chain_result where
  rc : Int
  failed_index : Nat
  failed_msg : Option String
  stages : List plugin_context_t

/-- The loop of lines 53-66 of `attach_chain` from index `i` on; the first argument is
the part of the array from `i` on, `stages` holds the context of every stage, and the
call `arr[i].attach(p)` runs `plugin_attach` on the context of stage `i`. -/
def attach_loop (malloc_ok : Bool) :
    List plugin_handle_t → Nat → List plugin_context_t → attach_chain_result
  | a :: b :: rest, i, stages =>
    if !a.attach then
      ⟨-1, i, if malloc_ok then some "missing attach()" else none, stages⟩
    else
      match b.place_work with
      | none => ⟨-1, i, if malloc_ok then some "missing next place_work()" else none, stages⟩
      | some p =>
        attach_loop malloc_ok (b :: rest) (i + 1)
          (match stages[i]? with
           | some c => stages.set i (plugin_attach c (some p))
           | none => stages)
  | _, _, stages => ⟨0, SIZE_MAX, none, stages⟩

/-- `attach_chain(arr, count, &failed_index, &failed_msg)` with `count` the length of
`arr`; `stages` are the contexts of the plugins behind the handles, in the same order. -/
def attach_chain (arr : List plugin_handle_t) (stages : List plugin_context_t)
    (malloc_ok : Bool) : attach_chain_result :=
  attach_loop malloc_ok arr 0 stages

/-! ## plugin_loader.c -/

/-- The inner loop of `find_duplicate_name` (lines 73-80): the first index `j`, from
`j0` on, of a non-null name equal to `a`; the list holds the names from `j0` on. -/
def find_dup_inner (a : CStr) : List (Option CStr) → Nat → Option Nat
  | [], _ => none
  | none :: rest, j => find_dup_inner a rest (j + 1)
  | some b :: rest, j => if a = b then some j else find_dup_inner a rest (j + 1)

/-- The outer loop of `find_duplicate_name` (lines 71-81) from index `i` on; the list
holds the names from `i` on. -/
def find_dup_outer : List (Option CStr) → Nat → Option (Nat × Nat)
  | [], _ => none
  | none :: rest, i => find_dup_outer rest (i + 1)
  | some a :: rest, i =>
    match find_dup_inner a rest (i + 1) with
    | some j => some (i, j)
    | none => find_dup_outer rest (i + 1)

/-- `find_duplicate_name(names, count, &oi, &oj)` with `count` the length of `names`:
the return value and the contents of `oi` and `oj` afterwards, `oi0` and `oj0` being
their contents before the call. -/
def find_duplicate_name (names : List (Option CStr)) (oi0 oj0 : Nat) : Int × Nat × Nat :=
  match find_dup_outer names 0 with
  | some (i, j) => (1, i, j)
  | none => (0, oi0, oj0)

/-- What the loader meets outside the program: `dlopen` gives, for a module name for
which one of the two candidate paths can be opened, the entry points that `dlsym`
resolves in it (an unresolved one is `none`, resp. `false`); `dl_error` is the text of
`dlerror()`; the other fields tell whether the allocations succeed. -/
structure loader_env where
  dlopen : CStr → Option plugin_handle_t
  dl_error : CStr
  msg_alloc_ok : Bool
  handles_alloc_ok : Bool
  name_alloc_ok : Bool

/-- A call of the dynamic loader made by `load_all_plugins`. -/
inductive loader_event where
  | open_module (name : CStr)
  | close_module (name : CStr)
  deriving DecidableEq, Repr

/-- What `load_all_plugins` leaves behind: its return value, `*out`, `*out_error` and
the calls of the dynamic loader it made, in order. -/
structure load_result where
  rc : Int
  out : Option (List plugin_handle_t)
  out_error : Option CStr
  events : List loader_event

/-- The function `build_candidate_paths`: whether both paths fit their 1024-byte
buffers ("output/" and ".so" add 10 bytes, "./" and ".so" add 5). -/
def build_candidate_paths (name : Option CStr) : Bool :=
  match name with
  | none => false
  | some n => n ≠ [] && decide (0 < n.length + 10 ∧ n.length + 10 < 1024)
      && decide (0 < n.length + 5 ∧ n.length + 5 < 1024)

/-- The error text composed by `must_dlsym` for the symbol `sym` of plugin `plug`. -/
def dlsym_message (env : loader_env) (sym : String) (plug : CStr) : CStr :=
  cstr "dlsym('" ++ cstr sym ++ cstr "') failed for plugin '" ++ plug ++ cstr "': "
    ++ env.dl_error

/-- The value of `err` after one `must_dlsym` call: unchanged when the symbol is
resolved or the message cannot be allocated, otherwise the new message. -/
def must_dlsym_err (env : loader_env) (resolved : Bool) (sym : String) (plug : CStr)
    (err : Option CStr) : Option CStr :=
  if resolved then err
  else if env.msg_alloc_ok then some (dlsym_message env sym plug) else err

/-- The `dlclose` calls of `free_partial` on the handles loaded so far. -/
def free_partial (loaded : List plugin_handle_t) : List loader_event :=
  loaded.map (fun h => loader_event.close_module (h.name.getD []))

/-- The loop of lines 117-165 of `load_all_plugins`; `loaded` are the handles stored
so far and `ev` the loader calls made so far. -/
def load_loop (env : loader_env) :
    List (Option CStr) → List plugin_handle_t → List loader_event → load_result
  | [], loaded, ev => ⟨0, some loaded, none, ev⟩
  | plug :: rest, loaded, ev =>
    if !build_candidate_paths plug then
      ⟨-1, none, if env.msg_alloc_ok then some (cstr "invalid plugin name")
                 else none, ev ++ free_partial loaded⟩
    else
      let name := plug.getD []
      match env.dlopen name with
      | none =>
        ⟨-1, none,
          if env.msg_alloc_ok then some (cstr "dlopen failed: " ++ env.dl_error) else none,
          ev ++ [.open_module name] ++ free_partial loaded⟩
      | some md =>
        let e1 := must_dlsym_err env md.init.isSome "plugin_init" name none
        let e2 := must_dlsym_err env md.fini.isSome "plugin_fini" name e1
        let e3 := must_dlsym_err env md.place_work.isSome "plugin_place_work" name e2
        let e4 := must_dlsym_err env md.attach "plugin_attach" name e3
        let e5 := must_dlsym_err env md.wait_finished "plugin_wait_finished" name e4
        match e5 with
        | some msg =>
          ⟨-1, none, some msg,
            ev ++ [.open_module name, .close_module name] ++ free_partial loaded⟩
        | none =>
          if !env.name_alloc_ok then
            ⟨-1, none,
              if env.msg_alloc_ok then some (cstr "alloc failed for plugin name") else none,
              ev ++ [.open_module name, .close_module name] ++ free_partial loaded⟩
          else
            load_loop env rest (loaded ++ [{ md with name := some name }])
              (ev ++ [.open_module name])

/-- `load_all_plugins(names, count, &out, &out_error)` with `count` the length of
`names`. -/
def load_all_plugins (env : loader_env) (names : List (Option CStr)) : load_result :=
  let d := find_duplicate_name names 0 0
  if d.1 ≠ 0 then
    let a := (names.getD d.2.1 none).getD []
    let b := (names.getD d.2.2 none).getD []
    ⟨-1, none,
      if env.msg_alloc_ok then
        some (cstr "duplicate plugin name: '" ++ a ++ cstr "' and '" ++ b ++ cstr "'")
      else none, []⟩
  else if !env.handles_alloc_ok then
    ⟨-1, none,
      if env.msg_alloc_ok then some (cstr "alloc failed for plugin handles") else none, []⟩
  else load_loop env names [] []

/-! ## main.c: the feed loop -/

/-- The constant `MAX_LINE`. -/
def MAX_LINE : Nat := 1024

/-- The bytes `fgets` stores when it may still store `room` bytes, and the input left
unread: it stops when the room is used up, after a newline, or at end of input. -/
def fgets_scan : Nat → List Nat → List Nat × List Nat
  | 0, inp => ([], inp)
  | _ + 1, [] => ([], [])
  | room + 1, c :: inp =>
    if c = 10 then ([c], inp)
    else ((c :: (fgets_scan room inp).1), (fgets_scan room inp).2)

/-- `fgets(buf, size, stdin)` on the unread input `inp`: `none` when it returns `NULL`
(end of input, nothing read), otherwise the bytes stored before the terminating NUL
and the input left unread. -/
def fgets (size : Nat) (inp : List Nat) : Option (List Nat × List Nat) :=
  match inp with
  | [] => none
  | _ :: _ => some (fgets_scan (size - 1) inp)

/-- The C string that starts a buffer: the bytes before the first NUL. -/
def c_string (buf : List Nat) : CStr := buf.takeWhile (fun c => c != 0)

/-- Lines 141-147 of main.c: drop a trailing '\n', and then a trailing '\r'. -/
def strip_line_end (line : CStr) : CStr :=
  if 0 < line.length ∧ line.getLast? = some 10 then
    if 0 < line.dropLast.length ∧ line.dropLast.getLast? = some 13 then
      line.dropLast.dropLast
    else line.dropLast
  else line

/-- What the feed loop has done on an input: the arguments of its calls of
`plugs[0].place_work`, in order, and whether it has left the loop (`seen_end`);
otherwise it is polling stdin at end of input. -/
structure feed_result where
  placed : List CStr
  seen_end : Bool
  deriving DecidableEq, Repr

/-- The loop of lines 124-161 of main.c on the bytes `inp` that stdin delivers; each
pass that gets a line consumes at least one byte, `fuel` bounds the number of passes.
The value returned by `place_work` is only reported on stderr. -/
def feed_loop_fuel : Nat → List Nat → feed_result
  | 0, _ => ⟨[], false⟩
  | fuel + 1, inp =>
    match fgets (MAX_LINE + 2) inp with
    | none => ⟨[], false⟩
    | some (buf, rest) =>
      if strip_line_end (c_string buf) = END_TOKEN then ⟨[END_TOKEN], true⟩
      else
        ⟨strip_line_end (c_string buf) :: (feed_loop_fuel fuel rest).placed,
          (feed_loop_fuel fuel rest).seen_end⟩

/-- The feed loop of `main` on the bytes `inp` of stdin, with fuel for every pass that
can get a line. -/
def feed_loop (inp : List Nat) : feed_result :=
  feed_loop_fuel (inp.length + 1) inp

/-! ## Notions used in the statements -/

/-- The slots of the ring buffer that hold the pending items, oldest first: the `count`
slots starting at `head`, cyclically. -/
def window (queue : consumer_producer_t) : List (Option CStr) :=
  (List.range queue.count).map
    (fun i => queue.items.getD ((queue.head + i) % queue.capacity) none)

/-- Shape of the ring buffer of an initialised queue. -/
structure ring_ok (queue : consumer_producer_t) : Prop where
  inited : queue.is_initialized = true
  cap_pos : 0 < queue.capacity
  items_len : queue.items.length = queue.capacity
  head_lt : queue.head < queue.capacity
  tail_eq : queue.tail = (queue.head + queue.count) % queue.capacity
  count_le : queue.count ≤ queue.capacity
  nf_init : queue.not_full_monitor.is_initialized = true
  ne_init : queue.not_empty_monitor.is_initialized = true
  fm_init : queue.finished_monitor.is_initialized = true

/-- The items of the `put` calls of a sequence of operations, in call order. -/
def puts_of : List queue_op → List CStr
  | [] => []
  | .put (some x) :: ops => x :: puts_of ops
  | _ :: ops => puts_of ops

/-- A sequence of operations in which every `put` returns success and every `get`
returns an item: the queue at the end and the items returned by the `get` calls, in
call order; `none` when some `put` or `get` of the sequence parks or fails. -/
def fifo_run (queue : consumer_producer_t) :
    List queue_op → Option (consumer_producer_t × List CStr)
  | [] => some (queue, [])
  | .put item :: ops =>
    match consumer_producer_put queue item with
    | .returned none q1 => fifo_run q1 ops
    | _ => none
  | .get :: ops =>
    match consumer_producer_get queue with
    | .returned (some x) q1 => (fifo_run q1 ops).map (fun r => (r.1, x :: r.2))
    | _ => none
  | .signal_finished :: ops => fifo_run (consumer_producer_signal_finished queue) ops

/-! ## Concrete runs -/

/-- Six puts and gets on a queue of capacity 2 that wrap around the ring buffer. -/
def demo_ops : List queue_op :=
  [.put (some (cstr "a")), .put (some (cstr "b")), .get, .put (some (cstr "c")), .get,
   .get, .put (some (cstr "d"))]

/-- The queue of capacity 2 after `demo_ops`. -/
def demo_final : consumer_producer_t :=
  { items := [none, some (cstr "d")], capacity := 2, count := 1, head := 1, tail := 0,
    finished := false, is_initialized := true, magic_set := true,
    not_full_monitor := ⟨true, true, 2⟩, not_empty_monitor := ⟨true, true, 2⟩,
    finished_monitor := ⟨true, false, 0⟩ }

/-- A run with a put that parks, a closure and a put after the closure. -/
def demo_mixed_ops : List queue_op :=
  [.put (some (cstr "a")), .put (some (cstr "b")), .put (some (cstr "c")), .get,
   .signal_finished, .put (some (cstr "d")), .get, .get, .signal_finished]

/-- A queue of capacity 2 holding one item, closed by `signal_finished`. -/
def demo_closed_queue : consumer_producer_t :=
  consumer_producer_signal_finished (queue_step (fresh_queue 2) (.put (some (cstr "a"))))

/-- An initialised uppercaser stage whose input queue is `demo_closed_queue`. -/
def demo_closed_stage : plugin_context_t :=
  { (uppercaser.plugin_init context_zero 2 true plugin_env_ok).2 with
    queue := some demo_closed_queue }

/-- Every slot of the window holds an item. -/
def pending_set (queue : consumer_producer_t) : Prop :=
  ∀ e ∈ window queue, e ≠ none

/-- A queue of capacity 1 that holds one item: it is full. -/
def demo_full : consumer_producer_t :=
  queue_step (fresh_queue 1) (.put (some (cstr "a")))

/-- The queue `demo_full` closed by `signal_finished` and then emptied by one `get`. -/
def demo_closed_drained : consumer_producer_t :=
  queue_step (consumer_producer_signal_finished demo_full) .get

/-- A queue that is finished with the latch `not_full` signalled, as it is from the
closure on. -/
structure closed_ok (queue : consumer_producer_t) : Prop where
  inited : queue.is_initialized = true
  nf_init : queue.not_full_monitor.is_initialized = true
  finished : queue.finished = true
  nf_signaled : queue.not_full_monitor.signaled = true

/-- The values returned to the worker by its `consumer_producer_get` calls when the
queue delivers `items`: the items in order and then, if the queue is then found
drained, `NULL`; otherwise the worker is left parked in `get`. -/
def deliveries (items : List CStr) (drained : Bool) : List (Option CStr) :=
  items.map some ++ (if drained then [none] else [])

/-- The longest prefix of `items` that holds no sentinel. -/
def before_sentinel (items : List CStr) : List CStr :=
  items.takeWhile (fun q => q != END_TOKEN)

/-- An uppercaser stage after `plugin_init` and `plugin_attach` to the hook at
address 7. -/
def demo_upper_stage : plugin_context_t :=
  plugin_attach (uppercaser.plugin_init context_zero 20 true plugin_env_ok).2 (some 7)

/-- A flipper stage after `plugin_init` and `plugin_attach` to the hook at address 7. -/
def demo_flip_stage : plugin_context_t :=
  plugin_attach (flipper.plugin_init context_zero 20 true plugin_env_ok).2 (some 7)

/-- A rotator stage after `plugin_init` and `plugin_attach` to the hook at address 7. -/
def demo_rotate_stage : plugin_context_t :=
  plugin_attach (rotator.plugin_init context_zero 20 true plugin_env_ok).2 (some 7)

/-- A handle whose `init` and `fini` succeed. -/
def demo_good_handle : plugin_handle_t :=
  { init := some (fun _ => none), fini := some none, place_work := some 1, attach := true,
    wait_finished := true, name := some (cstr "logger") }

/-- A handle whose `init` fails. -/
def demo_bad_handle : plugin_handle_t :=
  { init := some (fun _ => some "queue init failed"), fini := some none,
    place_work := some 2, attach := true, wait_finished := true,
    name := some (cstr "flipper") }

/-- Four stages of which the third fails to initialise. -/
def demo_handles : List plugin_handle_t :=
  [demo_good_handle, demo_good_handle, demo_bad_handle, demo_good_handle]

/-- A sequence of forwarded strings holds the sentinel at most once, and then as its
last element. -/
def sentinel_once_last (l : List CStr) : Prop :=
  l.count END_TOKEN ≤ 1 ∧ (END_TOKEN ∈ l → l.getLast? = some END_TOKEN)

/-- A transform that never returns the sentinel for another input. -/
def keeps_sentinel_apart (t : transform_fn) : Prop :=
  ∀ q o, q ≠ END_TOKEN → (t (some q)).result.value q = some o → o ≠ END_TOKEN

/-! ## Notions used in the statements about attaching -/

/-- A context as a successful `common_plugin_init` has just left it. -/
def freshly_initialised (c : plugin_context_t) : Prop :=
  ∃ g f name qs env, common_plugin_init g f name qs env = (none, c)

/-- The conditions under which `plugin_attach` writes the next-hook: the stage is
initialised, neither it nor its queue is finished, and no next-hook is set. -/
structure attachable (c : plugin_context_t) : Prop where
  inited : c.initialized = true
  not_finished : c.finished = false
  queue_open : ∀ q, c.queue = some q → q.finished = false
  unset : c.next_place_work = none

/-- The uppercaser stage right after its `plugin_init`, no hook attached yet. -/
def demo_init_stage : plugin_context_t :=
  (uppercaser.plugin_init context_zero 20 true plugin_env_ok).2

/-- The stage `demo_upper_stage` once its worker has taken the sentinel and returned. -/
def demo_done_stage : plugin_context_t :=
  (plugin_consumer_thread demo_upper_stage (deliveries [END_TOKEN] false)).ctx

/-- The handles of a pipeline uppercaser, flipper, logger: every entry point is
resolved, `place_work` of stage `i` sits at address `11 + i`. -/
def demo_chain : List plugin_handle_t :=
  [{ demo_good_handle with place_work := some 11, name := some (cstr "uppercaser") },
   { demo_good_handle with place_work := some 12, name := some (cstr "flipper") },
   { demo_good_handle with place_work := some 13, name := some (cstr "logger") }]

/-- The contexts of the three stages of `demo_chain` right after their `plugin_init`. -/
def demo_chain_stages : List plugin_context_t :=
  [(uppercaser.plugin_init context_zero 20 true plugin_env_ok).2,
   (flipper.plugin_init context_zero 20 true plugin_env_ok).2,
   (logger.plugin_init context_zero 20 plugin_env_ok).2]

/-! ## Notions used in the statements about the transforms -/

/-- The string a transform hands back for the input `x`; `none` when it returns `NULL`. -/
def transform_value (t : transform_fn) (x : CStr) : Option CStr :=
  (t (some x)).result.value x

/-- The transform applied `k` times in succession, each time to the string the call
before has returned; `none` as soon as a call returns `NULL`. -/
def transform_iterate (t : transform_fn) : Nat → CStr → Option CStr
  | 0, x => some x
  | k + 1, x => (transform_value t x).bind (transform_iterate t k)

/-! ## The pipeline as a chain of workers -/

/-- The byte strings a stage has written to stdout, one per call of its transform. -/
def writes : List worker_event → List CStr
  | [] => []
  | .write b :: es => b :: writes es
  | _ :: es => writes es

/-! ## Notions used in the statements about the pipeline -/

/-- The result of passing a line through the transforms `ts` in order; `none` when the
line or a result on the way is the sentinel, or a transform returns `NULL`. -/
def chain_apply : List transform_fn → CStr → Option CStr
  | [], x => if x = END_TOKEN then none else some x
  | t :: ts, x => if x = END_TOKEN then none else (transform_value t x).bind (chain_apply ts)

/-- Every slot outside the window is null. -/
def outside_null (queue : consumer_producer_t) : Prop :=
  ∀ i, i < queue.capacity → (¬ ∃ k, k < queue.count ∧ i = (queue.head + k) % queue.capacity) →
    queue.items.getD i none = none

/-- The wake-up latches agree with the counters. -/
structure latches_ok (queue : consumer_producer_t) : Prop where
  available : 0 < queue.count → queue.not_empty_monitor.signaled = true
  idle : queue.count = 0 → queue.finished = false →
    queue.not_empty_monitor.signaled = false
  full : queue.count = queue.capacity → queue.finished = false →
    queue.not_full_monitor.signaled = false

/-- What one move does to the queue record and to the history: nothing (the thread waits,
or its call returns an error), a store of lines 141-152, a take of lines 175-194, a
drained return of line 172, or the closure. -/
inductive sys_effect (s t : queue_sys) : Prop where
  | idle (hq : t.queue = s.queue) (hs : t.stored = s.stored) (hg : t.got = s.got)
      (hl : t.late_stores = s.late_stores)
  | stored (x : CStr) (hc : s.queue.count ≠ s.queue.capacity)
      (hq : t.queue = put_store s.queue x) (hs : t.stored = s.stored ++ [x])
      (hg : t.got = s.got)
      (hl : t.late_stores = s.late_stores + (if s.queue.finished then 1 else 0))
  | took (hc : s.queue.count ≠ 0) (hq : t.queue = (get_take s.queue).2)
      (hs : t.stored = s.stored) (hg : t.got = s.got ++ [(get_take s.queue).1])
      (hl : t.late_stores = s.late_stores)
  | drained (hc : s.queue.count = 0) (hf : s.queue.finished = true)
      (hq : t.queue = s.queue) (hs : t.stored = s.stored) (hg : t.got = s.got ++ [none])
      (hl : t.late_stores = s.late_stores)
  | closed (hq : t.queue = consumer_producer_signal_finished s.queue)
      (hs : t.stored = s.stored) (hg : t.got = s.got) (hl : t.late_stores = s.late_stores)

/-- The history agrees with the ring buffer: the items stored are the items got
followed by the items of the window. -/
structure hist_ok (s : queue_sys) : Prop where
  ring : ring_ok s.queue
  fifo : ∃ pend : List CStr, window s.queue = pend.map some ∧ s.stored = got_items s ++ pend

/-- The drained latch along the runs of the shared queue. -/
structure drained_sys_ok (s : queue_sys) : Prop where
  inited : s.queue.is_initialized = true
  fm_init : s.queue.finished_monitor.is_initialized = true
  sig_fin : s.queue.finished_monitor.signaled = true →
    s.queue.finished = true ∧ (s.queue.count = 0 ∨ 0 < s.late_stores)
  fin_sig : s.queue.finished = true → s.queue.count = 0 →
    s.queue.finished_monitor.signaled = true
  calls_le : s.queue.finished_monitor.signal_calls
    ≤ s.late_stores + (if s.queue.finished = true ∧ s.queue.count = 0 then 1 else 0)
  open_zero : s.queue.finished = false →
    s.late_stores = 0 ∧ s.queue.finished_monitor.signal_calls = 0

/-- A run on a queue of capacity 1 in which a put waits across the closure: "a" is put,
the put of "b" finds the queue full and waits, the queue is closed, the wait of the put
returns, a get takes "a", and the put re-takes the lock and stores "b". -/
def demo_straddle_moves : List queue_move :=
  [.call (.put (some (cstr "a"))), .call (.put (some (cstr "b"))), .call .signal_finished,
   .put_wait_returns 0, .call .get, .put_relock 0]

/-- Puts and gets on a queue of capacity 3 whose window wraps around, with a put that
waits on the full queue and is resumed after a get. -/
def demo_wrap_moves : List queue_move :=
  [.call (.put (some (cstr "a"))), .call (.put (some (cstr "b"))),
   .call (.put (some (cstr "c"))), .call (.put (some (cstr "d"))), .call .get,
   .put_wait_returns 0, .put_relock 0, .call .get, .call (.put (some (cstr "e")))]

/-! ## The pipeline as a set of threads -/

/-- Where a thread stands with respect to a wait loop of the queue: `running` when it
is not inside one, `asleep` when it is inside `monitor_wait`, `woken` when its
`monitor_wait` has returned and it has still to re-take `queue->lock` and to
re-evaluate the test of the `while`. -/
inductive wait_state where
  | running
  | asleep
  | woken
  deriving DecidableEq, Repr

/-- Where the worker thread of a stage stands in `plugin_consumer_thread`, between two
points at which another thread can run.  `at_get`: at, or inside, the call of
`consumer_producer_get` of line 20.  `at_hook h out last`: at, or inside, the call
`next_fn(out)` of line 35 (`last` set) or 54, `h` being the address in `next_fn`.
`at_close`: before the `consumer_producer_signal_finished` of line 38.  `exited`: the
thread function has returned. -/
inductive worker_pc where
  | at_get (w : wait_state)
  | at_hook (h : hook_ptr) (out : CStr) (last : Bool) (w : wait_state)
  | at_close
  | exited
  deriving DecidableEq, Repr

/-- A loaded and initialised plugin with its worker thread: its context
`g_context_instance`, the address of its `plugin_place_work`, the place of its worker,
and what the worker has done so far: `taken` lists the items that
`consumer_producer_get` has returned to it, `events` its transform calls, stdout writes
and next-hook calls, in order (a next-hook call is listed when it is made). -/
structure stage_t where
  ctx : plugin_context_t
  place_work : hook_ptr
  pc : worker_pc
  taken : List CStr
  events : List worker_event

/-- The threads of a running pipeline: the stages in pipeline order, and the main
thread in its feed loop.  `feed` lists the strings that `main` has still to hand to
`plugs[0].place_work` (line 150 or 156), `feed_wait` tells whether it is inside that
call, waiting for room in the queue. -/
structure pipeline_t where
  stages : List stage_t
  feed : List CStr
  feed_wait : wait_state

/-- The stage whose `plugin_place_work` sits at the address `h`: its index. -/
def find_stage (h : hook_ptr) : List stage_t → Option Nat
  | [] => none
  | st :: rest => if st.place_work = h then some 0 else (find_stage h rest).map (· + 1)

/-- Lines 227-234 of `plugin_place_work` for a caller that was waiting inside
`consumer_producer_put` and has re-taken the queue lock: the test of the `while` of
line 135 is evaluated again. -/
def place_work_relock (ctx : plugin_context_t) (copy : CStr) : place_result :=
  match ctx.queue with
  | none => .parked
  | some q =>
    match put_wait_loop q copy with
    | .returned (some qerr) _ => .returned (some qerr) ctx
    | .returned none q1 => .returned none { ctx with queue := some q1 }
    | .parked => .parked

/-- Whether the `monitor_wait` of a caller waiting inside `consumer_producer_put` of the
stage's queue returns. -/
def place_work_wait_returns (ctx : plugin_context_t) : Bool :=
  match ctx.queue with
  | none => false
  | some q => (monitor_wait q.not_full_monitor).isSome

/-- The next step of a thread that calls `plugin_place_work` of the stage `tgt` with
the string `s`, or is inside that call: the stage afterwards, and where the caller
stands (`none` when the call has returned; the error string it may return is only
reported on stderr). -/
def place_step (malloc_ok : Bool) (tgt : stage_t) (s : CStr) :
    wait_state → stage_t × Option wait_state
  | .running =>
    match plugin_place_work tgt.ctx (some s) malloc_ok with
    | .returned _ c => ({ tgt with ctx := c }, none)
    | .parked => (tgt, some .asleep)
  | .asleep =>
    if place_work_wait_returns tgt.ctx then (tgt, some .woken) else (tgt, some .asleep)
  | .woken =>
    match place_work_relock tgt.ctx s with
    | .returned _ c => ({ tgt with ctx := c }, none)
    | .parked => (tgt, some .asleep)

/-- Lines 21-51 of `plugin_consumer_thread` once `consumer_producer_get` has returned
the item `s`: the sentinel test, the transform call, the read of the next-hook.  The
worker is then at its next-hook call, at the closure of its queue, or back at
`consumer_producer_get`. -/
def worker_got (st : stage_t) (s : CStr) : stage_t :=
  if s = END_TOKEN then
    let next_fn : Option hook_ptr :=
      if !st.ctx.end_pushed then st.ctx.next_place_work else none
    let ctx1 := if !st.ctx.end_pushed then { st.ctx with end_pushed := true } else st.ctx
    match next_fn with
    | some h =>
      { st with ctx := ctx1, taken := st.taken ++ [s],
                events := st.events ++ [.forward h END_TOKEN],
                pc := .at_hook h END_TOKEN true .running }
    | none => { st with ctx := ctx1, taken := st.taken ++ [s], pc := .at_close }
  else
    let r : Option transform_out := st.ctx.process_function.map (fun f => f (some s))
    let out : Option CStr :=
      match r with
      | some o => o.result.value s
      | none => some s
    let ev1 : List worker_event :=
      match r with
      | some o => [.transform s, .write o.stdout]
      | none => []
    match st.ctx.next_place_work, out with
    | some h, some o =>
      { st with taken := st.taken ++ [s], events := st.events ++ ev1 ++ [.forward h o],
                pc := .at_hook h o false .running }
    | _, _ =>
      { st with taken := st.taken ++ [s], events := st.events ++ ev1,
                pc := .at_get .running }

/-- The worker leaves its loop at line 21 or 39 and runs lines 70-73. -/
def worker_leave (st : stage_t) : stage_t :=
  { st with ctx := worker_exit st.ctx, pc := .exited }

/-- What the worker does with the outcome of its `consumer_producer_get`. -/
def worker_after_get (st : stage_t) : get_result → stage_t
  | .parked => { st with pc := .at_get .asleep }
  | .returned none q => worker_leave { st with ctx := { st.ctx with queue := some q } }
  | .returned (some s) q => worker_got { st with ctx := { st.ctx with queue := some q } } s

/-- The next step of a worker that is at, or inside, `consumer_producer_get` (a null
`ctx->queue` makes the call return `NULL`). -/
def worker_get_step (st : stage_t) : wait_state → stage_t
  | .running =>
    match st.ctx.queue with
    | none => worker_leave st
    | some q => worker_after_get st (consumer_producer_get q)
  | .asleep =>
    match st.ctx.queue with
    | none => st
    | some q =>
      match monitor_wait q.not_empty_monitor with
      | none => st
      | some _ => { st with pc := .at_get .woken }
  | .woken =>
    match st.ctx.queue with
    | none => st
    | some q => worker_after_get st (get_wait_loop q)

/-- Line 38 of `plugin_consumer_thread`, followed by the exit of lines 70-73. -/
def worker_close (st : stage_t) : stage_t :=
  worker_leave
    { st with ctx := { st.ctx with queue := st.ctx.queue.map consumer_producer_signal_finished } }

/-- Where a worker stands once its next-hook call has returned. -/
def after_hook (last : Bool) : worker_pc :=
  if last then .at_close else .at_get .running

/-- A thread of the pipeline: the main thread, or the worker of stage `i`. -/
inductive pipeline_move where
  | main
  | worker (i : Nat)
  deriving DecidableEq, Repr

/-- The next step of the worker of stage `i`, which is at its next-hook call: the hook
at address `h` is the `plugin_place_work` of the stage that `find_stage` gives (a call
through an address that is no stage's `plugin_place_work` does not return). -/
def worker_hook_step (malloc_ok : Bool) (p : pipeline_t) (i : Nat) (h : hook_ptr)
    (out : CStr) (last : Bool) (w : wait_state) : pipeline_t :=
  match find_stage h p.stages with
  | none => p
  | some j =>
    match p.stages[j]? with
    | none => p
    | some tgt =>
      let r := place_step malloc_ok tgt out w
      let stages1 := p.stages.set j r.1
      let pc1 : worker_pc :=
        match r.2 with
        | none => after_hook last
        | some w1 => .at_hook h out last w1
      match stages1[i]? with
      | none => p
      | some st1 => { p with stages := stages1.set i { st1 with pc := pc1 } }

/-- The pipeline after the next step of one of its threads; `malloc_ok` is the outcome
of the `malloc` calls of `dup_cstr`. -/
def pipeline_step (malloc_ok : Bool) (p : pipeline_t) : pipeline_move → pipeline_t
  | .main =>
    match p.feed, p.stages with
    | s :: rest, tgt :: others =>
      let r := place_step malloc_ok tgt s p.feed_wait
      match r.2 with
      | none => { stages := r.1 :: others, feed := rest, feed_wait := .running }
      | some w1 => { stages := r.1 :: others, feed := s :: rest, feed_wait := w1 }
    | _, _ => p
  | .worker i =>
    match p.stages[i]? with
    | none => p
    | some st =>
      match st.pc with
      | .at_get w => { p with stages := p.stages.set i (worker_get_step st w) }
      | .at_hook h out last w => worker_hook_step malloc_ok p i h out last w
      | .at_close => { p with stages := p.stages.set i (worker_close st) }
      | .exited => p

/-- The pipeline after the threads have taken the steps `moves`, one after the other. -/
def pipeline_run (malloc_ok : Bool) (p : pipeline_t) (moves : List pipeline_move) :
    pipeline_t :=
  moves.foldl (pipeline_step malloc_ok) p

/-- A stage as `main` finds it when it enters its feed loop: initialised by
`plugin_init` with transform `t`, its next-hook as `attach_chain` has set it, its queue
empty, its worker at its first `consumer_producer_get`. -/
structure stage_ready (st : stage_t) (t : transform_fn) (hook : Option hook_ptr) : Prop where
  inited : st.ctx.initialized = true
  transform : st.ctx.process_function = some t
  hooked : st.ctx.next_place_work = hook
  fresh : st.ctx.end_pushed = false
  queue : ∃ C, 0 < C ∧ st.ctx.queue = some (fresh_queue C)
  pc : st.pc = .at_get .running
  taken : st.taken = []
  events : st.events = []

/-- The stages of a pipeline with transforms `ts`, in order, are ready, the next-hook of
each being the `plugin_place_work` of its successor and the last having none. -/
def stages_ready : List stage_t → List transform_fn → Prop
  | [], [] => True
  | st :: rest, t :: ts =>
    stage_ready st t (rest.head?.map (fun s => s.place_work)) ∧ stages_ready rest ts
  | _, _ => False

/-- A pipeline at the start of the feed loop, `lines` being the strings that `main` is
going to hand to the first stage: the stages are ready and their `plugin_place_work`
functions sit at distinct addresses. -/
structure pipeline_ready (p : pipeline_t) (ts : List transform_fn) (lines : List CStr) :
    Prop where
  stages : stages_ready p.stages ts
  distinct : (p.stages.map (fun s => s.place_work)).Nodup
  feed : p.feed = lines
  feed_wait : p.feed_wait = .running

/-- The pipeline uppercaser, rotator, logger with queues of 20 slots, as `plugin_init`
and `attach_chain` leave it, about to be fed "hello" and "<END>". -/
def demo_upper_rotate_log : pipeline_t :=
  { stages :=
      [⟨plugin_attach (uppercaser.plugin_init context_zero 20 true plugin_env_ok).2 (some 12),
          11, .at_get .running, [], []⟩,
       ⟨plugin_attach (rotator.plugin_init context_zero 20 true plugin_env_ok).2 (some 13),
          12, .at_get .running, [], []⟩,
       ⟨(logger.plugin_init context_zero 20 plugin_env_ok).2, 13, .at_get .running, [], []⟩],
    feed := [cstr "hello", END_TOKEN], feed_wait := .running }

/-- A schedule that takes one string at a time through three stages. -/
def demo_schedule_three : List pipeline_move :=
  [.main, .worker 0, .worker 0, .worker 1, .worker 1, .worker 2,
   .main, .worker 0, .worker 0, .worker 0, .worker 1, .worker 1, .worker 1,
   .worker 2, .worker 2]

/-- The strings that a worker with transform `t` hands to its next-hook when it has
taken the items `l` from its queue: the transform results for the items before the
first sentinel, then the sentinel if `l` holds one. -/
def stage_forwards (t : transform_fn) (l : List CStr) : List CStr :=
  (before_sentinel l).filterMap (transform_value t)
    ++ (if END_TOKEN ∈ l then [END_TOKEN] else [])

/-- The input queue of a stage. -/
def stage_queue (st : stage_t) : consumer_producer_t := st.ctx.queue.getD queue_zero

/-- The stage once the string `s` has been stored in its queue (lines 141-152 of
`consumer_producer_put`, called by `plugin_place_work`). -/
def stage_put (tgt : stage_t) (s : CStr) : stage_t :=
  { tgt with ctx := { tgt.ctx with queue := some (put_store (stage_queue tgt) s) } }

/-- The items that have been stored in the queue of a stage so far: those its worker
has taken, followed by those in the window of the ring buffer. -/
def stage_stored (st : stage_t) : List CStr :=
  st.taken ++ (window (stage_queue st)).filterMap id

/-- The strings that a stage has handed to its next-hook in calls that have returned. -/
def stage_sent (t : transform_fn) (st : stage_t) : List CStr :=
  match st.pc with
  | .at_hook _ _ _ _ => (stage_forwards t st.taken).dropLast
  | _ => stage_forwards t st.taken

/-- The lines that reach stage `k` of a pipeline with transforms `ts` fed the lines
`xs`. -/
def lines_at : List transform_fn → List CStr → Nat → List CStr
  | _, xs, 0 => xs
  | [], xs, _ + 1 => xs
  | t :: ts, xs, k + 1 => lines_at ts (xs.filterMap (transform_value t)) k

/-- What holds of a stage with transform `t` and next-hook `hook` while the pipeline
runs. -/
structure stage_inv (t : transform_fn) (hook : Option hook_ptr) (st : stage_t) : Prop where
  inited : st.ctx.initialized = true
  transform : st.ctx.process_function = some t
  hooked : st.ctx.next_place_work = hook
  queue : st.ctx.queue = some (stage_queue st)
  ring : ring_ok (stage_queue st)
  pending : pending_set (stage_queue st)
  latches : latches_ok (stage_queue st)
  writes_eq : writes st.events
    = (before_sentinel st.taken).map (fun x => (t (some x)).stdout)
  at_get : ∀ w, st.pc = .at_get w →
    END_TOKEN ∉ st.taken ∧ (stage_queue st).finished = false ∧ st.ctx.end_pushed = false
  at_hook : ∀ h out last w, st.pc = .at_hook h out last w →
    hook = some h ∧ (∃ pre, stage_forwards t st.taken = pre ++ [out])
      ∧ (stage_queue st).finished = false ∧ (last = true ↔ END_TOKEN ∈ st.taken)
      ∧ (last = false → st.ctx.end_pushed = false)
  at_close : st.pc = .at_close → END_TOKEN ∈ st.taken ∧ (stage_queue st).finished = false
  exited : st.pc = .exited → END_TOKEN ∈ st.taken ∧ (stage_queue st).finished = true

/-- What holds of the pipeline with transforms `ts`, whose `plugin_place_work`
functions sit at the addresses `addrs`, while it is fed the lines `xs` and the
sentinel: every stage is in order, the items stored in its queue so far are a prefix of
the lines that have to reach it, and they are the strings that the stage before it has
handed over (for the first stage: that `main` has handed over). -/
structure pipeline_inv (ts : List transform_fn) (addrs : List hook_ptr) (xs : List CStr)
    (p : pipeline_t) : Prop where
  len : p.stages.length = ts.length
  addr : p.stages.map (fun s => s.place_work) = addrs
  stage : ∀ k st, p.stages[k]? = some st →
    ∃ t, ts[k]? = some t ∧ stage_inv t addrs[k + 1]? st
      ∧ stage_stored st <+: lines_at ts xs k ++ [END_TOKEN]
  link : ∀ k st st1 t, p.stages[k]? = some st → p.stages[k + 1]? = some st1 →
    ts[k]? = some t → stage_stored st1 = stage_sent t st
  main : ∀ st, p.stages[0]? = some st → stage_stored st ++ p.feed = xs ++ [END_TOKEN]

/-! ## Basic facts about the queue operations -/

theorem monitor_init_zero (ok : Bool) :
    monitor_init monitor_zero ok = if ok then (0, ⟨true, false, 0⟩) else (-1, monitor_zero) := by
  cases ok <;> rfl

theorem consumer_producer_init_ok (q0 q : consumer_producer_t) (C : Int) (env : init_env)
    (h : consumer_producer_init q0 C env = (none, q)) :
    0 < C ∧ q = fresh_queue C.toNat := by
  unfold consumer_producer_init at h
  dsimp only at h
  rw [monitor_init_zero, monitor_init_zero, monitor_init_zero] at h
  by_cases h1 : C ≤ 0
  · rw [if_pos h1] at h; cases h
  rw [if_neg h1] at h
  by_cases h2 : (q0.magic_set && q0.is_initialized) = true
  · rw [if_pos h2] at h; cases h
  rw [if_neg h2] at h
  by_cases h3 : C.toNat > SIZE_MAX / SIZEOF_PTR
  · rw [if_pos h3] at h; cases h
  rw [if_neg h3] at h
  obtain ⟨a, b, c, d, e⟩ := env
  dsimp only at h
  cases a
  · simp only [Bool.not_false, ↓reduceIte] at h; cases h
  cases b
  · simp only [Bool.not_false, Bool.not_true, Bool.false_eq_true, ↓reduceIte] at h; cases h
  cases c
  · simp only [Bool.not_true, Bool.false_eq_true, ↓reduceIte, ne_eq, Int.reduceNeg,
      neg_eq_zero, one_ne_zero, not_false_eq_true] at h
    cases h
  cases d
  · simp only [Bool.not_true, Bool.false_eq_true, ↓reduceIte, ne_eq, Int.reduceNeg,
      neg_eq_zero, one_ne_zero, not_false_eq_true, not_true_eq_false] at h
    cases h
  cases e
  · simp only [Bool.not_true, Bool.false_eq_true, ↓reduceIte, ne_eq, Int.reduceNeg,
      neg_eq_zero, one_ne_zero, not_false_eq_true, not_true_eq_false] at h
    cases h
  simp only [Bool.not_true, Bool.false_eq_true, ↓reduceIte, ne_eq, Int.reduceNeg,
      neg_eq_zero, one_ne_zero, not_false_eq_true, not_true_eq_false] at h
  injection h with _ h
  exact ⟨by omega, h ▸ rfl⟩

theorem monitor_signal_inited (m : monitor_t) :
    (monitor_signal m).is_initialized = m.is_initialized := by
  unfold monitor_signal; split_ifs <;> rfl

theorem monitor_reset_inited (m : monitor_t) :
    (monitor_reset m).is_initialized = m.is_initialized := by
  unfold monitor_reset; split_ifs <;> rfl

section put_store_fields
variable (q : consumer_producer_t) (x : CStr)

theorem put_store_count : (put_store q x).count = q.count + 1 := by
  unfold put_store; dsimp only; split_ifs <;> rfl

theorem put_store_capacity : (put_store q x).capacity = q.capacity := by
  unfold put_store; dsimp only; split_ifs <;> rfl

theorem put_store_head : (put_store q x).head = q.head := by
  unfold put_store; dsimp only; split_ifs <;> rfl

theorem put_store_tail : (put_store q x).tail = (q.tail + 1) % q.capacity := by
  unfold put_store; dsimp only; split_ifs <;> rfl

theorem put_store_items : (put_store q x).items = q.items.set q.tail (some x) := by
  unfold put_store; dsimp only; split_ifs <;> rfl

theorem put_store_finished : (put_store q x).finished = q.finished := by
  unfold put_store; dsimp only; split_ifs <;> rfl

theorem put_store_inited : (put_store q x).is_initialized = q.is_initialized := by
  unfold put_store; dsimp only; split_ifs <;> rfl

theorem put_store_finished_monitor :
    (put_store q x).finished_monitor = q.finished_monitor := by
  unfold put_store; dsimp only; split_ifs <;> rfl

theorem put_store_nf_inited :
    (put_store q x).not_full_monitor.is_initialized = q.not_full_monitor.is_initialized := by
  unfold put_store; dsimp only; split_ifs <;> simp [monitor_reset_inited]

theorem put_store_ne_inited :
    (put_store q x).not_empty_monitor.is_initialized
      = q.not_empty_monitor.is_initialized := by
  unfold put_store; dsimp only; split_ifs <;> simp [monitor_signal_inited]

end put_store_fields

section get_take_fields
variable (q : consumer_producer_t)

theorem get_take_item : (get_take q).1 = q.items.getD q.head none := rfl

theorem get_take_count : (get_take q).2.count = q.count - 1 := by
  unfold get_take; dsimp only; split_ifs <;> rfl

theorem get_take_capacity : (get_take q).2.capacity = q.capacity := by
  unfold get_take; dsimp only; split_ifs <;> rfl

theorem get_take_head : (get_take q).2.head = (q.head + 1) % q.capacity := by
  unfold get_take; dsimp only; split_ifs <;> rfl

theorem get_take_tail : (get_take q).2.tail = q.tail := by
  unfold get_take; dsimp only; split_ifs <;> rfl

theorem get_take_items : (get_take q).2.items = q.items.set q.head none := by
  unfold get_take; dsimp only; split_ifs <;> rfl

theorem get_take_finished : (get_take q).2.finished = q.finished := by
  unfold get_take; dsimp only; split_ifs <;> rfl

theorem get_take_inited : (get_take q).2.is_initialized = q.is_initialized := by
  unfold get_take; dsimp only; split_ifs <;> rfl

theorem get_take_nf_inited :
    (get_take q).2.not_full_monitor.is_initialized
      = q.not_full_monitor.is_initialized := by
  unfold get_take; dsimp only; split_ifs <;> simp [monitor_signal_inited]

theorem get_take_ne_inited :
    (get_take q).2.not_empty_monitor.is_initialized
      = q.not_empty_monitor.is_initialized := by
  unfold get_take; dsimp only; split_ifs <;> simp [monitor_reset_inited]

theorem get_take_fm_inited :
    (get_take q).2.finished_monitor.is_initialized
      = q.finished_monitor.is_initialized := by
  unfold get_take; dsimp only; split_ifs <;> simp [monitor_signal_inited]

end get_take_fields

section signal_finished_fields
variable (q : consumer_producer_t)

theorem signal_finished_ring :
    (consumer_producer_signal_finished q).items = q.items
    ∧ (consumer_producer_signal_finished q).capacity = q.capacity
    ∧ (consumer_producer_signal_finished q).count = q.count
    ∧ (consumer_producer_signal_finished q).head = q.head
    ∧ (consumer_producer_signal_finished q).tail = q.tail
    ∧ (consumer_producer_signal_finished q).is_initialized = q.is_initialized := by
  unfold consumer_producer_signal_finished; dsimp only
  split_ifs <;> simp

theorem signal_finished_monitors_inited :
    (consumer_producer_signal_finished q).not_full_monitor.is_initialized
        = q.not_full_monitor.is_initialized
    ∧ (consumer_producer_signal_finished q).not_empty_monitor.is_initialized
        = q.not_empty_monitor.is_initialized
    ∧ (consumer_producer_signal_finished q).finished_monitor.is_initialized
        = q.finished_monitor.is_initialized := by
  unfold consumer_producer_signal_finished; dsimp only
  split_ifs <;> simp [monitor_signal_inited]

end signal_finished_fields

/-! ## The ring-buffer shape is kept by every operation -/

theorem ring_ok_fresh (C : Nat) (hC : 0 < C) : ring_ok (fresh_queue C) where
  inited := rfl
  cap_pos := hC
  items_len := by simp [fresh_queue]
  head_lt := hC
  tail_eq := by simp [fresh_queue]
  count_le := Nat.zero_le _
  nf_init := rfl
  ne_init := rfl
  fm_init := rfl

theorem ring_ok_put_store (q : consumer_producer_t) (x : CStr) (h : ring_ok q)
    (hc : q.count ≠ q.capacity) : ring_ok (put_store q x) where
  inited := by rw [put_store_inited]; exact h.inited
  cap_pos := by rw [put_store_capacity]; exact h.cap_pos
  items_len := by rw [put_store_items, put_store_capacity, List.length_set]; exact h.items_len
  head_lt := by rw [put_store_head, put_store_capacity]; exact h.head_lt
  tail_eq := by
    rw [put_store_tail, put_store_head, put_store_count, put_store_capacity, h.tail_eq,
      Nat.mod_add_mod, Nat.add_assoc]
  count_le := by
    rw [put_store_count, put_store_capacity]
    have := h.count_le
    omega
  nf_init := by rw [put_store_nf_inited]; exact h.nf_init
  ne_init := by rw [put_store_ne_inited]; exact h.ne_init
  fm_init := by rw [put_store_finished_monitor]; exact h.fm_init

theorem ring_ok_get_take (q : consumer_producer_t) (h : ring_ok q) (hc : q.count ≠ 0) :
    ring_ok (get_take q).2 where
  inited := by rw [get_take_inited]; exact h.inited
  cap_pos := by rw [get_take_capacity]; exact h.cap_pos
  items_len := by rw [get_take_items, get_take_capacity, List.length_set]; exact h.items_len
  head_lt := by rw [get_take_head, get_take_capacity]; exact Nat.mod_lt _ h.cap_pos
  tail_eq := by
    rw [get_take_tail, get_take_head, get_take_count, get_take_capacity, h.tail_eq,
      Nat.mod_add_mod]
    congr 1
    omega
  count_le := by
    rw [get_take_count, get_take_capacity]
    have := h.count_le
    omega
  nf_init := by rw [get_take_nf_inited]; exact h.nf_init
  ne_init := by rw [get_take_ne_inited]; exact h.ne_init
  fm_init := by rw [get_take_fm_inited]; exact h.fm_init

theorem ring_ok_signal_finished (q : consumer_producer_t) (h : ring_ok q) :
    ring_ok (consumer_producer_signal_finished q) := by
  obtain ⟨e1, e2, e3, e4, e5, e6⟩ := signal_finished_ring q
  obtain ⟨m1, m2, m3⟩ := signal_finished_monitors_inited q
  constructor
  · rw [e6]; exact h.inited
  · rw [e2]; exact h.cap_pos
  · rw [e1, e2]; exact h.items_len
  · rw [e4, e2]; exact h.head_lt
  · rw [e5, e4, e3, e2]; exact h.tail_eq
  · rw [e3, e2]; exact h.count_le
  · rw [m1]; exact h.nf_init
  · rw [m2]; exact h.ne_init
  · rw [m3]; exact h.fm_init

/-- What `consumer_producer_put` does on an initialised queue, case by case. -/
theorem put_cases (q : consumer_producer_t) (x : CStr) (hi : q.is_initialized = true) :
    consumer_producer_put q (some x) =
      if q.finished = true then .returned (some "queue finished") q
      else if q.count = q.capacity then .parked
      else .returned none (put_store q x) := by
  unfold consumer_producer_put put_wait_loop
  simp [hi]

/-- What `consumer_producer_get` does on an initialised queue, case by case. -/
theorem get_cases (q : consumer_producer_t) (hi : q.is_initialized = true) :
    consumer_producer_get q =
      if q.count = 0 then (if q.finished = true then .returned none q else .parked)
      else .returned (get_take q).1 (get_take q).2 := by
  unfold consumer_producer_get
  by_cases hc : q.count = 0 <;> by_cases hf : q.finished = true <;> simp [hi, hc, hf]

theorem ring_ok_step (q : consumer_producer_t) (op : queue_op) (h : ring_ok q) :
    ring_ok (queue_step q op) := by
  cases op with
  | put item =>
    cases item with
    | none => simpa [queue_step, consumer_producer_put, h.inited] using h
    | some x =>
      simp only [queue_step, put_cases q x h.inited]
      split_ifs with hf hc
      · exact h
      · exact h
      · exact ring_ok_put_store q x h hc
  | get =>
    simp only [queue_step, get_cases q h.inited]
    split_ifs with hc hf
    · exact h
    · exact h
    · exact ring_ok_get_take q h hc
  | signal_finished => exact ring_ok_signal_finished q h

theorem ring_ok_run (ops : List queue_op) (q : consumer_producer_t) (h : ring_ok q) :
    ring_ok (queue_run q ops) := by
  induction ops generalizing q with
  | nil => exact h
  | cons op ops ih => exact ih _ (ring_ok_step q op h)

/-! ## The window of pending items -/

/-- Two distinct offsets less than a full turn apart address distinct slots. -/
theorem ring_slot_ne (C h a b : Nat) (hab : a < b) (hb : b < a + C) :
    (h + a) % C ≠ (h + b) % C := by
  intro heq
  have hle : h + a ≤ h + b := by omega
  have hdvd : C ∣ (h + b) - (h + a) := (Nat.modEq_iff_dvd' hle).1 heq
  have hpos : 0 < (h + b) - (h + a) := by omega
  have := Nat.le_of_dvd hpos hdvd
  omega

theorem getD_set_ne (l : List (Option CStr)) (n m : Nat) (a : Option CStr) (h : n ≠ m) :
    (l.set n a).getD m none = l.getD m none := by
  simp [List.getD_eq_getElem?_getD, List.getElem?_set_ne h]

theorem getD_set_self (l : List (Option CStr)) (n : Nat) (a : Option CStr)
    (h : n < l.length) : (l.set n a).getD n none = a := by
  simp [List.getD_eq_getElem?_getD, List.getElem?_set, h]

theorem window_put_store (q : consumer_producer_t) (x : CStr) (h : ring_ok q)
    (hc : q.count ≠ q.capacity) : window (put_store q x) = window q ++ [some x] := by
  have hlt : q.count < q.capacity := lt_of_le_of_ne h.count_le hc
  unfold window
  rw [put_store_count, put_store_items, put_store_head, put_store_capacity,
    List.range_succ, List.map_append]
  congr 1
  · apply List.map_congr_left
    intro i hi
    rw [List.mem_range] at hi
    apply getD_set_ne
    rw [h.tail_eq]
    exact (ring_slot_ne q.capacity q.head i q.count hi (by omega)).symm
  · simp only [List.map_cons, List.map_nil]
    rw [← h.tail_eq, getD_set_self]
    rw [h.items_len, h.tail_eq]
    exact Nat.mod_lt _ h.cap_pos

theorem window_get_take (q : consumer_producer_t) (h : ring_ok q) (hc : q.count ≠ 0) :
    window q = q.items.getD q.head none :: window (get_take q).2 := by
  have hle := h.count_le
  unfold window
  rw [get_take_count, get_take_items, get_take_head, get_take_capacity]
  obtain ⟨n, hn⟩ : ∃ n, q.count = n + 1 := ⟨q.count - 1, by omega⟩
  rw [hn, List.range_succ_eq_map, List.map_cons, List.map_map, Nat.add_sub_cancel,
    Nat.add_zero, Nat.mod_eq_of_lt h.head_lt]
  congr 1
  apply List.map_congr_left
  intro i hi
  rw [List.mem_range] at hi
  simp only [Function.comp_apply, Nat.succ_eq_add_one]
  rw [Nat.mod_add_mod]
  have hne : q.head ≠ (q.head + (1 + i)) % q.capacity := by
    have := ring_slot_ne q.capacity q.head 0 (1 + i) (by omega) (by omega)
    rwa [Nat.add_zero, Nat.mod_eq_of_lt h.head_lt] at this
  rw [Nat.add_assoc, getD_set_ne _ _ _ _ hne, Nat.add_comm i 1]

theorem window_signal_finished (q : consumer_producer_t) :
    window (consumer_producer_signal_finished q) = window q := by
  obtain ⟨e1, e2, e3, e4, -, -⟩ := signal_finished_ring q
  unfold window
  rw [e1, e2, e3, e4]

theorem window_length (q : consumer_producer_t) : (window q).length = q.count := by
  simp [window]

/-- The items handed out by a run of successful operations, followed by the items still
pending, are the items that were pending at the start followed by the items put. -/
theorem fifo_run_pending (ops : List queue_op) (q q1 : consumer_producer_t)
    (pend outs : List CStr) (h : ring_ok q) (hw : window q = pend.map some)
    (hr : fifo_run q ops = some (q1, outs)) :
    ∃ pend1, pend ++ puts_of ops = outs ++ pend1 ∧ window q1 = pend1.map some
      ∧ ring_ok q1 := by
  induction ops generalizing q pend outs with
  | nil =>
    simp only [fifo_run, Option.some.injEq, Prod.mk.injEq] at hr
    obtain ⟨rfl, rfl⟩ := hr
    exact ⟨pend, by simp [puts_of], hw, h⟩
  | cons op ops ih =>
    cases op with
    | put item =>
      cases item with
      | none => simp [fifo_run, consumer_producer_put, h.inited] at hr
      | some x =>
        simp only [fifo_run, put_cases q x h.inited] at hr
        split_ifs at hr with hf hc
        have hw1 : window (put_store q x) = (pend ++ [x]).map some := by
          rw [window_put_store q x h hc, hw]; simp
        obtain ⟨p1, e1, e2, e3⟩ := ih _ _ _ (ring_ok_put_store q x h hc) hw1 hr
        exact ⟨p1, by simpa [puts_of] using e1, e2, e3⟩
    | get =>
      simp only [fifo_run, get_cases q h.inited] at hr
      split_ifs at hr with hc hf
      have hwin := window_get_take q h hc
      rw [← get_take_item] at hwin
      cases hit : (get_take q).1 with
      | none => rw [hit] at hr; simp at hr
      | some x =>
        rw [hit] at hr hwin
        simp only [Option.map_eq_some', Prod.mk.injEq, Prod.exists] at hr
        obtain ⟨q2, outs2, hr2, rfl, rfl⟩ := hr
        rw [hw] at hwin
        cases pend with
        | nil => simp at hwin
        | cons y pend2 =>
          simp only [List.map_cons, List.cons.injEq, Option.some.injEq] at hwin
          obtain ⟨rfl, hw2⟩ := hwin
          obtain ⟨p1, e1, e2, e3⟩ := ih _ _ _ (ring_ok_get_take q h hc) hw2.symm hr2
          exact ⟨p1, by simpa [puts_of] using e1, e2, e3⟩
    | signal_finished =>
      simp only [fifo_run] at hr
      obtain ⟨p1, e1, e2, e3⟩ :=
        ih _ _ _ (ring_ok_signal_finished q h) ((window_signal_finished q).trans hw) hr
      exact ⟨p1, by simpa [puts_of] using e1, e2, e3⟩

/-! ## Claims about the bounded queue -/

/-- C2. FIFO order: on a freshly initialised queue of any capacity, in every sequence
of operations whose puts and gets all succeed, the items returned by `get` are, in
order, the first items that were put (the k-th returned is the k-th put); the items
returned so far, followed by the items still in the window of the ring buffer, are
exactly the items put, in insertion order. -/
theorem fifo_order (q0 q q1 : consumer_producer_t) (C : Int) (env : init_env)
    (ops : List queue_op) (outs : List CStr)
    (hinit : consumer_producer_init q0 C env = (none, q))
    (hrun : fifo_run q ops = some (q1, outs)) :
    outs = (puts_of ops).take outs.length
    ∧ ∃ pending, puts_of ops = outs ++ pending ∧ window q1 = pending.map some := by
  obtain ⟨hC, rfl⟩ := consumer_producer_init_ok q0 q C env hinit
  have hpos : 0 < C.toNat := by omega
  have hw : window (fresh_queue C.toNat) = ([] : List CStr).map some := by
    simp [window, fresh_queue]
  obtain ⟨pend, e1, e2, -⟩ :=
    fifo_run_pending ops _ q1 [] outs (ring_ok_fresh _ hpos) hw hrun
  rw [List.nil_append] at e1
  refine ⟨?_, pend, e1, e2⟩
  rw [e1, List.take_left' rfl]

theorem fifo_order_witness :
    consumer_producer_init queue_zero 2 env_ok = (none, fresh_queue 2)
    ∧ fifo_run (fresh_queue 2) demo_ops
        = some (demo_final, [cstr "a", cstr "b", cstr "c"])
    ∧ ([cstr "a", cstr "b", cstr "c"]
          = (puts_of demo_ops).take [cstr "a", cstr "b", cstr "c"].length
       ∧ ∃ pending, puts_of demo_ops = [cstr "a", cstr "b", cstr "c"] ++ pending
           ∧ window demo_final = pending.map some) :=
  ⟨by decide, by decide,
    fifo_order queue_zero (fresh_queue 2) demo_final 2 env_ok demo_ops
      [cstr "a", cstr "b", cstr "c"] (by decide) (by decide)⟩

/-- C5. A put of a non-null item on an initialised queue whose finished flag is set
returns "queue finished" and leaves the whole queue record (slots, head, tail, count,
finished flag, the three latches) as it was, whatever `count` is; `plugin_place_work`
on the stage that owns the queue returns that same error and leaves the stage and its
queue as they were (if its copy cannot be allocated it returns "alloc failed", again
without touching the queue). -/
theorem put_on_finished_queue (ctx : plugin_context_t) (q : consumer_producer_t)
    (item : CStr) (hci : ctx.initialized = true) (hcq : ctx.queue = some q)
    (hi : q.is_initialized = true) (hf : q.finished = true) :
    consumer_producer_put q (some item) = .returned (some "queue finished") q
    ∧ plugin_place_work ctx (some item) true = .returned (some "queue finished") ctx
    ∧ plugin_place_work ctx (some item) false = .returned (some "alloc failed") ctx := by
  have hput : consumer_producer_put q (some item) = .returned (some "queue finished") q := by
    rw [put_cases q item hi, if_pos hf]
  refine ⟨hput, ?_, ?_⟩ <;> unfold plugin_place_work <;> simp [hci, hcq, hput]

theorem put_on_finished_queue_witness :
    demo_closed_stage.initialized = true
    ∧ demo_closed_stage.queue = some demo_closed_queue
    ∧ demo_closed_queue.is_initialized = true
    ∧ demo_closed_queue.finished = true
    ∧ demo_closed_queue.count = 1
    ∧ (consumer_producer_put demo_closed_queue (some (cstr "x"))
          = .returned (some "queue finished") demo_closed_queue
      ∧ plugin_place_work demo_closed_stage (some (cstr "x")) true
          = .returned (some "queue finished") demo_closed_stage
      ∧ plugin_place_work demo_closed_stage (some (cstr "x")) false
          = .returned (some "alloc failed") demo_closed_stage) :=
  ⟨by decide, by decide, by decide, by decide, by decide,
    put_on_finished_queue demo_closed_stage demo_closed_queue (cstr "x")
      (by decide) (by decide) (by decide) (by decide)⟩

theorem signal_finished_idem (q : consumer_producer_t) (hf : q.finished = true) :
    consumer_producer_signal_finished q = q := by
  unfold consumer_producer_signal_finished
  simp [hf]

theorem signal_finished_sets (q : consumer_producer_t) (hi : q.is_initialized = true) :
    (consumer_producer_signal_finished q).finished = true := by
  unfold consumer_producer_signal_finished
  dsimp only
  by_cases hf : q.finished = true
  · simp [hi, hf]
  · simp only [hi, hf]
    split_ifs <;> simp_all

theorem queue_step_finished (q : consumer_producer_t) (op : queue_op)
    (hf : q.finished = true) : (queue_step q op).finished = true := by
  cases op with
  | put item =>
    cases item with
    | none =>
      simp only [queue_step, consumer_producer_put]
      split_ifs <;> exact hf
    | some x =>
      simp only [queue_step, consumer_producer_put, hf, if_true]
      split_ifs <;> exact hf
  | get =>
    simp only [queue_step, consumer_producer_get]
    split_ifs
    · exact hf
    · exact hf
    · exact hf
    · dsimp only; rw [get_take_finished]; exact hf
  | signal_finished =>
    show (consumer_producer_signal_finished q).finished = true
    rw [signal_finished_idem q hf]; exact hf

theorem queue_run_finished (ops : List queue_op) (q : consumer_producer_t)
    (hf : q.finished = true) : (queue_run q ops).finished = true := by
  induction ops generalizing q with
  | nil => exact hf
  | cons op ops ih => exact ih _ (queue_step_finished q op hf)

/-- C9. Once `signal_finished` has set the finished flag of an initialised queue, the
flag is set after every further sequence of put, get and signal_finished operations,
and a further `signal_finished`, at once or after such a sequence, leaves the whole
queue record unchanged. -/
theorem finished_stays_set (q : consumer_producer_t) (ops : List queue_op)
    (hi : q.is_initialized = true) :
    (consumer_producer_signal_finished q).finished = true
    ∧ (queue_run (consumer_producer_signal_finished q) ops).finished = true
    ∧ consumer_producer_signal_finished (consumer_producer_signal_finished q)
        = consumer_producer_signal_finished q
    ∧ consumer_producer_signal_finished (queue_run (consumer_producer_signal_finished q) ops)
        = queue_run (consumer_producer_signal_finished q) ops := by
  have h1 := signal_finished_sets q hi
  have h2 := queue_run_finished ops _ h1
  exact ⟨h1, h2, signal_finished_idem _ h1, signal_finished_idem _ h2⟩

theorem finished_stays_set_witness :
    (fresh_queue 2).is_initialized = true
    ∧ ((consumer_producer_signal_finished (fresh_queue 2)).finished = true
      ∧ (queue_run (consumer_producer_signal_finished (fresh_queue 2)) demo_mixed_ops).finished
          = true
      ∧ consumer_producer_signal_finished (consumer_producer_signal_finished (fresh_queue 2))
          = consumer_producer_signal_finished (fresh_queue 2)
      ∧ consumer_producer_signal_finished
            (queue_run (consumer_producer_signal_finished (fresh_queue 2)) demo_mixed_ops)
          = queue_run (consumer_producer_signal_finished (fresh_queue 2)) demo_mixed_ops) :=
  ⟨by decide, finished_stays_set (fresh_queue 2) demo_mixed_ops (by decide)⟩

/-! ### The drained latch after `get` and `signal_finished` -/

theorem get_take_finished_monitor (q : consumer_producer_t) :
    (get_take q).2.finished_monitor =
      if q.count - 1 = 0 ∧ q.finished = true then monitor_signal q.finished_monitor
      else q.finished_monitor := by
  unfold get_take
  dsimp only
  split_ifs <;> first | rfl | simp_all

theorem signal_finished_finished_monitor (q : consumer_producer_t)
    (hi : q.is_initialized = true) (hf : q.finished = false) :
    (consumer_producer_signal_finished q).finished_monitor =
      if q.count = 0 then monitor_signal q.finished_monitor else q.finished_monitor := by
  unfold consumer_producer_signal_finished
  dsimp only
  by_cases h1 : q.count = 0 <;> simp [hi, hf, h1]

/-! ### A put that is parked when the queue is closed -/

theorem get_take_not_full_signaled (q : consumer_producer_t)
    (hi : q.not_full_monitor.is_initialized = true)
    (hs : q.not_full_monitor.signaled = true) :
    (get_take q).2.not_full_monitor.signaled = true := by
  unfold get_take
  dsimp only
  split_ifs <;> simp [monitor_signal, hi, hs]

theorem closed_ok_signal_finished (q : consumer_producer_t) (h : ring_ok q)
    (hf : q.finished = false) : closed_ok (consumer_producer_signal_finished q) where
  inited := by rw [(signal_finished_ring q).2.2.2.2.2]; exact h.inited
  nf_init := by rw [(signal_finished_monitors_inited q).1]; exact h.nf_init
  finished := signal_finished_sets q h.inited
  nf_signaled := by
    unfold consumer_producer_signal_finished
    dsimp only
    simp only [h.inited, hf]
    split_ifs <;> simp_all [monitor_signal, h.nf_init]

theorem closed_ok_step (q : consumer_producer_t) (op : queue_op) (h : closed_ok q) :
    closed_ok (queue_step q op) := by
  cases op with
  | put item =>
    cases item with
    | none => simpa [queue_step, consumer_producer_put, h.inited] using h
    | some x =>
      simp only [queue_step, put_cases q x h.inited, if_pos h.finished]
      exact h
  | get =>
    simp only [queue_step, get_cases q h.inited]
    split_ifs with hc hf
    · exact h
    · exact h
    · constructor
      · rw [get_take_inited]; exact h.inited
      · rw [get_take_nf_inited]; exact h.nf_init
      · rw [get_take_finished]; exact h.finished
      · exact get_take_not_full_signaled q h.nf_init h.nf_signaled
  | signal_finished =>
    show closed_ok (consumer_producer_signal_finished q)
    rw [signal_finished_idem q h.finished]; exact h

theorem closed_ok_run (ops : List queue_op) (q : consumer_producer_t) (h : closed_ok q) :
    closed_ok (queue_run q ops) := by
  induction ops generalizing q with
  | nil => exact h
  | cons op ops ih => exact ih _ (closed_ok_step q op h)

/-- C7, as the claim states it, fails.  On a queue of capacity 1 holding "a", a put of
"b" passes the entry check and parks.  After `signal_finished` the woken put finds the
queue still full and goes back to waiting; it does not return "queue finished".  After
one `get` has made room, the woken put stores "b", sets count to 1 and returns success
on the finished queue. -/
theorem parked_put_inserts_after_finish :
    consumer_producer_put demo_full (some (cstr "b")) = .parked
    ∧ put_wake (consumer_producer_signal_finished demo_full) (cstr "b") = .parked
    ∧ demo_closed_drained.finished = true
    ∧ demo_closed_drained.items = [none]
    ∧ demo_closed_drained.count = 0
    ∧ put_wake demo_closed_drained (cstr "b")
        = .returned none (put_store demo_closed_drained (cstr "b"))
    ∧ put_wake demo_closed_drained (cstr "b")
        ≠ .returned (some "queue finished") demo_closed_drained
    ∧ (put_store demo_closed_drained (cstr "b")).items = [some (cstr "b")]
    ∧ (put_store demo_closed_drained (cstr "b")).count = 1
    ∧ (put_store demo_closed_drained (cstr "b")).finished = true := by
  decide

/-- C7, amended.  Let a put of `item` be parked on a full, unfinished queue reached from
a successful initialisation, and let `signal_finished` be called in that state, followed
by any operations of other threads.  When the put wakes it re-tests only
`count == capacity`: it never returns an error (so not "queue finished"); while the
queue is still full it goes back to waiting and slots, tail and count are untouched;
once room has been made it stores its item at `tail`, increments count and returns
success, the finished flag staying set. -/
theorem parked_put_after_finish (q0 q : consumer_producer_t) (C : Int) (env : init_env)
    (before after : List queue_op) (item : CStr)
    (hinit : consumer_producer_init q0 C env = (none, q))
    (hpark : consumer_producer_put (queue_run q before) (some item) = .parked) :
    (¬ ∃ e s1, put_wake
          (queue_run (consumer_producer_signal_finished (queue_run q before)) after) item
        = .returned (some e) s1)
    ∧ (((queue_run (consumer_producer_signal_finished (queue_run q before)) after).count
          = (queue_run (consumer_producer_signal_finished (queue_run q before)) after).capacity
        ∧ put_wake
            (queue_run (consumer_producer_signal_finished (queue_run q before)) after) item
          = .parked)
      ∨ ((queue_run (consumer_producer_signal_finished (queue_run q before)) after).count
          < (queue_run (consumer_producer_signal_finished (queue_run q before)) after).capacity
        ∧ put_wake
            (queue_run (consumer_producer_signal_finished (queue_run q before)) after) item
          = .returned none (put_store
              (queue_run (consumer_producer_signal_finished (queue_run q before)) after) item)
        ∧ (put_store
            (queue_run (consumer_producer_signal_finished (queue_run q before)) after)
            item).items
          = (queue_run (consumer_producer_signal_finished (queue_run q before)) after).items.set
              (queue_run (consumer_producer_signal_finished (queue_run q before)) after).tail
              (some item)
        ∧ (put_store
            (queue_run (consumer_producer_signal_finished (queue_run q before)) after)
            item).count
          = (queue_run (consumer_producer_signal_finished (queue_run q before)) after).count + 1
        ∧ (put_store
            (queue_run (consumer_producer_signal_finished (queue_run q before)) after)
            item).finished = true)) := by
  obtain ⟨hC, rfl⟩ := consumer_producer_init_ok q0 q C env hinit
  have hpos : 0 < C.toNat := by omega
  have hr := ring_ok_run before _ (ring_ok_fresh _ hpos)
  generalize queue_run (fresh_queue C.toNat) before = p at hr hpark
  have hnf : p.finished = false := by
    rw [put_cases p item hr.inited] at hpark
    cases hv : p.finished with
    | false => rfl
    | true => rw [if_pos hv] at hpark; cases hpark
  have hclosed := closed_ok_run after _ (closed_ok_signal_finished p hr hnf)
  have hring := ring_ok_run after _ (ring_ok_signal_finished p hr)
  generalize queue_run (consumer_producer_signal_finished p) after = s at hclosed hring
  have hwake : put_wake s item = put_wait_loop s item := by
    unfold put_wake monitor_wait
    simp [hclosed.nf_init, hclosed.nf_signaled]
  have hloop : put_wait_loop s item
      = if s.count = s.capacity then .parked else .returned none (put_store s item) := by
    unfold put_wait_loop
    by_cases hc : s.count = s.capacity <;> simp [hc]
  rw [hwake, hloop]
  by_cases hc : s.count = s.capacity
  · rw [if_pos hc]
    refine ⟨?_, Or.inl ⟨hc, rfl⟩⟩
    rintro ⟨e, s1, h⟩
    cases h
  · rw [if_neg hc]
    refine ⟨?_, Or.inr ⟨?_, rfl, put_store_items s item, put_store_count s item, ?_⟩⟩
    · rintro ⟨e, s1, h⟩
      cases h
    · exact lt_of_le_of_ne hring.count_le hc
    · rw [put_store_finished]; exact hclosed.finished

theorem parked_put_after_finish_witness :
    consumer_producer_init queue_zero 1 env_ok = (none, fresh_queue 1)
    ∧ consumer_producer_put (queue_run (fresh_queue 1) [.put (some (cstr "a"))])
        (some (cstr "b")) = .parked
    ∧ put_wake
        (queue_run (consumer_producer_signal_finished
          (queue_run (fresh_queue 1) [.put (some (cstr "a"))])) [.get]) (cstr "b")
      = .returned none (put_store
        (queue_run (consumer_producer_signal_finished
          (queue_run (fresh_queue 1) [.put (some (cstr "a"))])) [.get]) (cstr "b")) :=
  ⟨by decide, by decide,
    ((parked_put_after_finish queue_zero (fresh_queue 1) 1 env_ok
        [.put (some (cstr "a"))] [.get] (cstr "b") (by decide) (by decide)).2.resolve_left
      (by decide)).2.1⟩

/-! ## Claims about the stage worker -/

theorem hook_calls_append (a b : List worker_event) :
    hook_calls (a ++ b) = hook_calls a ++ hook_calls b := by
  induction a with
  | nil => rfl
  | cons e a ih => cases e <;> simp [hook_calls, ih]

theorem transformed_append (a b : List worker_event) :
    transformed (a ++ b) = transformed a ++ transformed b := by
  induction a with
  | nil => rfl
  | cons e a ih => cases e <;> simp [transformed, ih]

/-- The worker on a sentinel: it forwards the sentinel to the hook, if one is attached
and `end_pushed` was clear, and leaves the loop. -/
theorem worker_on_sentinel (ctx : plugin_context_t) (rest : List (Option CStr))
    (he : ctx.end_pushed = false) :
    (plugin_consumer_thread ctx (some END_TOKEN :: rest)).events
      = match ctx.next_place_work with
        | some h => [.forward h END_TOKEN]
        | none => [] := by
  simp [plugin_consumer_thread, worker_iteration, he]

/-- The worker on an item other than the sentinel: it calls the transform, forwards
the result unless that is `NULL` or no hook is attached, and goes on with the loop in
the same context. -/
theorem worker_on_item (ctx : plugin_context_t) (t : transform_fn) (s : CStr)
    (rest : List (Option CStr)) (ht : ctx.process_function = some t)
    (hs : s ≠ END_TOKEN) :
    (plugin_consumer_thread ctx (some s :: rest)).events
      = [.transform s, .write (t (some s)).stdout]
        ++ (match ctx.next_place_work, (t (some s)).result.value s with
            | some h, some o => [.forward h o]
            | _, _ => [])
        ++ (plugin_consumer_thread ctx rest).events := by
  simp [plugin_consumer_thread, worker_iteration, ht, hs]

theorem worker_calls (ctx : plugin_context_t) (t : transform_fn)
    (items : List CStr) (drained : Bool) (ht : ctx.process_function = some t)
    (he : ctx.end_pushed = false) :
    hook_calls (plugin_consumer_thread ctx (deliveries items drained)).events
      = (match ctx.next_place_work with
         | some h =>
           ((before_sentinel items).filterMap
              (fun q => (t (some q)).result.value q)).map (fun o => (h, o))
            ++ (if END_TOKEN ∈ items then [(h, END_TOKEN)] else [])
         | none => [])
    ∧ transformed (plugin_consumer_thread ctx (deliveries items drained)).events
      = before_sentinel items := by
  induction items with
  | nil =>
    cases drained <;> cases ctx.next_place_work <;>
      simp [deliveries, before_sentinel, plugin_consumer_thread, worker_iteration,
        hook_calls, transformed]
  | cons s items ih =>
    have hd : deliveries (s :: items) drained = some s :: deliveries items drained := rfl
    rw [hd]
    by_cases hs : s = END_TOKEN
    · subst hs
      rw [worker_on_sentinel ctx _ he]
      cases ctx.next_place_work <;> simp [before_sentinel, hook_calls, transformed]
    · rw [worker_on_item ctx t s _ ht hs]
      obtain ⟨ih1, ih2⟩ := ih
      have hb : before_sentinel (s :: items) = s :: before_sentinel items := by
        simp [before_sentinel, hs]
      have hmem : (END_TOKEN ∈ s :: items) ↔ END_TOKEN ∈ items := by
        simp [List.mem_cons, Ne.symm hs]
      rw [hb]
      constructor
      · rw [hook_calls_append, hook_calls_append, ih1]
        cases ctx.next_place_work with
        | none => simp [hook_calls]
        | some h =>
          simp only [hmem]
          cases hv : (t (some s)).result.value s with
          | none => simp [hook_calls, List.filterMap_cons, hv]
          | some o => simp [hook_calls, List.filterMap_cons, hv]
      · rw [transformed_append, transformed_append, ih2]
        cases ctx.next_place_work with
        | none => simp [transformed]
        | some h =>
          cases hv : (t (some s)).result.value s <;> simp [transformed]

/-- C3. For a stage with transform `t` whose input queue delivers `items` (after which
the worker finds the queue drained, or is left waiting), the worker started with
`end_pushed` clear calls the transform on exactly the items before the first
`"<END>"`, in queue order.  With the hook `h` attached, its calls of a next-hook are:
`h (t q)` for each such item `q` whose `t q` is not `NULL`, in queue order, then
`h "<END>"` once if some item is `"<END>"`, and no other call.  With no hook attached
it makes no call of a next-hook. -/
theorem worker_forwards_in_order (ctx : plugin_context_t) (t : transform_fn) (h : hook_ptr)
    (items : List CStr) (drained : Bool) (ht : ctx.process_function = some t)
    (hh : ctx.next_place_work = some h) (he : ctx.end_pushed = false) :
    hook_calls (plugin_consumer_thread ctx (deliveries items drained)).events
      = ((before_sentinel items).filterMap
            (fun q => (t (some q)).result.value q)).map (fun o => (h, o))
          ++ (if END_TOKEN ∈ items then [(h, END_TOKEN)] else [])
    ∧ transformed (plugin_consumer_thread ctx (deliveries items drained)).events
      = before_sentinel items
    ∧ hook_calls (plugin_consumer_thread { ctx with next_place_work := none }
          (deliveries items drained)).events = []
    ∧ transformed (plugin_consumer_thread { ctx with next_place_work := none }
          (deliveries items drained)).events = before_sentinel items := by
  obtain ⟨a1, a2⟩ := worker_calls ctx t items drained ht he
  obtain ⟨b1, b2⟩ := worker_calls { ctx with next_place_work := none } t items drained ht he
  rw [hh] at a1
  exact ⟨a1, a2, b1, b2⟩

theorem worker_forwards_in_order_witness :
    demo_upper_stage.process_function = some (uppercaser.plugin_transform true)
    ∧ demo_upper_stage.next_place_work = some 7
    ∧ demo_upper_stage.end_pushed = false
    ∧ hook_calls (plugin_consumer_thread demo_upper_stage
        (deliveries [cstr "ab", cstr "", END_TOKEN, cstr "cd", END_TOKEN] true)).events
      = [(7, cstr "AB"), (7, cstr ""), (7, END_TOKEN)]
    ∧ transformed (plugin_consumer_thread demo_upper_stage
        (deliveries [cstr "ab", cstr "", END_TOKEN, cstr "cd", END_TOKEN] true)).events
      = [cstr "ab", cstr ""] :=
  ⟨rfl, rfl, rfl,
    (worker_forwards_in_order demo_upper_stage (uppercaser.plugin_transform true) 7
      [cstr "ab", cstr "", END_TOKEN, cstr "cd", END_TOKEN] true rfl rfl rfl).1.trans
      (by decide),
    (worker_forwards_in_order demo_upper_stage (uppercaser.plugin_transform true) 7
      [cstr "ab", cstr "", END_TOKEN, cstr "cd", END_TOKEN] true rfl rfl rfl).2.1.trans
      (by decide)⟩

/-- C1 at its failing inputs.  An uppercaser stage fed "<end>", "x", "<END>" hands its
next-hook "<END>", then "X", then "<END>" again; a flipper stage fed ">DNE<", "<END>"
and a rotator stage fed "END><", "<END>" each hand their next-hook "<END>" twice. -/
theorem transform_output_sentinel_forwarded :
    forwarded (plugin_consumer_thread demo_upper_stage
        (deliveries [cstr "<end>", cstr "x", END_TOKEN] true)).events
      = [END_TOKEN, cstr "X", END_TOKEN]
    ∧ forwarded (plugin_consumer_thread demo_flip_stage
        (deliveries [cstr ">DNE<", END_TOKEN] true)).events
      = [END_TOKEN, END_TOKEN]
    ∧ forwarded (plugin_consumer_thread demo_rotate_stage
        (deliveries [cstr "END><", END_TOKEN] true)).events
      = [END_TOKEN, END_TOKEN] := by
  decide

/-- The part of C1 that the worker does guarantee: when the transform never turns
another input into the sentinel, the strings handed to the next-hook hold "<END>" at
most once, and last. -/
theorem sentinel_last_of_apart (ctx : plugin_context_t) (t : transform_fn)
    (items : List CStr) (drained : Bool) (ht : ctx.process_function = some t)
    (he : ctx.end_pushed = false) (hap : keeps_sentinel_apart t) :
    sentinel_once_last
      (forwarded (plugin_consumer_thread ctx (deliveries items drained)).events) := by
  unfold forwarded
  rw [(worker_calls ctx t items drained ht he).1]
  cases ctx.next_place_work with
  | none => exact ⟨by simp, by simp⟩
  | some h =>
    have hA : END_TOKEN ∉
        (before_sentinel items).filterMap (fun q => (t (some q)).result.value q) := by
      intro hmem
      obtain ⟨q, hq, hv⟩ := List.mem_filterMap.1 hmem
      have hne : q ≠ END_TOKEN := by
        have := List.mem_takeWhile_imp hq
        simpa using this
      exact hap q END_TOKEN hne hv rfl
    simp only [List.map_append, List.map_map]
    have hfun : (Prod.snd ∘ fun o : CStr => (h, o)) = id := rfl
    rw [hfun, List.map_id]
    by_cases hE : END_TOKEN ∈ items
    · rw [if_pos hE]
      constructor
      · rw [List.count_append, List.count_eq_zero_of_not_mem hA]
        simp
      · intro _
        simp
    · rw [if_neg hE]
      constructor
      · simp [List.count_eq_zero_of_not_mem hA]
      · intro hmem
        simp only [List.map_nil, List.append_nil] at hmem
        exact absurd hmem hA

theorem logger_keeps_sentinel_apart : keeps_sentinel_apart logger.plugin_transform := by
  intro q o hq hv
  simp only [logger.plugin_transform] at hv
  split_ifs at hv <;> simp [transform_result.value] at hv <;> subst hv <;> exact hq

theorem typewriter_keeps_sentinel_apart :
    keeps_sentinel_apart typewriter.plugin_transform := by
  intro q o hq hv
  simp only [typewriter.plugin_transform] at hv
  split_ifs at hv <;> simp [transform_result.value] at hv <;> subst hv <;> exact hq

theorem expand_from_second (s : CStr) (n : Nat) (hn : 2 ≤ n) :
    ∃ rest, expander.expand_from s n 0 n = s.getD 0 0 :: 32 :: rest := by
  obtain ⟨m, rfl⟩ : ∃ m, n = m + 2 := ⟨n - 2, by omega⟩
  refine ⟨expander.expand_from s (m + 2) 1 (m + 1), ?_⟩
  rw [expander.expand_from]
  simp

theorem expander_keeps_sentinel_apart (malloc_ok : Bool) :
    keeps_sentinel_apart (expander.plugin_transform malloc_ok) := by
  intro q o hq hv
  simp only [expander.plugin_transform, if_neg hq] at hv
  split_ifs at hv with h1 h2
  · simp [transform_result.value] at hv; subst hv; exact hq
  · simp [transform_result.value] at hv
  · simp only [transform_result.value, Option.some.injEq] at hv
    obtain ⟨rest, hr⟩ := expand_from_second q q.length (by omega)
    rw [hr] at hv
    subst hv
    intro hcontra
    have h2 := congrArg (fun l : List Nat => l.getD 1 0) hcontra
    simp [END_TOKEN, cstr] at h2

/-! ## Claims about the orchestrator -/

theorem fini_loop_all (l : List plugin_handle_t) (j : Nat)
    (h : ∀ x ∈ l, x.fini.isSome = true) :
    fini_loop l j = (List.range' j l.length).map lifecycle_call.fini := by
  induction l generalizing j with
  | nil => rfl
  | cons x l ih =>
    have hx := h x (List.mem_cons_self _ _)
    cases hf : x.fini with
    | none => rw [hf] at hx; cases hx
    | some v =>
      simp only [fini_loop, hf, List.length_cons, List.range'_succ, List.map_cons,
        List.singleton_append]
      rw [ih (j + 1) (fun y hy => h y (List.mem_cons_of_mem _ hy))]

theorem init_loop_all_ok (arr : List plugin_handle_t) (qs : Int) (m : Bool)
    (rest : List plugin_handle_t) (i : Nat)
    (h : ∀ x ∈ rest, init_outcome x qs = none) :
    init_loop arr qs m rest i
      = ⟨0, SIZE_MAX, none, (List.range' i rest.length).map lifecycle_call.init⟩ := by
  induction rest generalizing i with
  | nil => rfl
  | cons x rest ih =>
    have hx := h x (List.mem_cons_self _ _)
    have hinit : init_calls x i = [lifecycle_call.init i] := by
      unfold init_outcome at hx
      unfold init_calls
      cases hv : x.init with
      | none => rw [hv] at hx; cases hx
      | some f => rfl
    simp only [init_loop, hx, ih (i + 1) (fun y hy => h y (List.mem_cons_of_mem _ hy)),
      hinit, List.length_cons, List.range'_succ, List.map_cons, List.singleton_append]

theorem init_loop_first_error (arr : List plugin_handle_t) (qs : Int) (m : Bool)
    (pre : List plugin_handle_t) (x : plugin_handle_t) (tail : List plugin_handle_t)
    (i : Nat) (err : String) (hpre : ∀ y ∈ pre, init_outcome y qs = none)
    (hx : init_outcome x qs = some err) (hxi : x.init.isSome = true) :
    init_loop arr qs m (pre ++ x :: tail) i
      = ⟨-1, i + pre.length, if m then some err else none,
          (List.range' i (pre.length + 1)).map lifecycle_call.init
            ++ fini_loop (arr.take (i + pre.length)) 0⟩ := by
  induction pre generalizing i with
  | nil =>
    have hinit : init_calls x i = [lifecycle_call.init i] := by
      unfold init_calls
      cases hv : x.init with
      | none => rw [hv] at hxi; cases hxi
      | some f => rfl
    simp [init_loop, hx, hinit, List.range'_succ]
  | cons y pre ih =>
    have hy := hpre y (List.mem_cons_self _ _)
    have hinit : init_calls y i = [lifecycle_call.init i] := by
      unfold init_outcome at hy
      unfold init_calls
      cases hv : y.init with
      | none => rw [hv] at hy; cases hy
      | some f => rfl
    have e : i + 1 + pre.length = i + (pre.length + 1) := by omega
    have ih1 := ih (i + 1) (fun z hz => hpre z (List.mem_cons_of_mem _ hz))
    rw [List.cons_append, init_loop]
    simp only [hy]
    rw [ih1, hinit, e, List.length_cons, List.range'_succ i]
    rfl

/-- C10. `init_all_plugins` over the stages `arr`, all `init` calls before index `k`
succeeding.  If `k` is the index of a stage whose `init` returns an error (so `k` is
the least such index) and the stages before `k` expose `fini`, then `init` has been
called once on each of the stages 0..k in increasing order, then `fini` once on each
of the stages 0..k-1, no other call is made, the return value is -1 and
`failed_index` is `k` (the message is the stage's error string).  If `k` is the number
of stages (no `init` fails), `init` has been called once on every stage in order, no
`fini` is called and the return value is 0. -/
theorem init_all_plugins_rollback (arr : List plugin_handle_t) (qs : Int) (m : Bool)
    (k : Nat) (hk : k ≤ arr.length)
    (hok : ∀ i x, i < k → arr[i]? = some x → init_outcome x qs = none)
    (hfini : ∀ i x, i < k → k < arr.length → arr[i]? = some x → x.fini.isSome = true)
    (hfail : ∀ x, arr[k]? = some x → x.init.isSome = true ∧ init_outcome x qs ≠ none) :
    if k < arr.length then
      (init_all_plugins arr qs m).rc = -1
      ∧ (init_all_plugins arr qs m).failed_index = k
      ∧ (init_all_plugins arr qs m).calls
          = (List.range (k + 1)).map lifecycle_call.init
            ++ (List.range k).map lifecycle_call.fini
      ∧ (init_all_plugins arr qs m).failed_msg
          = if m then (arr[k]?).bind (fun x => init_outcome x qs) else none
    else
      (init_all_plugins arr qs m).rc = 0
      ∧ (init_all_plugins arr qs m).failed_index = SIZE_MAX
      ∧ (init_all_plugins arr qs m).calls = (List.range arr.length).map lifecycle_call.init
      ∧ (init_all_plugins arr qs m).failed_msg = none := by
  have hpre : ∀ y ∈ arr.take k, init_outcome y qs = none := by
    intro y hy
    obtain ⟨i, hi, rfl⟩ := List.mem_take_iff_getElem.1 hy
    have hi1 : i < k := lt_of_lt_of_le hi (min_le_left _ _)
    have hi2 : i < arr.length := lt_of_lt_of_le hi (min_le_right _ _)
    exact hok i _ hi1 (List.getElem?_eq_getElem hi2)
  by_cases hlt : k < arr.length
  · rw [if_pos hlt]
    have hx := hfail arr[k] (List.getElem?_eq_getElem hlt)
    obtain ⟨err, herr⟩ : ∃ err, init_outcome arr[k] qs = some err := by
      cases hv : init_outcome arr[k] qs with
      | none => exact absurd hv hx.2
      | some e => exact ⟨e, rfl⟩
    have hsplit : arr = arr.take k ++ arr[k] :: arr.drop (k + 1) := by
      rw [← List.drop_eq_getElem_cons hlt, List.take_append_drop]
    have hlen : (arr.take k).length = k := by
      rw [List.length_take]; exact min_eq_left hk
    have hrun := init_loop_first_error arr qs m (arr.take k) arr[k] (arr.drop (k + 1)) 0
      err hpre herr hx.1
    rw [← hsplit, hlen, Nat.zero_add] at hrun
    have hf : ∀ y ∈ arr.take k, y.fini.isSome = true := by
      intro y hy
      obtain ⟨i, hi, rfl⟩ := List.mem_take_iff_getElem.1 hy
      have hi1 : i < k := lt_of_lt_of_le hi (min_le_left _ _)
      have hi2 : i < arr.length := lt_of_lt_of_le hi (min_le_right _ _)
      exact hfini i _ hi1 hlt (List.getElem?_eq_getElem hi2)
    rw [fini_loop_all _ 0 hf, hlen, ← List.range_eq_range', ← List.range_eq_range'] at hrun
    unfold init_all_plugins
    rw [hrun]
    refine ⟨rfl, rfl, rfl, ?_⟩
    simp [List.getElem?_eq_getElem hlt, herr]
  · rw [if_neg hlt]
    have hk2 : k = arr.length := by omega
    have hall : ∀ y ∈ arr, init_outcome y qs = none := by
      intro y hy
      apply hpre
      rw [hk2, List.take_length]
      exact hy
    have hrun := init_loop_all_ok arr qs m arr 0 hall
    rw [← List.range_eq_range'] at hrun
    unfold init_all_plugins
    rw [hrun]
    exact ⟨rfl, rfl, rfl, rfl⟩

theorem init_all_plugins_rollback_witness :
    (init_all_plugins demo_handles 20 true).rc = -1
    ∧ (init_all_plugins demo_handles 20 true).failed_index = 2
    ∧ (init_all_plugins demo_handles 20 true).calls
        = [.init 0, .init 1, .init 2, .fini 0, .fini 1]
    ∧ (init_all_plugins demo_handles 20 true).failed_msg = some "queue init failed" := by
  have h := init_all_plugins_rollback demo_handles 20 true 2 (by decide)
    (by
      intro i x hi hx
      interval_cases i <;> simp [demo_handles] at hx <;> subst hx <;> rfl)
    (by
      intro i x hi _ hx
      interval_cases i <;> simp [demo_handles] at hx <;> subst hx <;> rfl)
    (by
      intro x hx
      simp [demo_handles] at hx
      subst hx
      exact ⟨rfl, by simp [init_outcome, demo_bad_handle]⟩)
  rw [if_pos (by decide)] at h
  exact h

/-! ## Claims about attaching stages -/

theorem common_plugin_init_ok (g c : plugin_context_t) (f : Option transform_fn)
    (name : Option CStr) (qs : Int) (env : plugin_env)
    (h : common_plugin_init g f name qs env = (none, c)) :
    c.initialized = true ∧ c.finished = false ∧ c.next_place_work = none
      ∧ c.end_pushed = false ∧ c.process_function = f
      ∧ c.queue = some (fresh_queue qs.toNat) := by
  unfold common_plugin_init at h
  cases f with
  | none => cases h
  | some t =>
    dsimp only at h
    by_cases h1 : qs ≤ 0
    · rw [if_pos h1] at h; cases h
    rw [if_neg h1] at h
    by_cases h2 : g.initialized = true
    · rw [if_pos h2] at h; cases h
    rw [if_neg h2] at h
    by_cases h3 : name = none ∨ name = some []
    · rw [if_pos h3] at h; cases h
    rw [if_neg h3] at h
    by_cases h4 : (!env.lock_state_ok) = true
    · rw [if_pos h4] at h; cases h
    rw [if_neg h4] at h
    by_cases h5 : (monitor_init g.finished_monitor env.finished_monitor_ok).1 ≠ 0
    · rw [if_pos h5] at h; cases h
    rw [if_neg h5] at h
    by_cases h6 : (!env.queue_alloc_ok) = true
    · rw [if_pos h6] at h; cases h
    rw [if_neg h6] at h
    cases hq : consumer_producer_init env.queue_raw qs env.queue_env with
    | mk e q =>
      rw [hq] at h
      cases e with
      | some msg => cases h
      | none =>
        dsimp only at h
        obtain ⟨-, rfl⟩ := consumer_producer_init_ok _ _ _ _ hq
        by_cases h7 : (!env.thread_ok) = true
        · rw [if_pos h7] at h; cases h
        rw [if_neg h7] at h
        injection h with _ h
        subst h
        exact ⟨rfl, rfl, rfl, rfl, rfl, rfl⟩

theorem attachable_of_fresh (c : plugin_context_t) (h : freshly_initialised c) :
    attachable c := by
  obtain ⟨g, f, name, qs, env, hinit⟩ := h
  obtain ⟨a1, a2, a3, -, -, a6⟩ := common_plugin_init_ok g c f name qs env hinit
  refine ⟨a1, a2, ?_, a3⟩
  intro q hq
  rw [a6] at hq
  cases hq
  rfl

theorem plugin_attach_attachable (c : plugin_context_t) (h : Option hook_ptr)
    (ha : attachable c) : plugin_attach c h = { c with next_place_work := h } := by
  unfold plugin_attach
  have hq : (match c.queue with
             | some q => q.finished
             | none => false) = false := by
    cases hv : c.queue with
    | none => rfl
    | some q => exact ha.queue_open q hv
  simp [ha.inited, ha.not_finished, hq, ha.unset]

theorem plugin_attach_set (c : plugin_context_t) (p : hook_ptr) (h : Option hook_ptr)
    (hset : c.next_place_work = some p) : plugin_attach c h = c := by
  unfold plugin_attach
  split_ifs <;> first | rfl | simp_all

theorem plugin_attach_seq_set (hs : List (Option hook_ptr)) (c : plugin_context_t)
    (p : hook_ptr) (hset : c.next_place_work = some p) :
    hs.foldl plugin_attach c = c := by
  induction hs with
  | nil => rfl
  | cons h hs ih => rw [List.foldl_cons, plugin_attach_set c p h hset, ih]

/-- C11. The next-hook of a stage is set at most once between init and fini.
`plugin_attach(h)` on an initialised stage that is not finished, whose queue is not
finished and whose next-hook is unset sets the next-hook to `h` and changes nothing
else; on a stage whose next-hook is set, `plugin_attach` with any argument, and any
sequence of such calls, leaves the stage as it is; on a stage that is uninitialised,
or finished, or whose queue is finished, it leaves the stage as it is.  In particular
after a successful `common_plugin_init` the first attach of a hook `p` sets it and
every later sequence of attaches keeps `p`; `plugin_fini` clears the hook again. -/
theorem attach_sets_once (g c0 c1 c2 c3 : plugin_context_t) (f : Option transform_fn)
    (name : Option CStr) (qs : Int) (env : plugin_env) (p p2 : hook_ptr)
    (h : Option hook_ptr) (hs : List (Option hook_ptr))
    (hinit : common_plugin_init g f name qs env = (none, c0))
    (h1 : attachable c1)
    (h2 : c2.next_place_work = some p2)
    (h3 : c3.initialized = false ∨ c3.finished = true
      ∨ ∃ q, c3.queue = some q ∧ q.finished = true) :
    plugin_attach c1 h = { c1 with next_place_work := h }
    ∧ plugin_attach c2 h = c2
    ∧ hs.foldl plugin_attach c2 = c2
    ∧ plugin_attach c3 h = c3
    ∧ (plugin_attach c0 (some p)).next_place_work = some p
    ∧ (hs.foldl plugin_attach (plugin_attach c0 (some p))).next_place_work = some p
    ∧ (plugin_fini (plugin_attach c0 (some p))).2.next_place_work = none := by
  have hc0 := attachable_of_fresh c0 ⟨g, f, name, qs, env, hinit⟩
  have e0 := plugin_attach_attachable c0 (some p) hc0
  have e0n : (plugin_attach c0 (some p)).next_place_work = some p := by rw [e0]
  refine ⟨plugin_attach_attachable c1 h h1, plugin_attach_set c2 p2 h h2,
    plugin_attach_seq_set hs c2 p2 h2, ?_, e0n, ?_, ?_⟩
  · unfold plugin_attach
    rcases h3 with h3 | h3 | ⟨q, hq, hqf⟩
    · simp [h3]
    · simp [h3]
    · simp [hq, hqf]
  · rw [plugin_attach_seq_set hs _ p e0n]; exact e0n
  · rw [e0]
    simp [plugin_fini, hc0.inited]

theorem attach_sets_once_witness :
    common_plugin_init context_zero (some (uppercaser.plugin_transform true))
        (some (cstr "uppercaser")) 20 plugin_env_ok = (none, demo_init_stage)
    ∧ demo_upper_stage.next_place_work = some 7
    ∧ demo_done_stage.finished = true
    ∧ (plugin_attach demo_init_stage (some 7) = { demo_init_stage with next_place_work := some 7 }
      ∧ plugin_attach demo_upper_stage (some 7) = demo_upper_stage
      ∧ [some 8, none, some 7].foldl plugin_attach demo_upper_stage = demo_upper_stage
      ∧ plugin_attach demo_done_stage (some 7) = demo_done_stage
      ∧ (plugin_attach demo_init_stage (some 9)).next_place_work = some 9
      ∧ ([some 8, none, some 7].foldl plugin_attach
          (plugin_attach demo_init_stage (some 9))).next_place_work = some 9
      ∧ (plugin_fini (plugin_attach demo_init_stage (some 9))).2.next_place_work = none) :=
  ⟨rfl, rfl, rfl,
    attach_sets_once context_zero demo_init_stage demo_init_stage demo_upper_stage
      demo_done_stage (some (uppercaser.plugin_transform true)) (some (cstr "uppercaser"))
      20 plugin_env_ok 9 7 (some 7) [some 8, none, some 7] rfl
      (attachable_of_fresh demo_init_stage
        ⟨context_zero, some (uppercaser.plugin_transform true), some (cstr "uppercaser"),
          20, plugin_env_ok, rfl⟩)
      rfl (Or.inr (Or.inl rfl))⟩

theorem attach_loop_last (m : Bool) (a : plugin_handle_t) (i : Nat)
    (stages : List plugin_context_t) :
    attach_loop m [a] i stages = ⟨0, SIZE_MAX, none, stages⟩ := by
  rw [attach_loop]
  intro a1 b rest h
  cases h

theorem attach_loop_step (m : Bool) (a b : plugin_handle_t) (rest : List plugin_handle_t)
    (i : Nat) (p : hook_ptr) (pre post : List plugin_context_t) (c : plugin_context_t)
    (hpre : pre.length = i) (ha : a.attach = true) (hp : b.place_work = some p) :
    attach_loop m (a :: b :: rest) i (pre ++ c :: post)
      = attach_loop m (b :: rest) (i + 1) ((pre ++ [plugin_attach c (some p)]) ++ post) := by
  have hget : (pre ++ c :: post)[i]? = some c := by
    rw [← hpre, List.getElem?_append_right (le_refl _)]; simp
  have hset : (pre ++ c :: post).set i (plugin_attach c (some p))
      = (pre ++ [plugin_attach c (some p)]) ++ post := by
    rw [← hpre]; simp
  rw [attach_loop]
  simp only [ha, Bool.not_true, Bool.false_eq_true, if_false, hp, hget, hset]

theorem attach_loop_bad (m : Bool) (a b : plugin_handle_t) (rest : List plugin_handle_t)
    (i : Nat) (stages : List plugin_context_t)
    (hbad : a.attach = false ∨ b.place_work = none) :
    (attach_loop m (a :: b :: rest) i stages).rc = -1
    ∧ (attach_loop m (a :: b :: rest) i stages).failed_index = i := by
  rw [attach_loop]
  rcases hbad with ha | hb
  · simp [ha]
  · cases hv : a.attach <;> simp [hb]

theorem attach_loop_spec (m : Bool) (k : Nat) :
    ∀ (sfx : List plugin_handle_t) (i : Nat) (pre post : List plugin_context_t),
      pre.length = i → post.length = sfx.length → (∀ c ∈ post, attachable c) →
      k + 1 ≤ sfx.length →
      (∀ j a b, j < k → sfx[j]? = some a → sfx[j + 1]? = some b →
        a.attach = true ∧ b.place_work.isSome = true) →
      (∀ a b, sfx[k]? = some a → sfx[k + 1]? = some b →
        a.attach = false ∨ b.place_work = none) →
      if k + 1 < sfx.length then
        (attach_loop m sfx i (pre ++ post)).rc = -1
        ∧ (attach_loop m sfx i (pre ++ post)).failed_index = i + k
      else
        (attach_loop m sfx i (pre ++ post)).rc = 0
        ∧ ∃ post1, (attach_loop m sfx i (pre ++ post)).stages = pre ++ post1
            ∧ post1.map (fun c => c.next_place_work)
                = (sfx.drop 1).map (fun a => a.place_work) ++ [none] := by
  induction k with
  | zero =>
    intro sfx i pre post hpre hpost hfresh hlen hgood hbad
    rcases sfx with _ | ⟨a, _ | ⟨b, rest⟩⟩
    · simp at hlen
    · rw [if_neg (by simp), attach_loop_last]
      rcases post with _ | ⟨c, _ | ⟨c2, post2⟩⟩
      · simp at hpost
      · refine ⟨rfl, [c], rfl, ?_⟩
        simp [(hfresh c (List.mem_singleton_self c)).unset]
      · simp at hpost
    · rw [if_pos (by simp)]
      exact attach_loop_bad m a b rest i _ (hbad a b rfl (by simp))
  | succ k ih =>
    intro sfx i pre post hpre hpost hfresh hlen hgood hbad
    rcases sfx with _ | ⟨a, _ | ⟨b, rest⟩⟩
    · simp at hlen
    · simp at hlen
    · obtain ⟨ha, hb⟩ := hgood 0 a b (Nat.succ_pos k) rfl (by simp)
      obtain ⟨p, hp⟩ := Option.isSome_iff_exists.1 hb
      rcases post with _ | ⟨c, post1⟩
      · simp at hpost
      · rw [attach_loop_step m a b rest i p pre post1 c hpre ha hp]
        have hlen1 : k + 1 ≤ (b :: rest).length := by
          simp only [List.length_cons] at hlen ⊢; omega
        have hspec := ih (b :: rest) (i + 1) (pre ++ [plugin_attach c (some p)]) post1
          (by simp [hpre]) (by simpa using hpost)
          (fun x hx => hfresh x (List.mem_cons_of_mem _ hx)) hlen1
          (fun j x y hj hx hy => hgood (j + 1) x y (by omega) (by simpa using hx)
            (by simpa using hy))
          (fun x y hx hy => hbad x y (by simpa using hx) (by simpa using hy))
        have hiff : (k + 1 + 1 < (a :: b :: rest).length) ↔ (k + 1 < (b :: rest).length) := by
          simp only [List.length_cons]; omega
        by_cases hlt : k + 1 < (b :: rest).length
        · rw [if_pos hlt] at hspec
          rw [if_pos (hiff.2 hlt)]
          exact ⟨hspec.1, by rw [hspec.2]; omega⟩
        · rw [if_neg hlt] at hspec
          rw [if_neg (fun hh => hlt (hiff.1 hh))]
          obtain ⟨e1, post2, e2, e3⟩ := hspec
          refine ⟨e1, plugin_attach c (some p) :: post2, ?_, ?_⟩
          · rw [e2]; simp
          · have hc := plugin_attach_attachable c (some p)
              (hfresh c (List.mem_cons_self _ _))
            simp only [List.map_cons, hc, List.drop_succ_cons, List.drop_zero, hp] at e3 ⊢
            rw [e3]
            simp

/-- C12. `attach_chain` on `n ≥ 1` freshly initialised stages, the pairs before index
`k` all having `attach` on the left and `place_work` on the right.  If `k < n - 1` is
the index of a pair where stage `k` lacks `attach` or stage `k + 1` lacks `place_work`
(so `k` is the least such index), the result is -1 with `failed_index = k`.  If
`k = n - 1` (there is no such pair), the result is 0, the next-hook of stage `i` is the
`place_work` of stage `i + 1` for every `i < n - 1`, and the next-hook of the last
stage is unset. -/
theorem attach_chain_wires (arr : List plugin_handle_t) (stages : List plugin_context_t)
    (m : Bool) (k : Nat) (hlen : stages.length = arr.length)
    (hfresh : ∀ c ∈ stages, freshly_initialised c)
    (hk : k + 1 ≤ arr.length)
    (hgood : ∀ j a b, j < k → arr[j]? = some a → arr[j + 1]? = some b →
      a.attach = true ∧ b.place_work.isSome = true)
    (hbad : ∀ a b, arr[k]? = some a → arr[k + 1]? = some b →
      a.attach = false ∨ b.place_work = none) :
    if k + 1 < arr.length then
      (attach_chain arr stages m).rc = -1 ∧ (attach_chain arr stages m).failed_index = k
    else
      (attach_chain arr stages m).rc = 0
      ∧ (attach_chain arr stages m).stages.map (fun c => c.next_place_work)
          = (arr.drop 1).map (fun a => a.place_work) ++ [none] := by
  have hspec := attach_loop_spec m k arr 0 [] stages rfl hlen
    (fun c hc => attachable_of_fresh c (hfresh c hc)) hk hgood hbad
  simp only [List.nil_append, Nat.zero_add] at hspec
  unfold attach_chain
  by_cases hlt : k + 1 < arr.length
  · rw [if_pos hlt] at hspec ⊢
    exact hspec
  · rw [if_neg hlt] at hspec ⊢
    obtain ⟨e1, post1, e2, e3⟩ := hspec
    exact ⟨e1, by rw [e2, e3]⟩

theorem attach_chain_wires_witness :
    (attach_chain demo_chain demo_chain_stages true).rc = 0
    ∧ (attach_chain demo_chain demo_chain_stages true).stages.map
        (fun c => c.next_place_work) = [some 12, some 13, none] := by
  have h := attach_chain_wires demo_chain demo_chain_stages true 2 rfl
    (by
      intro c hc
      simp only [demo_chain_stages, List.mem_cons, List.mem_singleton, List.not_mem_nil,
        or_false] at hc
      rcases hc with rfl | rfl | rfl
      · exact ⟨context_zero, some (uppercaser.plugin_transform true),
          some (cstr "uppercaser"), 20, plugin_env_ok, rfl⟩
      · exact ⟨context_zero, some (flipper.plugin_transform true),
          some (cstr "flipper"), 20, plugin_env_ok, rfl⟩
      · exact ⟨context_zero, some logger.plugin_transform,
          some (cstr "logger"), 20, plugin_env_ok, rfl⟩)
    (by decide)
    (by
      intro j a b hj ha hb
      interval_cases j <;> simp [demo_chain] at ha hb <;> subst ha <;> subst hb <;>
        exact ⟨rfl, rfl⟩)
    (by
      intro a b ha hb
      simp [demo_chain] at hb)
  rw [if_neg (by decide)] at h
  exact h

/-! ## Claims about the transforms -/

theorem flip_loop_eq_reverse (s : CStr) :
    (List.range s.length).map (fun i => s.getD (s.length - 1 - i) 0) = s.reverse := by
  apply List.ext_getElem
  · simp
  · intro i h1 h2
    have hi : i < s.length := by simpa using h1
    rw [List.getElem_map, List.getElem_range, List.getElem_reverse,
      List.getD_eq_getElem _ _ (by omega)]

theorem upper_loop_eq_map (s : CStr) :
    (List.range s.length).map (fun i => toupper (s.getD i 0)) = s.map toupper := by
  apply List.ext_getElem
  · simp
  · intro i h1 h2
    have hi : i < s.length := by simpa using h1
    rw [List.getElem_map, List.getElem_range, List.getElem_map,
      List.getD_eq_getElem _ _ hi]

theorem rotate_step_eq_rotate (s : CStr) (hn : 1 ≤ s.length) :
    s.getD (s.length - 1) 0 :: s.take (s.length - 1) = s.rotate (s.length - 1) := by
  have hlt : s.length - 1 < s.length := by omega
  rw [List.rotate_eq_drop_append_take (by omega), List.drop_eq_getElem_cons hlt,
    List.getD_eq_getElem _ _ hlt]
  have e : s.length - 1 + 1 = s.length := by omega
  rw [e, List.drop_length]
  rfl

theorem toupper_idem (c : Nat) : toupper (toupper c) = toupper c := by
  unfold toupper
  split_ifs <;> omega

theorem expand_from_length (s : CStr) (n : Nat) :
    ∀ fuel i, i < n → fuel = n - i →
      (expander.expand_from s n i fuel).length = 2 * (n - i) - 1 := by
  intro fuel
  induction fuel with
  | zero => intro i hi hf; omega
  | succ fuel ih =>
    intro i hi hf
    rw [expander.expand_from, if_pos hi]
    by_cases hlast : i + 1 < n
    · rw [if_pos hlast, List.length_append, ih (i + 1) hlast (by omega)]
      simp only [List.length_cons, List.length_nil]
      omega
    · rw [if_neg hlast]
      have hf0 : fuel = 0 := by omega
      subst hf0
      simp only [expander.expand_from, List.append_nil, List.length_cons, List.length_nil]
      omega

theorem value_of_sentinel (t : transform_fn)
    (h : (t (some END_TOKEN)).result = .same) :
    transform_value t END_TOKEN = some END_TOKEN := by
  unfold transform_value
  rw [h]
  rfl

theorem flipper_value (x : CStr) (hx : x ≠ END_TOKEN) :
    transform_value (flipper.plugin_transform true) x = some x.reverse := by
  unfold transform_value flipper.plugin_transform
  simp only [if_neg hx]
  by_cases h1 : x.length ≤ 1
  · rw [if_pos h1]
    rcases x with _ | ⟨a, _ | ⟨b, rest⟩⟩
    · rfl
    · rfl
    · simp at h1
  · rw [if_neg h1]
    simp only [Bool.not_true, Bool.false_eq_true, if_false, transform_result.value]
    rw [flip_loop_eq_reverse]

theorem rotator_value (x : CStr) (hx : x ≠ END_TOKEN) :
    transform_value (rotator.plugin_transform true) x
      = some (x.rotate (x.length - 1)) := by
  unfold transform_value rotator.plugin_transform
  simp only [if_neg hx]
  by_cases h1 : x.length ≤ 1
  · rw [if_pos h1]
    rcases x with _ | ⟨a, _ | ⟨b, rest⟩⟩
    · rfl
    · rfl
    · simp at h1
  · rw [if_neg h1]
    simp only [Bool.not_true, Bool.false_eq_true, if_false, transform_result.value]
    rw [rotate_step_eq_rotate x (by omega)]

theorem uppercaser_value (x : CStr) (hx : x ≠ END_TOKEN) :
    transform_value (uppercaser.plugin_transform true) x = some (x.map toupper) := by
  unfold transform_value uppercaser.plugin_transform
  simp only [if_neg hx]
  by_cases h1 : x.length = 0
  · rw [if_pos h1]
    rw [List.length_eq_zero] at h1
    subst h1
    rfl
  · rw [if_neg h1]
    simp only [Bool.not_true, Bool.false_eq_true, if_false, transform_result.value]
    rw [upper_loop_eq_map]

theorem expander_value (x : CStr) (hx : x ≠ END_TOKEN) :
    ∃ y, transform_value (expander.plugin_transform true) x = some y
      ∧ y.length = max x.length (2 * x.length - 1) := by
  unfold transform_value expander.plugin_transform
  simp only [if_neg hx]
  by_cases h1 : x.length ≤ 1
  · rw [if_pos h1]
    exact ⟨x, rfl, by omega⟩
  · rw [if_neg h1]
    simp only [Bool.not_true, Bool.false_eq_true, if_false, transform_result.value]
    refine ⟨_, rfl, ?_⟩
    rw [expand_from_length x x.length x.length 0 (by omega) (by omega)]
    omega

theorem short_ne_sentinel (y : CStr) (hy : y.length ≤ 1) : y ≠ END_TOKEN := by
  intro h
  rw [h] at hy
  simp [END_TOKEN, cstr] at hy

/-- C13, as the claim states it, fails: the flip of ">DNE<" is the sentinel "<END>",
which the second flip returns unchanged, so flipping ">DNE<" twice yields "<END>". -/
theorem flip_twice_reversed_sentinel :
    transform_value (flipper.plugin_transform true) (cstr ">DNE<") = some END_TOKEN
    ∧ transform_value (flipper.plugin_transform true) END_TOKEN = some END_TOKEN
    ∧ transform_iterate (flipper.plugin_transform true) 2 (cstr ">DNE<") = some END_TOKEN
    ∧ transform_iterate (flipper.plugin_transform true) 2 (cstr ">DNE<")
        ≠ some (cstr ">DNE<") := by
  decide

/-- C13, amended.  For every input string `x` other than ">DNE<" (the reversed
sentinel), the flip transform applied twice returns `x` (its allocations succeeding);
for an input `y` of length at most 1 each of the two calls returns its argument
itself, as it does for the sentinel. -/
theorem flip_twice_identity (x y : CStr) (m : Bool) (hx : x ≠ cstr ">DNE<")
    (hy : y.length ≤ 1) :
    transform_iterate (flipper.plugin_transform true) 2 x = some x
    ∧ (flipper.plugin_transform m (some y)).result = .same
    ∧ transform_iterate (flipper.plugin_transform m) 2 y = some y
    ∧ (flipper.plugin_transform m (some END_TOKEN)).result = .same := by
  have hsame : (flipper.plugin_transform m (some y)).result = .same := by
    unfold flipper.plugin_transform
    simp [short_ne_sentinel y hy, hy]
  have hval : transform_value (flipper.plugin_transform m) y = some y := by
    unfold transform_value
    rw [hsame]
    rfl
  refine ⟨?_, hsame, ?_, by cases m <;> rfl⟩
  · by_cases he : x = END_TOKEN
    · subst he
      decide
    · have hr : x.reverse ≠ END_TOKEN := by
        intro h
        apply hx
        have := congrArg List.reverse h
        rw [List.reverse_reverse] at this
        rw [this]
        decide
      simp only [transform_iterate, flipper_value x he, Option.some_bind,
        flipper_value x.reverse hr, List.reverse_reverse]
  · simp only [transform_iterate, hval, Option.some_bind]

theorem flip_twice_identity_witness :
    cstr "abc" ≠ cstr ">DNE<" ∧ (cstr "a").length ≤ 1
    ∧ (transform_iterate (flipper.plugin_transform true) 2 (cstr "abc") = some (cstr "abc")
      ∧ (flipper.plugin_transform true (some (cstr "a"))).result = .same
      ∧ transform_iterate (flipper.plugin_transform true) 2 (cstr "a") = some (cstr "a")
      ∧ (flipper.plugin_transform true (some END_TOKEN)).result = .same) :=
  ⟨by decide, by decide,
    flip_twice_identity (cstr "abc") (cstr "a") true (by decide) (by decide)⟩

theorem rotator_iterate_sentinel (k : Nat) :
    transform_iterate (rotator.plugin_transform true) k END_TOKEN = some END_TOKEN := by
  induction k with
  | zero => rfl
  | succ k ih =>
    have hv : transform_value (rotator.plugin_transform true) END_TOKEN = some END_TOKEN :=
      value_of_sentinel _ rfl
    simp only [transform_iterate, hv, Option.some_bind, ih]

theorem rotator_iterate (k : Nat) (x : CStr) (h : ∀ j, x.rotate j ≠ END_TOKEN) :
    transform_iterate (rotator.plugin_transform true) k x
      = some (x.rotate (k * (x.length - 1))) := by
  induction k generalizing x with
  | zero => simp [transform_iterate]
  | succ k ih =>
    have hx : x ≠ END_TOKEN := by
      have := h 0
      rwa [List.rotate_zero] at this
    have hrot : ∀ j, (x.rotate (x.length - 1)).rotate j ≠ END_TOKEN := by
      intro j
      rw [List.rotate_rotate]
      exact h _
    simp only [transform_iterate, rotator_value x hx, Option.some_bind]
    rw [ih _ hrot, List.rotate_rotate, List.length_rotate]
    congr 2
    ring

/-- C14, as the claim states it, fails: one right-rotation of "END><" gives the
sentinel "<END>", which every later call returns unchanged, so five rotations of the
five-byte string "END><" yield "<END>". -/
theorem rotate_n_times_hits_sentinel :
    (cstr "END><").length = 5
    ∧ transform_value (rotator.plugin_transform true) (cstr "END><") = some END_TOKEN
    ∧ transform_iterate (rotator.plugin_transform true) 5 (cstr "END><") = some END_TOKEN
    ∧ transform_iterate (rotator.plugin_transform true) 5 (cstr "END><")
        ≠ some (cstr "END><") := by
  decide

/-- C14, amended.  For every string `x` of length `n` that is "<END>" itself or is not
a rotation of "<END>", applying the rotate-right-1 transform `n` times in succession
to `x` yields `x` (the allocations succeeding). -/
theorem rotate_n_times_identity (x : CStr)
    (hx : x = END_TOKEN ∨ ¬ x.IsRotated END_TOKEN) :
    transform_iterate (rotator.plugin_transform true) x.length x = some x := by
  rcases hx with rfl | hx
  · exact rotator_iterate_sentinel _
  · rw [rotator_iterate x.length x (fun j hj => hx ⟨j, hj⟩), List.rotate_length_mul]

theorem rotate_n_times_identity_witness :
    (cstr "hello" = END_TOKEN ∨ ¬ (cstr "hello").IsRotated END_TOKEN)
    ∧ transform_iterate (rotator.plugin_transform true) (cstr "hello").length (cstr "hello")
        = some (cstr "hello") :=
  ⟨Or.inr (by decide), rotate_n_times_identity (cstr "hello") (Or.inr (by decide))⟩

/-- C15, as the claim states it, fails: for the input "<END>", of length 5, expand
returns the input itself, of length 5, and not a string of length max(5, 9) = 9. -/
theorem expand_sentinel_length :
    END_TOKEN.length = 5
    ∧ (expander.plugin_transform true (some END_TOKEN)).result = .same
    ∧ (transform_value (expander.plugin_transform true) END_TOKEN).map List.length = some 5
    ∧ (transform_value (expander.plugin_transform true) END_TOKEN).map List.length
        ≠ some (max END_TOKEN.length (2 * END_TOKEN.length - 1)) := by
  decide

/-- C15, amended.  For every input string `x` of length `n` other than the sentinel
"<END>", the expand transform returns a string of length max(n, 2n-1) (its
allocation succeeding). -/
theorem expand_length (x : CStr) (hx : x ≠ END_TOKEN) :
    ∃ y, transform_value (expander.plugin_transform true) x = some y
      ∧ y.length = max x.length (2 * x.length - 1) :=
  expander_value x hx

theorem expand_length_witness :
    cstr "abc" ≠ END_TOKEN
    ∧ ∃ y, transform_value (expander.plugin_transform true) (cstr "abc") = some y
        ∧ y.length = max (cstr "abc").length (2 * (cstr "abc").length - 1) :=
  ⟨by decide, expand_length (cstr "abc") (by decide)⟩

/-- C16. For every string `x` (of ASCII bytes or not), the uppercaser transform applied
to its own result returns a string bytewise equal to that result:
upper(upper(x)) = upper(x), also when upper(x) is the sentinel "<END>" (the
allocations succeeding). -/
theorem upper_idempotent (x : CStr) :
    ∃ y, transform_value (uppercaser.plugin_transform true) x = some y
      ∧ transform_value (uppercaser.plugin_transform true) y = some y
      ∧ transform_iterate (uppercaser.plugin_transform true) 2 x
          = transform_value (uppercaser.plugin_transform true) x := by
  have hend : transform_value (uppercaser.plugin_transform true) END_TOKEN
      = some END_TOKEN := value_of_sentinel _ rfl
  have key : ∀ y, transform_value (uppercaser.plugin_transform true) x = some y →
      transform_value (uppercaser.plugin_transform true) y = some y := by
    intro y hy
    by_cases hx : x = END_TOKEN
    · subst hx
      rw [hend] at hy
      cases hy
      exact hend
    · rw [uppercaser_value x hx] at hy
      cases hy
      by_cases h2 : x.map toupper = END_TOKEN
      · rw [h2]; exact hend
      · rw [uppercaser_value _ h2, List.map_map]
        congr 1
        apply List.map_congr_left
        intro c _
        exact toupper_idem c
  obtain ⟨y, hy⟩ : ∃ y, transform_value (uppercaser.plugin_transform true) x = some y := by
    by_cases hx : x = END_TOKEN
    · exact ⟨END_TOKEN, by rw [hx]; exact hend⟩
    · exact ⟨_, uppercaser_value x hx⟩
  refine ⟨y, hy, key y hy, ?_⟩
  simp only [transform_iterate, hy, Option.some_bind, key y hy, Option.bind_some]

/-- C17. Each of the six transforms returns its input itself (no new string) for the
empty string and for the sentinel "<END>", whatever the outcome an allocation would
have; flip, rotate-right-1 and expand also return the input itself for every one-byte
input `[b]`.  For every other non-sentinel input (`x` non-empty for upper, `y` of
length at least 2 for flip, rotate-right-1 and expand) the four transforms return a
newly built string, their allocation succeeding: the uppercased bytes, the reversed
bytes, the last byte followed by the others, and the bytes separated by spaces. -/
theorem noop_inputs_pass_through (m : Bool) (b : Nat) (x y : CStr)
    (hx : x ≠ [] ∧ x ≠ END_TOKEN) (hy : 2 ≤ y.length ∧ y ≠ END_TOKEN) :
    ((uppercaser.plugin_transform m (some [])).result = .same
      ∧ (flipper.plugin_transform m (some [])).result = .same
      ∧ (rotator.plugin_transform m (some [])).result = .same
      ∧ (expander.plugin_transform m (some [])).result = .same
      ∧ (logger.plugin_transform (some [])).result = .same
      ∧ (typewriter.plugin_transform (some [])).result = .same)
    ∧ ((uppercaser.plugin_transform m (some END_TOKEN)).result = .same
      ∧ (flipper.plugin_transform m (some END_TOKEN)).result = .same
      ∧ (rotator.plugin_transform m (some END_TOKEN)).result = .same
      ∧ (expander.plugin_transform m (some END_TOKEN)).result = .same
      ∧ (logger.plugin_transform (some END_TOKEN)).result = .same
      ∧ (typewriter.plugin_transform (some END_TOKEN)).result = .same)
    ∧ ((flipper.plugin_transform m (some [b])).result = .same
      ∧ (rotator.plugin_transform m (some [b])).result = .same
      ∧ (expander.plugin_transform m (some [b])).result = .same)
    ∧ ((uppercaser.plugin_transform true (some x)).result = .fresh (x.map toupper)
      ∧ (flipper.plugin_transform true (some y)).result = .fresh y.reverse
      ∧ (rotator.plugin_transform true (some y)).result
          = .fresh (y.getD (y.length - 1) 0 :: y.take (y.length - 1))
      ∧ ∃ z, (expander.plugin_transform true (some y)).result = .fresh z
          ∧ z.length = 2 * y.length - 1) := by
  have hb : [b] ≠ END_TOKEN := short_ne_sentinel [b] (by simp)
  have hylen : ¬ y.length ≤ 1 := by omega
  have hxlen : ¬ x.length = 0 := by
    intro h
    exact hx.1 (List.length_eq_zero.1 h)
  refine ⟨?_, ?_, ?_, ?_⟩
  · cases m <;> exact ⟨rfl, rfl, rfl, rfl, rfl, rfl⟩
  · cases m <;> exact ⟨rfl, rfl, rfl, rfl, rfl, rfl⟩
  · refine ⟨?_, ?_, ?_⟩
    · simp [flipper.plugin_transform, hb]
    · simp [rotator.plugin_transform, hb]
    · simp [expander.plugin_transform, hb]
  · refine ⟨?_, ?_, ?_, ?_⟩
    · simp only [uppercaser.plugin_transform, if_neg hx.2, if_neg hxlen, Bool.not_true,
        Bool.false_eq_true, if_false, upper_loop_eq_map]
    · simp only [flipper.plugin_transform, if_neg hy.2, if_neg hylen, Bool.not_true,
        Bool.false_eq_true, if_false, flip_loop_eq_reverse]
    · simp only [rotator.plugin_transform, if_neg hy.2, if_neg hylen, Bool.not_true,
        Bool.false_eq_true, if_false]
    · refine ⟨expander.expand_from y y.length 0 y.length, ?_, ?_⟩
      · simp only [expander.plugin_transform, if_neg hy.2, if_neg hylen, Bool.not_true,
          Bool.false_eq_true, if_false]
      · rw [expand_from_length y y.length y.length 0 (by omega) (by omega), Nat.sub_zero]

theorem noop_inputs_pass_through_witness :
    (cstr "a" ≠ [] ∧ cstr "a" ≠ END_TOKEN)
    ∧ (2 ≤ (cstr "ab").length ∧ cstr "ab" ≠ END_TOKEN)
    ∧ (uppercaser.plugin_transform true (some (cstr "a"))).result = .fresh (cstr "A")
    ∧ (flipper.plugin_transform true (some (cstr "ab"))).result = .fresh (cstr "ba")
    ∧ (flipper.plugin_transform false (some [97])).result = .same :=
  ⟨by decide, by decide,
    (noop_inputs_pass_through true 97 (cstr "a") (cstr "ab") (by decide)
      (by decide)).2.2.2.1.trans (by decide),
    (noop_inputs_pass_through true 97 (cstr "a") (cstr "ab") (by decide)
      (by decide)).2.2.2.2.1.trans (by decide),
    (noop_inputs_pass_through false 97 (cstr "a") (cstr "ab") (by decide)
      (by decide)).2.2.1.1⟩

/-! ## Claims about the pipeline -/

theorem writes_append (a b : List worker_event) :
    writes (a ++ b) = writes a ++ writes b := by
  induction a with
  | nil => rfl
  | cons e a ih => cases e <;> simp [writes, ih]

theorem chain_apply_ne_sentinel (ts : List transform_fn) (x : CStr)
    (h : (chain_apply ts x).isSome = true) : x ≠ END_TOKEN := by
  intro hx
  cases ts <;> simp [chain_apply, hx] at h

theorem find_dup_inner_some (a : CStr) (rest : List CStr) (s j : Nat)
    (h : find_dup_inner a (rest.map some) s = some j) :
    s ≤ j ∧ j < s + rest.length ∧ rest[j - s]? = some a := by
  induction rest generalizing s with
  | nil => simp [find_dup_inner] at h
  | cons b rest ih =>
    simp only [List.map_cons, find_dup_inner] at h
    split_ifs at h with hab
    · cases h
      subst hab
      simp
    · obtain ⟨h1, h2, h3⟩ := ih (s + 1) h
      refine ⟨by omega, by simp only [List.length_cons]; omega, ?_⟩
      have e : j - s = (j - (s + 1)) + 1 := by omega
      rw [e, List.getElem?_cons_succ]
      exact h3

theorem find_dup_inner_none (a : CStr) (rest : List CStr) (s : Nat)
    (h : find_dup_inner a (rest.map some) s = none) : a ∉ rest := by
  induction rest generalizing s with
  | nil => simp
  | cons b rest ih =>
    simp only [List.map_cons, find_dup_inner] at h
    split_ifs at h with hab
    rw [List.mem_cons, not_or]
    exact ⟨hab, ih (s + 1) h⟩

theorem find_dup_outer_some (l : List CStr) (s i j : Nat)
    (h : find_dup_outer (l.map some) s = some (i, j)) :
    s ≤ i ∧ i < j ∧ j < s + l.length ∧ l[i - s]? = l[j - s]? := by
  induction l generalizing s with
  | nil => simp [find_dup_outer] at h
  | cons a l ih =>
    simp only [List.map_cons, find_dup_outer] at h
    cases hin : find_dup_inner a (l.map some) (s + 1) with
    | some j1 =>
      rw [hin] at h
      simp only [Option.some.injEq, Prod.mk.injEq] at h
      obtain ⟨rfl, rfl⟩ := h
      obtain ⟨h1, h2, h3⟩ := find_dup_inner_some a l (s + 1) j1 hin
      refine ⟨le_refl _, by omega, by simp only [List.length_cons]; omega, ?_⟩
      have e : j1 - s = (j1 - (s + 1)) + 1 := by omega
      rw [Nat.sub_self, e, List.getElem?_cons_succ, h3]
      simp
    | none =>
      rw [hin] at h
      obtain ⟨h1, h2, h3, h4⟩ := ih (s + 1) h
      refine ⟨by omega, h2, by simp only [List.length_cons]; omega, ?_⟩
      have e1 : i - s = (i - (s + 1)) + 1 := by omega
      have e2 : j - s = (j - (s + 1)) + 1 := by omega
      rw [e1, e2, List.getElem?_cons_succ, List.getElem?_cons_succ]
      exact h4

theorem find_dup_outer_none (l : List CStr) (s : Nat)
    (h : find_dup_outer (l.map some) s = none) : l.Nodup := by
  induction l generalizing s with
  | nil => exact List.nodup_nil
  | cons a l ih =>
    simp only [List.map_cons, find_dup_outer] at h
    cases hin : find_dup_inner a (l.map some) (s + 1) with
    | some j1 => rw [hin] at h; cases h
    | none =>
      rw [hin] at h
      exact List.nodup_cons.2 ⟨find_dup_inner_none a l (s + 1) hin, ih (s + 1) h⟩

theorem names_getD_map (names : List CStr) (i : Nat) :
    ((names.map some).getD i none).getD [] = names.getD i [] := by
  simp only [List.getD_eq_getElem?_getD, List.getElem?_map]
  cases names[i]? <;> rfl

/-- C19. Over a list of non-null stage names, `find_duplicate_name` returns 1 if and
only if two different positions hold equal strings (and 0 otherwise).  When it
returns 1 it reports positions `i < j` with `names[i] = names[j]`, and
`load_all_plugins` returns -1 with the error "duplicate plugin name: '..' and '..'"
(no text if that message cannot be allocated) without any call of the dynamic loader
and without handing back any handle.  For the names log, log it reports the
positions 0 and 1. -/
theorem duplicate_names_rejected (env : loader_env) (names : List CStr) :
    ((find_duplicate_name (names.map some) 0 0).1 = 1
      ↔ ∃ i j, i < j ∧ j < names.length ∧ names[i]? = names[j]?)
    ∧ ((find_duplicate_name (names.map some) 0 0).1 = 0
      ∨ ((find_duplicate_name (names.map some) 0 0).1 = 1
        ∧ (find_duplicate_name (names.map some) 0 0).2.1
            < (find_duplicate_name (names.map some) 0 0).2.2
        ∧ (find_duplicate_name (names.map some) 0 0).2.2 < names.length
        ∧ names[(find_duplicate_name (names.map some) 0 0).2.1]?
            = names[(find_duplicate_name (names.map some) 0 0).2.2]?
        ∧ (load_all_plugins env (names.map some)).rc = -1
        ∧ (load_all_plugins env (names.map some)).events = []
        ∧ (load_all_plugins env (names.map some)).out.isNone = true
        ∧ (load_all_plugins env (names.map some)).out_error
            = if env.msg_alloc_ok then
                some (cstr "duplicate plugin name: '"
                  ++ names.getD (find_duplicate_name (names.map some) 0 0).2.1 []
                  ++ cstr "' and '"
                  ++ names.getD (find_duplicate_name (names.map some) 0 0).2.2 []
                  ++ cstr "'")
              else none))
    ∧ find_duplicate_name [some (cstr "log"), some (cstr "log")] 0 0 = (1, 0, 1) := by
  refine ⟨?_, ?_, by decide⟩
  · cases h : find_dup_outer (names.map some) 0 with
    | none =>
      have hnd := find_dup_outer_none names 0 h
      simp only [find_duplicate_name, h]
      constructor
      · intro hc; cases hc
      · rintro ⟨i, j, hij, hj, heq⟩
        exact absurd heq (List.nodup_iff_getElem?_ne_getElem?.1 hnd i j hij hj)
    | some p =>
      obtain ⟨i, j⟩ := p
      obtain ⟨-, h2, h3, h4⟩ := find_dup_outer_some names 0 i j h
      simp only [find_duplicate_name, h, true_iff]
      exact ⟨i, j, h2, by omega, by simpa using h4⟩
  · cases h : find_dup_outer (names.map some) 0 with
    | none =>
      left
      simp only [find_duplicate_name, h]
    | some p =>
      obtain ⟨i, j⟩ := p
      obtain ⟨-, h2, h3, h4⟩ := find_dup_outer_some names 0 i j h
      right
      have hd : find_duplicate_name (names.map some) 0 0 = (1, i, j) := by
        simp only [find_duplicate_name, h]
      have hl : load_all_plugins env (names.map some)
          = ⟨-1, none,
              if env.msg_alloc_ok then
                some (cstr "duplicate plugin name: '" ++ names.getD i []
                  ++ cstr "' and '" ++ names.getD j [] ++ cstr "'")
              else none, []⟩ := by
        unfold load_all_plugins
        simp only [hd, names_getD_map]
        rfl
      rw [hd, hl]
      refine ⟨rfl, h2, ?_, ?_, rfl, rfl, rfl, rfl⟩
      · show j < names.length
        omega
      · show names[i]? = names[j]?
        simpa using h4

/-! ## Claims about the feed loop -/

theorem fgets_scan_length (room : Nat) (inp : List Nat) :
    (fgets_scan room inp).1.length ≤ room := by
  induction room generalizing inp with
  | zero => simp [fgets_scan]
  | succ room ih =>
    cases inp with
    | nil => simp [fgets_scan]
    | cons c inp =>
      simp only [fgets_scan]
      split_ifs
      · simp
      · simp only [List.length_cons]
        have := ih inp
        omega

theorem strip_line_end_length (line : CStr) :
    (strip_line_end line).length ≤ line.length := by
  unfold strip_line_end
  split_ifs
  · simp only [List.length_dropLast]; omega
  · simp only [List.length_dropLast]; omega
  · exact le_refl _

theorem c_string_length (buf : List Nat) : (c_string buf).length ≤ buf.length := by
  unfold c_string
  exact (List.takeWhile_sublist _).length_le

/-- What the feed loop does guarantee: every string it passes to `place_work` has at
most `MAX_LINE + 1` = 1025 bytes. -/
theorem feed_placed_bound (fuel : Nat) (inp : List Nat) :
    ∀ s ∈ (feed_loop_fuel fuel inp).placed, s.length ≤ MAX_LINE + 1 := by
  induction fuel generalizing inp with
  | zero => simp [feed_loop_fuel]
  | succ fuel ih =>
    intro s hs
    simp only [feed_loop_fuel] at hs
    cases hg : fgets (MAX_LINE + 2) inp with
    | none => rw [hg] at hs; simp at hs
    | some p =>
      obtain ⟨buf, rest⟩ := p
      rw [hg] at hs
      dsimp only at hs
      have hbuf : buf.length ≤ MAX_LINE + 1 := by
        unfold fgets at hg
        cases inp with
        | nil => cases hg
        | cons c inp =>
          simp only [Option.some.injEq] at hg
          have := fgets_scan_length (MAX_LINE + 2 - 1) (c :: inp)
          rw [hg] at this
          simpa using this
      have hline : (strip_line_end (c_string buf)).length ≤ MAX_LINE + 1 :=
        le_trans (strip_line_end_length _) (le_trans (c_string_length _) hbuf)
      split_ifs at hs with hend
      · simp only [List.mem_singleton] at hs
        rw [hs]
        decide
      · simp only [List.mem_cons] at hs
        rcases hs with rfl | hs
        · exact hline
        · exact ih rest s hs

set_option maxRecDepth 100000 in
/-- C20 at its failing input.  On the input line of 1025 bytes 'a' followed by a
newline and the line "<END>", the first `fgets` fills the buffer of `MAX_LINE + 2`
bytes with the 1025 bytes 'a', and the feed loop passes that string of 1025 bytes to
`place_work`; the rest of the line, the newline alone, goes out as an empty string. -/
theorem feed_passes_1025_bytes :
    MAX_LINE = 1024
    ∧ (feed_loop (List.replicate 1025 97 ++ cstr "\n<END>\n")).placed
        = [List.replicate 1025 97, [], END_TOKEN]
    ∧ (feed_loop (List.replicate 1025 97 ++ cstr "\n<END>\n")).placed.map List.length
        = [1025, 0, 5]
    ∧ (feed_loop (List.replicate 1025 97 ++ cstr "\n<END>\n")).seen_end = true := by
  decide

/-! ## The latches after each operation -/

theorem put_store_not_empty (q : consumer_producer_t) (x : CStr) :
    (put_store q x).not_empty_monitor
      = if q.count = 0 then monitor_signal q.not_empty_monitor else q.not_empty_monitor := by
  unfold put_store
  dsimp only
  split_ifs <;> first | rfl | simp_all

theorem put_store_not_full (q : consumer_producer_t) (x : CStr) :
    (put_store q x).not_full_monitor
      = if q.count + 1 = q.capacity then monitor_reset q.not_full_monitor
        else q.not_full_monitor := by
  unfold put_store
  dsimp only
  split_ifs <;> first | rfl | simp_all

theorem get_take_not_empty (q : consumer_producer_t) :
    (get_take q).2.not_empty_monitor
      = if q.count - 1 = 0 then monitor_reset q.not_empty_monitor
        else q.not_empty_monitor := by
  unfold get_take
  dsimp only
  split_ifs <;> first | rfl | simp_all

theorem signal_finished_latches (q : consumer_producer_t) (hi : q.is_initialized = true)
    (hf : q.finished = false) :
    (consumer_producer_signal_finished q).not_empty_monitor
        = monitor_signal q.not_empty_monitor
    ∧ (consumer_producer_signal_finished q).not_full_monitor
        = monitor_signal q.not_full_monitor := by
  unfold consumer_producer_signal_finished
  dsimp only
  simp only [hi, hf]
  split_ifs <;> simp_all

theorem latches_ok_fresh (C : Nat) (hC : 0 < C) : latches_ok (fresh_queue C) where
  available := by intro h; simp [fresh_queue] at h
  idle := by intro _ _; rfl
  full := by
    intro h _
    simp only [fresh_queue] at h
    omega

/-! ## The slots outside the window -/

theorem outside_null_fresh (C : Nat) : outside_null (fresh_queue C) := by
  intro i hi _
  simp only [fresh_queue] at hi ⊢
  simp [List.getD_eq_getElem?_getD, List.getElem?_replicate, hi]

theorem outside_null_put_store (q : consumer_producer_t) (x : CStr) (hr : ring_ok q)
    (h : outside_null q) : outside_null (put_store q x) := by
  intro i hi hout
  rw [put_store_capacity] at hi
  rw [put_store_count, put_store_head, put_store_capacity] at hout
  rw [put_store_items]
  have hne : q.tail ≠ i := by
    intro heq
    apply hout
    exact ⟨q.count, by omega, by rw [← heq, hr.tail_eq]⟩
  rw [getD_set_ne _ _ _ _ hne]
  apply h i hi
  rintro ⟨k, hk, hik⟩
  exact hout ⟨k, by omega, hik⟩

theorem outside_null_get_take (q : consumer_producer_t) (hr : ring_ok q)
    (h : outside_null q) : outside_null (get_take q).2 := by
  intro i hi hout
  rw [get_take_capacity] at hi
  rw [get_take_count, get_take_head, get_take_capacity] at hout
  rw [get_take_items]
  by_cases hih : q.head = i
  · rw [hih, getD_set_self _ _ _ (by rw [hr.items_len]; exact hi)]
  · rw [getD_set_ne _ _ _ _ hih]
    apply h i hi
    rintro ⟨k, hk, hik⟩
    cases k with
    | zero =>
      rw [Nat.add_zero, Nat.mod_eq_of_lt hr.head_lt] at hik
      exact hih hik.symm
    | succ k =>
      apply hout
      refine ⟨k, by omega, ?_⟩
      rw [hik, Nat.mod_add_mod]
      congr 1
      omega

/-! ### What `consumer_producer_destroy` frees -/

theorem slot_set_iff (q : consumer_producer_t) (hr : ring_ok q) (hp : pending_set q)
    (ho : outside_null q) (i : Nat) :
    (i < q.capacity ∧ q.items.getD i none ≠ none)
      ↔ ∃ k, k < q.count ∧ i = (q.head + k) % q.capacity := by
  constructor
  · rintro ⟨hi, hne⟩
    by_contra hout
    exact hne (ho i hi hout)
  · rintro ⟨k, hk, rfl⟩
    refine ⟨Nat.mod_lt _ hr.cap_pos, ?_⟩
    apply hp
    unfold window
    exact List.mem_map.2 ⟨k, List.mem_range.2 hk, rfl⟩

theorem filterMap_filter_isSome (g : Nat → Option CStr) (l : List Nat) :
    (l.filter (fun i => (g i).isSome)).filterMap g = l.filterMap g := by
  rw [List.filterMap_filter]
  apply List.filterMap_congr
  intro x _
  cases hx : g x <;> simp

theorem freed_perm_window (q : consumer_producer_t) (hr : ring_ok q) (hp : pending_set q)
    (ho : outside_null q) :
    ((List.range q.capacity).filterMap (fun i => q.items.getD i none)).Perm
      ((window q).filterMap id) := by
  have hwin : (window q).filterMap id
      = ((List.range q.count).map (fun k => (q.head + k) % q.capacity)).filterMap
          (fun i => q.items.getD i none) := by
    unfold window
    rw [List.filterMap_map, List.filterMap_map]
    rfl
  rw [hwin, ← filterMap_filter_isSome (fun i => q.items.getD i none) (List.range q.capacity)]
  apply List.Perm.filterMap
  have hnd1 : ((List.range q.capacity).filter
      (fun i => (q.items.getD i none).isSome)).Nodup :=
    List.Nodup.filter _ (List.nodup_range _)
  have hnd2 : ((List.range q.count).map (fun k => (q.head + k) % q.capacity)).Nodup := by
    apply List.Nodup.map_on _ (List.nodup_range _)
    intro a ha b hb hab
    rw [List.mem_range] at ha hb
    have hle := hr.count_le
    rcases Nat.lt_trichotomy a b with hlt | heq | hgt
    · exact absurd hab (ring_slot_ne q.capacity q.head a b hlt (by omega))
    · exact heq
    · exact absurd hab.symm (ring_slot_ne q.capacity q.head b a hgt (by omega))
  rw [List.perm_ext_iff_of_nodup hnd1 hnd2]
  intro i
  rw [List.mem_filter, List.mem_range, List.mem_map, Option.isSome_iff_ne_none,
    slot_set_iff q hr hp ho i]
  constructor
  · rintro ⟨k, hk, rfl⟩
    exact ⟨k, List.mem_range.2 hk, rfl⟩
  · rintro ⟨k, hk, rfl⟩
    exact ⟨k, List.mem_range.1 hk, rfl⟩

/-! ## The queue shared by threads -/

theorem get_wait_loop_eq (q : consumer_producer_t) (hi : q.is_initialized = true) :
    consumer_producer_get q = get_wait_loop q := by
  unfold consumer_producer_get get_wait_loop
  simp [hi]

theorem get_wait_loop_cases (q : consumer_producer_t) :
    get_wait_loop q =
      if q.count = 0 then (if q.finished = true then .returned none q else .parked)
      else .returned (get_take q).1 (get_take q).2 := by
  unfold get_wait_loop
  by_cases hc : q.count = 0 <;> by_cases hf : q.finished = true <;> simp [hc, hf]

theorem put_wait_loop_cases (q : consumer_producer_t) (x : CStr) :
    put_wait_loop q x =
      if q.count = q.capacity then .parked else .returned none (put_store q x) := by
  unfold put_wait_loop
  by_cases hc : q.count = q.capacity <;> simp [hc]

theorem sys_step_effect (s : queue_sys) (m : queue_move)
    (hi : s.queue.is_initialized = true) : sys_effect s (sys_step s m) := by
  cases m with
  | call op =>
    cases op with
    | put item =>
      cases item with
      | none =>
        simp only [sys_step, consumer_producer_put, hi]
        exact .idle rfl rfl rfl rfl
      | some x =>
        simp only [sys_step, put_cases s.queue x hi]
        by_cases hf : s.queue.finished = true
        · rw [if_pos hf]; exact .idle rfl rfl rfl rfl
        · rw [if_neg hf]
          by_cases hc : s.queue.count = s.queue.capacity
          · rw [if_pos hc]; exact .idle rfl rfl rfl rfl
          · rw [if_neg hc]; exact .stored x hc rfl rfl rfl rfl
    | get =>
      simp only [sys_step, get_cases s.queue hi]
      by_cases hc : s.queue.count = 0
      · rw [if_pos hc]
        by_cases hf : s.queue.finished = true
        · rw [if_pos hf]; exact .drained hc hf rfl rfl rfl rfl
        · rw [if_neg hf]; exact .idle rfl rfl rfl rfl
      · rw [if_neg hc]; exact .took hc rfl rfl rfl rfl
    | signal_finished => exact .closed rfl rfl rfl rfl
  | put_wait_returns i =>
    simp only [sys_step]
    cases s.put_waiters[i]? with
    | none => exact .idle rfl rfl rfl rfl
    | some w =>
      cases monitor_wait s.queue.not_full_monitor with
      | none => exact .idle rfl rfl rfl rfl
      | some _ => exact .idle rfl rfl rfl rfl
  | put_relock i =>
    simp only [sys_step]
    cases s.put_waiters[i]? with
    | none => exact .idle rfl rfl rfl rfl
    | some w =>
      dsimp only
      by_cases hw : w.woken = true
      · rw [if_pos hw, put_wait_loop_cases]
        by_cases hc : s.queue.count = s.queue.capacity
        · rw [if_pos hc]; exact .idle rfl rfl rfl rfl
        · rw [if_neg hc]; exact .stored w.item hc rfl rfl rfl rfl
      · rw [if_neg hw]; exact .idle rfl rfl rfl rfl
  | get_wait_returns i =>
    simp only [sys_step]
    cases s.get_waiters[i]? with
    | none => exact .idle rfl rfl rfl rfl
    | some w =>
      cases monitor_wait s.queue.not_empty_monitor with
      | none => exact .idle rfl rfl rfl rfl
      | some _ => exact .idle rfl rfl rfl rfl
  | get_relock i =>
    simp only [sys_step]
    cases s.get_waiters[i]? with
    | none => exact .idle rfl rfl rfl rfl
    | some w =>
      dsimp only
      by_cases hw : w = true
      · rw [if_pos hw, get_wait_loop_cases]
        by_cases hc : s.queue.count = 0
        · rw [if_pos hc]
          by_cases hf : s.queue.finished = true
          · rw [if_pos hf]; exact .drained hc hf rfl rfl rfl rfl
          · rw [if_neg hf]; exact .idle rfl rfl rfl rfl
        · rw [if_neg hc]; exact .took hc rfl rfl rfl rfl
      · rw [if_neg hw]; exact .idle rfl rfl rfl rfl

theorem sys_run_queue_inv (P : consumer_producer_t → Prop)
    (hput : ∀ q x, ring_ok q → P q → q.count ≠ q.capacity → P (put_store q x))
    (hget : ∀ q, ring_ok q → P q → q.count ≠ 0 → P (get_take q).2)
    (hfin : ∀ q, ring_ok q → P q → P (consumer_producer_signal_finished q))
    (moves : List queue_move) (s : queue_sys) (hr : ring_ok s.queue) (h : P s.queue) :
    ring_ok (sys_run s moves).queue ∧ P (sys_run s moves).queue := by
  induction moves generalizing s with
  | nil => exact ⟨hr, h⟩
  | cons m moves ih =>
    show ring_ok (sys_run (sys_step s m) moves).queue ∧ P (sys_run (sys_step s m) moves).queue
    rcases sys_step_effect s m hr.inited with ⟨hq, -, -, -⟩ | ⟨x, hc, hq, -, -, -⟩
      | ⟨hc, hq, -, -, -⟩ | ⟨-, -, hq, -, -, -⟩ | ⟨hq, -, -, -⟩
    · exact ih _ (hq ▸ hr) (hq ▸ h)
    · exact ih _ (hq ▸ ring_ok_put_store _ x hr hc) (hq ▸ hput _ x hr h hc)
    · exact ih _ (hq ▸ ring_ok_get_take _ hr hc) (hq ▸ hget _ hr h hc)
    · exact ih _ (hq ▸ hr) (hq ▸ h)
    · exact ih _ (hq ▸ ring_ok_signal_finished _ hr) (hq ▸ hfin _ hr h)

theorem sys_run_ring_ok (moves : List queue_move) (s : queue_sys) (hr : ring_ok s.queue) :
    ring_ok (sys_run s moves).queue :=
  (sys_run_queue_inv (fun _ => True) (fun _ _ _ _ _ => trivial) (fun _ _ _ _ => trivial)
    (fun _ _ _ => trivial) moves s hr trivial).1

theorem sys_run_capacity (moves : List queue_move) (s : queue_sys) (hr : ring_ok s.queue) :
    (sys_run s moves).queue.capacity = s.queue.capacity :=
  (sys_run_queue_inv (fun q => q.capacity = s.queue.capacity)
    (fun q x _ h _ => (put_store_capacity q x).trans h)
    (fun q _ h _ => (get_take_capacity q).trans h)
    (fun q _ h => (signal_finished_ring q).2.1.trans h) moves s hr rfl).2

theorem latches_ok_put_store (q : consumer_producer_t) (x : CStr) (hr : ring_ok q)
    (h : latches_ok q) : latches_ok (put_store q x) := by
  constructor
  · intro _
    rw [put_store_not_empty]
    by_cases h0 : q.count = 0
    · rw [if_pos h0]
      simp [monitor_signal, hr.ne_init]
    · rw [if_neg h0]
      exact h.available (Nat.pos_of_ne_zero h0)
  · intro h0
    rw [put_store_count] at h0
    omega
  · intro hfull _
    rw [put_store_count, put_store_capacity] at hfull
    rw [put_store_not_full, if_pos hfull]
    simp [monitor_reset, hr.nf_init]

theorem latches_ok_get_take (q : consumer_producer_t) (hr : ring_ok q)
    (h : latches_ok q) (hc : q.count ≠ 0) : latches_ok (get_take q).2 := by
  have hle := hr.count_le
  constructor
  · intro hpos
    rw [get_take_count] at hpos
    rw [get_take_not_empty, if_neg (by omega)]
    exact h.available (by omega)
  · intro h0 _
    rw [get_take_count] at h0
    rw [get_take_not_empty, if_pos h0]
    simp [monitor_reset, hr.ne_init]
  · intro hfull _
    rw [get_take_count, get_take_capacity] at hfull
    omega

theorem latches_ok_signal_finished (q : consumer_producer_t) (hr : ring_ok q)
    (h : latches_ok q) : latches_ok (consumer_producer_signal_finished q) := by
  by_cases hf : q.finished = true
  · rw [signal_finished_idem q hf]; exact h
  · have hf2 : q.finished = false := by simpa using hf
    obtain ⟨e1, e2⟩ := signal_finished_latches q hr.inited hf2
    have hfin := signal_finished_sets q hr.inited
    constructor
    · intro _
      rw [e1]
      simp [monitor_signal, hr.ne_init]
    · intro _ hnf
      rw [hfin] at hnf
      cases hnf
    · intro _ hnf
      rw [hfin] at hnf
      cases hnf

theorem sys_run_latches_ok (moves : List queue_move) (s : queue_sys) (hr : ring_ok s.queue)
    (h : latches_ok s.queue) : latches_ok (sys_run s moves).queue :=
  (sys_run_queue_inv latches_ok (fun q x hr h _ => latches_ok_put_store q x hr h)
    (fun q hr h hc => latches_ok_get_take q hr h hc)
    (fun q hr h => latches_ok_signal_finished q hr h) moves s hr h).2

theorem outside_null_signal_finished (q : consumer_producer_t) (h : outside_null q) :
    outside_null (consumer_producer_signal_finished q) := by
  obtain ⟨e1, e2, e3, e4, -, -⟩ := signal_finished_ring q
  intro i hi hout
  rw [e2] at hi
  rw [e3, e4, e2] at hout
  rw [e1]
  exact h i hi hout

theorem sys_run_outside_null (moves : List queue_move) (s : queue_sys) (hr : ring_ok s.queue)
    (h : outside_null s.queue) : outside_null (sys_run s moves).queue :=
  (sys_run_queue_inv outside_null (fun q x hr h _ => outside_null_put_store q x hr h)
    (fun q hr h _ => outside_null_get_take q hr h)
    (fun q _ h => outside_null_signal_finished q h) moves s hr h).2

theorem hist_ok_init (C : Nat) (hC : 0 < C) : hist_ok (sys_init (fresh_queue C)) where
  ring := ring_ok_fresh C hC
  fifo := ⟨[], by simp [window, fresh_queue, sys_init], rfl⟩

theorem got_items_append (s t : queue_sys) (r : Option CStr) (h : t.got = s.got ++ [r]) :
    got_items t = got_items s ++ r.toList := by
  unfold got_items
  rw [h, List.filterMap_append]
  cases r <;> rfl

theorem hist_ok_step (s : queue_sys) (m : queue_move) (h : hist_ok s) :
    hist_ok (sys_step s m) := by
  obtain ⟨pend, hw, hst⟩ := h.fifo
  have hr := h.ring
  rcases sys_step_effect s m hr.inited with ⟨hq, hs, hg, -⟩ | ⟨x, hc, hq, hs, hg, -⟩
    | ⟨hc, hq, hs, hg, -⟩ | ⟨hc, hf, hq, hs, hg, -⟩ | ⟨hq, hs, hg, -⟩
  · refine ⟨hq ▸ hr, pend, by rw [hq]; exact hw, ?_⟩
    rw [hs, hst]; unfold got_items; rw [hg]
  · refine ⟨hq ▸ ring_ok_put_store _ x hr hc, pend ++ [x], ?_, ?_⟩
    · rw [hq, window_put_store _ x hr hc, hw]; simp
    · rw [hs, hst]; unfold got_items; rw [hg, List.append_assoc]
  · have hwin := window_get_take s.queue hr hc
    rw [hw, ← get_take_item] at hwin
    cases pend with
    | nil => simp at hwin
    | cons y p =>
      rw [List.map_cons, List.cons.injEq] at hwin
      obtain ⟨hy, hrest⟩ := hwin
      refine ⟨hq ▸ ring_ok_get_take _ hr hc, p, by rw [hq]; exact hrest.symm, ?_⟩
      rw [got_items_append s _ _ hg, ← hy, hs, hst]
      simp
  · refine ⟨hq ▸ hr, pend, by rw [hq]; exact hw, ?_⟩
    rw [got_items_append s _ _ hg, hs, hst]
    simp
  · refine ⟨hq ▸ ring_ok_signal_finished _ hr, pend, ?_, ?_⟩
    · rw [hq, window_signal_finished]; exact hw
    · rw [hs, hst]; unfold got_items; rw [hg]

theorem hist_ok_run (moves : List queue_move) (s : queue_sys) (h : hist_ok s) :
    hist_ok (sys_run s moves) := by
  induction moves generalizing s with
  | nil => exact h
  | cons m moves ih => exact ih _ (hist_ok_step s m h)

theorem hist_ok_pending_set (s : queue_sys) (h : hist_ok s) : pending_set s.queue := by
  obtain ⟨pend, hw, -⟩ := h.fifo
  intro e he
  rw [hw, List.mem_map] at he
  obtain ⟨x, -, rfl⟩ := he
  exact Option.some_ne_none x

theorem drained_sys_ok_init (C : Nat) : drained_sys_ok (sys_init (fresh_queue C)) where
  inited := rfl
  fm_init := rfl
  sig_fin := by intro h; simp [sys_init, fresh_queue] at h
  fin_sig := by intro h; simp [sys_init, fresh_queue] at h
  calls_le := by simp [sys_init, fresh_queue]
  open_zero := by intro _; exact ⟨rfl, rfl⟩

theorem drained_sys_ok_step (s : queue_sys) (m : queue_move) (h : drained_sys_ok s) :
    drained_sys_ok (sys_step s m) := by
  have h1 := h.sig_fin
  have h2 := h.fin_sig
  have h3 := h.calls_le
  have h4 := h.open_zero
  rcases sys_step_effect s m h.inited with ⟨hq, -, -, hl⟩ | ⟨x, hc, hq, -, -, hl⟩
    | ⟨hc, hq, -, -, hl⟩ | ⟨hc, hf, hq, -, -, hl⟩ | ⟨hq, -, -, hl⟩
  · constructor <;> rw [hq] <;> try rw [hl]
    · exact h.inited
    · exact h.fm_init
    · exact h1
    · exact h2
    · exact h3
    · exact h4
  · constructor
    · rw [hq, put_store_inited]; exact h.inited
    · rw [hq, put_store_finished_monitor]; exact h.fm_init
    · rw [hq, hl, put_store_finished_monitor, put_store_finished, put_store_count]
      intro hsig
      obtain ⟨hf, -⟩ := h1 hsig
      refine ⟨hf, Or.inr ?_⟩
      rw [hf]; simp
    · rw [hq, put_store_count]
      intro _ h0
      omega
    · rw [hq, hl, put_store_finished_monitor, put_store_finished, put_store_count]
      have hne : ¬ (s.queue.finished = true ∧ s.queue.count + 1 = 0) := fun hh => by omega
      rw [if_neg hne]
      by_cases hf : s.queue.finished = true
      · have hle : s.queue.finished_monitor.signal_calls ≤ s.late_stores + 1 := by
          split_ifs at h3 <;> omega
        rw [if_pos hf]
        omega
      · have hf2 : s.queue.finished = false := by simpa using hf
        have := (h4 hf2).2
        omega
    · rw [hq, hl, put_store_finished_monitor, put_store_finished]
      intro hf
      rw [hf]
      simpa using h4 hf
  · have hnot : ¬ (s.queue.finished = true ∧ s.queue.count = 0) := fun hh => hc hh.2
    rw [if_neg hnot] at h3
    constructor
    · rw [hq, get_take_inited]; exact h.inited
    · rw [hq, get_take_fm_inited]; exact h.fm_init
    · rw [hq, hl, get_take_finished_monitor, get_take_finished, get_take_count]
      by_cases hd : s.queue.count - 1 = 0 ∧ s.queue.finished = true
      · rw [if_pos hd]
        intro _
        exact ⟨hd.2, Or.inl hd.1⟩
      · rw [if_neg hd]
        intro hsig
        obtain ⟨hf, hor⟩ := h1 hsig
        refine ⟨hf, Or.inr ?_⟩
        rcases hor with h0 | hpos
        · exact absurd h0 hc
        · exact hpos
    · rw [hq, get_take_finished_monitor, get_take_finished, get_take_count]
      intro hf h0
      rw [if_pos ⟨h0, hf⟩]
      simp [monitor_signal, h.fm_init]
    · rw [hq, hl, get_take_finished_monitor, get_take_finished, get_take_count]
      by_cases hd : s.queue.count - 1 = 0 ∧ s.queue.finished = true
      · rw [if_pos hd, if_pos ⟨hd.2, hd.1⟩]
        simp only [monitor_signal, h.fm_init, Bool.not_true, Bool.false_eq_true, if_false]
        omega
      · rw [if_neg hd, if_neg (fun hh => hd ⟨hh.2, hh.1⟩)]
        omega
    · rw [hq, hl, get_take_finished_monitor, get_take_finished]
      intro hf
      rw [if_neg (fun hh => by rw [hf] at hh; cases hh.2)]
      exact h4 hf
  · constructor <;> rw [hq] <;> try rw [hl]
    · exact h.inited
    · exact h.fm_init
    · exact h1
    · exact h2
    · exact h3
    · exact h4
  · by_cases hf : s.queue.finished = true
    · rw [signal_finished_idem _ hf] at hq
      constructor <;> rw [hq] <;> try rw [hl]
      · exact h.inited
      · exact h.fm_init
      · exact h1
      · exact h2
      · exact h3
      · exact h4
    · have hf2 : s.queue.finished = false := by simpa using hf
      obtain ⟨-, -, e3, -, -, e6⟩ := signal_finished_ring s.queue
      have hfin := signal_finished_sets s.queue h.inited
      have hfm := signal_finished_finished_monitor s.queue h.inited hf2
      obtain ⟨hl0, hc0⟩ := h4 hf2
      constructor
      · rw [hq, e6]; exact h.inited
      · rw [hq, (signal_finished_monitors_inited s.queue).2.2]; exact h.fm_init
      · rw [hq, hl, hfm, e3, hfin]
        by_cases hc : s.queue.count = 0
        · intro _; exact ⟨rfl, Or.inl hc⟩
        · rw [if_neg hc]
          intro hsig
          exact absurd (h1 hsig).1 hf
      · rw [hq, hfm, e3]
        intro _ hc
        rw [if_pos hc]
        simp [monitor_signal, h.fm_init]
      · rw [hq, hl, hfm, e3, hfin]
        by_cases hc : s.queue.count = 0
        · rw [if_pos hc, if_pos ⟨rfl, hc⟩]
          simp only [monitor_signal, h.fm_init, Bool.not_true, Bool.false_eq_true, if_false]
          omega
        · rw [if_neg hc, if_neg (fun hh => hc hh.2)]
          omega
      · rw [hq, hfin]
        intro hh
        cases hh

theorem drained_sys_ok_run (moves : List queue_move) (s : queue_sys) (h : drained_sys_ok s) :
    drained_sys_ok (sys_run s moves) := by
  induction moves generalizing s with
  | nil => exact h
  | cons m moves ih => exact ih _ (drained_sys_ok_step s m h)

theorem sys_step_finished (s : queue_sys) (m : queue_move)
    (hi : s.queue.is_initialized = true) (hf : s.queue.finished = true) :
    (sys_step s m).queue.finished = true := by
  rcases sys_step_effect s m hi with ⟨hq, -, -, -⟩ | ⟨x, -, hq, -, -, -⟩
    | ⟨-, hq, -, -, -⟩ | ⟨-, -, hq, -, -, -⟩ | ⟨hq, -, -, -⟩
  · rw [hq]; exact hf
  · rw [hq, put_store_finished]; exact hf
  · rw [hq, get_take_finished]; exact hf
  · rw [hq]; exact hf
  · rw [hq, signal_finished_idem _ hf]; exact hf

theorem call_get_finished_got (s : queue_sys) (hi : s.queue.is_initialized = true)
    (hf : s.queue.finished = true) :
    ∃ r, (sys_step s (.call .get)).got = s.got ++ [r] := by
  simp only [sys_step, get_cases s.queue hi, if_pos hf]
  by_cases hc : s.queue.count = 0
  · rw [if_pos hc]; exact ⟨none, rfl⟩
  · rw [if_neg hc]; exact ⟨_, rfl⟩

/-- On a finished queue, once as many gets have been called as there were pending items,
every one of these items has been returned, in order, whatever the other threads (puts
that were waiting at the closure among them) have done in between. -/
theorem finished_delivers (after : List queue_move) (s : queue_sys) (h : hist_ok s)
    (hf : s.queue.finished = true) (pend more : List CStr)
    (hw : window s.queue = (pend ++ more).map some)
    (hn : pend.length ≤ after.count (.call .get)) :
    ∃ rest, got_items (sys_run s after) = got_items s ++ pend ++ rest := by
  induction after generalizing s pend more with
  | nil =>
    have : pend = [] := List.length_eq_zero.1 (by simpa using hn)
    subst this
    exact ⟨[], by simp [sys_run]⟩
  | cons m after ih =>
    have hr := h.ring
    have ht := hist_ok_step s m h
    have hft := sys_step_finished s m hr.inited hf
    have hcount : (m :: after).count (.call .get)
        = after.count (.call .get) + if m = .call .get then 1 else 0 := by
      rw [List.count_cons]
      by_cases hm : m = .call .get <;> simp [hm]
    have hnoget : (sys_step s m).got = s.got → m ≠ .call .get := by
      intro hg hm
      subst hm
      obtain ⟨r, hr2⟩ := call_get_finished_got s hr.inited hf
      rw [hr2] at hg
      have := congrArg List.length hg
      simp at this
    show ∃ rest, got_items (sys_run (sys_step s m) after) = got_items s ++ pend ++ rest
    rcases sys_step_effect s m hr.inited with ⟨hq, -, hg, -⟩ | ⟨x, hc, hq, -, hg, -⟩
      | ⟨hc, hq, -, hg, -⟩ | ⟨hc, -, hq, -, hg, -⟩ | ⟨hq, -, hg, -⟩
    · have hm := hnoget hg
      rw [hcount, if_neg hm] at hn
      obtain ⟨rest, e⟩ := ih _ ht hft pend more (by rw [hq]; exact hw) hn
      refine ⟨rest, ?_⟩
      rw [e]; unfold got_items; rw [hg]
    · have hm := hnoget hg
      rw [hcount, if_neg hm] at hn
      obtain ⟨rest, e⟩ := ih _ ht hft pend (more ++ [x])
        (by rw [hq, window_put_store _ x hr hc, hw]; simp) hn
      refine ⟨rest, ?_⟩
      rw [e]; unfold got_items; rw [hg]
    · have hwin := window_get_take s.queue hr hc
      rw [hw, ← get_take_item] at hwin
      cases pend with
      | nil =>
        obtain ⟨pend2, hw2, -⟩ := ht.fifo
        obtain ⟨rest, e⟩ := ih _ ht hft [] pend2 (by simpa using hw2) (by simp)
        refine ⟨(get_take s.queue).1.toList ++ rest, ?_⟩
        rw [e, got_items_append s _ _ hg]
        simp
      | cons y p =>
        rw [List.cons_append, List.map_cons, List.cons.injEq] at hwin
        obtain ⟨hy, hrest⟩ := hwin
        have hn2 : p.length ≤ after.count (.call .get) := by
          rw [hcount] at hn
          simp only [List.length_cons] at hn
          split_ifs at hn <;> omega
        obtain ⟨rest, e⟩ := ih _ ht hft p more (by rw [hq]; exact hrest.symm) hn2
        refine ⟨rest, ?_⟩
        rw [e, got_items_append s _ _ hg, ← hy]
        simp
    · have hlen : (window s.queue).length = 0 := by rw [window_length]; exact hc
      rw [hw] at hlen
      have hp : pend = [] := by
        simp at hlen; exact hlen.1
      subst hp
      obtain ⟨pend2, hw2, -⟩ := ht.fifo
      obtain ⟨rest, e⟩ := ih _ ht hft [] pend2 (by simpa using hw2) (by simp)
      refine ⟨rest, ?_⟩
      rw [e, got_items_append s _ _ hg]
      simp
    · have hm := hnoget hg
      rw [hcount, if_neg hm] at hn
      obtain ⟨rest, e⟩ := ih _ ht hft pend more
        (by rw [hq, window_signal_finished]; exact hw) hn
      refine ⟨rest, ?_⟩
      rw [e]; unfold got_items; rw [hg]

theorem sys_run_append (s : queue_sys) (a b : List queue_move) :
    sys_run s (a ++ b) = sys_run (sys_run s a) b := by
  simp [sys_run, List.foldl_append]

/-- Once the queue is finished with no put inside its wait loop, no item is stored any
more. -/
theorem no_waiter_no_late_store (after : List queue_move) (s : queue_sys)
    (hi : s.queue.is_initialized = true) (hf : s.queue.finished = true)
    (hw : s.put_waiters = []) :
    (sys_run s after).late_stores = s.late_stores := by
  induction after generalizing s with
  | nil => rfl
  | cons m after ih =>
    show (sys_run (sys_step s m) after).late_stores = s.late_stores
    have hstep : (sys_step s m).put_waiters = [] ∧ (sys_step s m).late_stores = s.late_stores
        ∧ (sys_step s m).queue.is_initialized = true := by
      cases m with
      | call op =>
        cases op with
        | put item =>
          cases item with
          | none => simp [sys_step, consumer_producer_put, hi, hw]
          | some x => simp [sys_step, put_cases s.queue x hi, hf, hw, hi]
        | get =>
          simp only [sys_step, get_cases s.queue hi, if_pos hf]
          by_cases hc : s.queue.count = 0
          · rw [if_pos hc]; exact ⟨hw, rfl, hi⟩
          · rw [if_neg hc]; exact ⟨hw, rfl, by rw [get_take_inited]; exact hi⟩
        | signal_finished => simp [sys_step, signal_finished_idem _ hf, hw, hi]
      | put_wait_returns i => simp [sys_step, hw, hi]
      | put_relock i => simp [sys_step, hw, hi]
      | get_wait_returns i =>
        simp only [sys_step]
        cases s.get_waiters[i]? with
        | none => exact ⟨hw, rfl, hi⟩
        | some w =>
          cases monitor_wait s.queue.not_empty_monitor with
          | none => exact ⟨hw, rfl, hi⟩
          | some _ => exact ⟨hw, rfl, hi⟩
      | get_relock i =>
        simp only [sys_step]
        cases s.get_waiters[i]? with
        | none => exact ⟨hw, rfl, hi⟩
        | some w =>
          dsimp only
          by_cases hwk : w = true
          · rw [if_pos hwk, get_wait_loop_cases, if_pos hf]
            by_cases hc : s.queue.count = 0
            · rw [if_pos hc]; exact ⟨hw, rfl, hi⟩
            · rw [if_neg hc]; exact ⟨hw, rfl, by rw [get_take_inited]; exact hi⟩
          · rw [if_neg hwk]; exact ⟨hw, rfl, hi⟩
    rw [ih _ hstep.2.2 (sys_step_finished s m hi hf) hstep.1, hstep.2.1]

/-- Calls that run one after the other, a call that would wait being given up: the
shared queue then goes through the states of `queue_run`, and nothing is stored on a
finished queue. -/
theorem sys_run_calls (ops : List queue_op) (s : queue_sys)
    (hi : s.queue.is_initialized = true) :
    (sys_run s (ops.map .call)).queue = queue_run s.queue ops
    ∧ (sys_run s (ops.map .call)).late_stores = s.late_stores := by
  induction ops generalizing s with
  | nil => exact ⟨rfl, rfl⟩
  | cons op ops ih =>
    show (sys_run (sys_step s (.call op)) (ops.map .call)).queue
        = queue_run (queue_step s.queue op) ops
      ∧ (sys_run (sys_step s (.call op)) (ops.map .call)).late_stores = s.late_stores
    have hstep : (sys_step s (.call op)).queue = queue_step s.queue op
        ∧ (sys_step s (.call op)).late_stores = s.late_stores := by
      cases op with
      | put item =>
        cases item with
        | none =>
          simp only [sys_step, queue_step, consumer_producer_put, hi]
          exact ⟨rfl, rfl⟩
        | some x =>
          simp only [sys_step, queue_step, put_cases s.queue x hi]
          by_cases hf : s.queue.finished = true
          · rw [if_pos hf]; exact ⟨rfl, rfl⟩
          · rw [if_neg hf]
            by_cases hc : s.queue.count = s.queue.capacity
            · rw [if_pos hc]; exact ⟨rfl, rfl⟩
            · rw [if_neg hc]; exact ⟨rfl, by simp [hf]⟩
      | get =>
        simp only [sys_step, queue_step, get_cases s.queue hi]
        by_cases hc : s.queue.count = 0
        · rw [if_pos hc]
          by_cases hf : s.queue.finished = true
          · rw [if_pos hf]; exact ⟨rfl, rfl⟩
          · rw [if_neg hf]; exact ⟨rfl, rfl⟩
        · rw [if_neg hc]; exact ⟨rfl, rfl⟩
      | signal_finished => exact ⟨rfl, rfl⟩
    have hi2 : (sys_step s (.call op)).queue.is_initialized = true := by
      rcases sys_step_effect s (.call op) hi with ⟨hq, -, -, -⟩ | ⟨x, -, hq, -, -, -⟩
        | ⟨-, hq, -, -, -⟩ | ⟨-, -, hq, -, -, -⟩ | ⟨hq, -, -, -⟩
      · rw [hq]; exact hi
      · rw [hq, put_store_inited]; exact hi
      · rw [hq, get_take_inited]; exact hi
      · rw [hq]; exact hi
      · rw [hq, (signal_finished_ring _).2.2.2.2.2]; exact hi
    obtain ⟨e1, e2⟩ := ih _ hi2
    rw [e1, e2, hstep.1, hstep.2]
    exact ⟨rfl, rfl⟩

/-! ### Claims about the queue shared by threads -/

theorem sys_init_facts (q0 q : consumer_producer_t) (C : Int) (env : init_env)
    (hinit : consumer_producer_init q0 C env = (none, q)) :
    0 < C.toNat ∧ q = fresh_queue C.toNat ∧ ((C.toNat : Nat) : Int) = C := by
  obtain ⟨hC, rfl⟩ := consumer_producer_init_ok q0 q C env hinit
  exact ⟨by omega, rfl, by omega⟩

/-- C4. After `consumer_producer_init` succeeds with capacity `C`, `C` is at least 1
and every state that the threads using the queue can reach by put, get and
signal_finished (calls that wait and are resumed, also after the closure, included) has
`0 ≤ count ≤ C` and still has capacity `C`. -/
theorem count_within_capacity (q0 q : consumer_producer_t) (C : Int) (env : init_env)
    (moves : List queue_move) (hinit : consumer_producer_init q0 C env = (none, q)) :
    1 ≤ C ∧ (0 : Int) ≤ ((sys_run (sys_init q) moves).queue.count : Int)
      ∧ ((sys_run (sys_init q) moves).queue.count : Int) ≤ C
      ∧ ((sys_run (sys_init q) moves).queue.capacity : Int) = C := by
  obtain ⟨hpos, rfl, hC⟩ := sys_init_facts q0 q C env hinit
  have hfresh : ring_ok (sys_init (fresh_queue C.toNat)).queue := ring_ok_fresh _ hpos
  have hr := sys_run_ring_ok moves _ hfresh
  have hcap := sys_run_capacity moves _ hfresh
  have hle := hr.count_le
  rw [hcap] at hle
  have hcap2 : (sys_init (fresh_queue C.toNat)).queue.capacity = C.toNat := rfl
  rw [hcap, hcap2]
  refine ⟨by omega, by omega, by omega, by omega⟩

theorem count_within_capacity_witness :
    consumer_producer_init queue_zero 1 env_ok = (none, fresh_queue 1)
    ∧ (sys_run (sys_init (fresh_queue 1)) demo_straddle_moves).queue.finished = true
    ∧ (sys_run (sys_init (fresh_queue 1)) demo_straddle_moves).queue.count = 1
    ∧ ((1 : Int) ≤ 1
      ∧ (0 : Int) ≤ ((sys_run (sys_init (fresh_queue 1)) demo_straddle_moves).queue.count : Int)
      ∧ ((sys_run (sys_init (fresh_queue 1)) demo_straddle_moves).queue.count : Int) ≤ 1
      ∧ ((sys_run (sys_init (fresh_queue 1)) demo_straddle_moves).queue.capacity : Int) = 1) :=
  ⟨by decide, by decide, by decide,
    count_within_capacity queue_zero (fresh_queue 1) 1 env_ok demo_straddle_moves (by decide)⟩

/-- C22. In every state that the threads using a freshly initialised queue can reach by
put, get and signal_finished, each step under the queue lock being atomic and calls
that wait being resumed, the wake-up latches agree with the counters: if count > 0
then `not_empty` is signalled (so `monitor_wait` on it returns); if count = 0 and the
queue is not finished then `not_empty` is unsignalled; and if count = capacity and the
queue is not finished then `not_full` is unsignalled (so `monitor_wait` on it parks the
caller). -/
theorem latches_agree (q0 q : consumer_producer_t) (C : Int) (env : init_env)
    (moves : List queue_move) (hinit : consumer_producer_init q0 C env = (none, q)) :
    (0 < (sys_run (sys_init q) moves).queue.count →
        (sys_run (sys_init q) moves).queue.not_empty_monitor.signaled = true
        ∧ monitor_wait (sys_run (sys_init q) moves).queue.not_empty_monitor = some 0)
    ∧ ((sys_run (sys_init q) moves).queue.count = 0 →
        (sys_run (sys_init q) moves).queue.finished = false →
        (sys_run (sys_init q) moves).queue.not_empty_monitor.signaled = false
        ∧ monitor_wait (sys_run (sys_init q) moves).queue.not_empty_monitor = none)
    ∧ ((sys_run (sys_init q) moves).queue.count = (sys_run (sys_init q) moves).queue.capacity →
        (sys_run (sys_init q) moves).queue.finished = false →
        (sys_run (sys_init q) moves).queue.not_full_monitor.signaled = false
        ∧ monitor_wait (sys_run (sys_init q) moves).queue.not_full_monitor = none) := by
  obtain ⟨hpos, rfl, -⟩ := sys_init_facts q0 q C env hinit
  have hfresh : ring_ok (sys_init (fresh_queue C.toNat)).queue := ring_ok_fresh _ hpos
  have hr := sys_run_ring_ok moves _ hfresh
  have hl := sys_run_latches_ok moves _ hfresh (latches_ok_fresh _ hpos)
  refine ⟨fun h => ?_, fun h1 h2 => ?_, fun h1 h2 => ?_⟩
  · have := hl.available h
    exact ⟨this, by simp [monitor_wait, hr.ne_init, this]⟩
  · have := hl.idle h1 h2
    exact ⟨this, by simp [monitor_wait, hr.ne_init, this]⟩
  · have := hl.full h1 h2
    exact ⟨this, by simp [monitor_wait, hr.nf_init, this]⟩

theorem latches_agree_witness :
    consumer_producer_init queue_zero 1 env_ok = (none, fresh_queue 1)
    ∧ (sys_run (sys_init (fresh_queue 1)) demo_straddle_moves).queue.count = 1
    ∧ (sys_run (sys_init (fresh_queue 1)) demo_straddle_moves).queue.finished = true
    ∧ ((sys_run (sys_init (fresh_queue 1)) demo_straddle_moves).queue.not_empty_monitor.signaled
          = true
      ∧ monitor_wait
          (sys_run (sys_init (fresh_queue 1)) demo_straddle_moves).queue.not_empty_monitor
          = some 0) :=
  ⟨by decide, by decide, by decide,
    (latches_agree queue_zero (fresh_queue 1) 1 env_ok demo_straddle_moves (by decide)).1
      (by decide)⟩

/-- C6. In every state that the threads using a successfully initialised queue can
reach (calls that wait and are resumed included), `get` returns the drained value
`NULL` if and only if the queue is finished and its count is 0, and it then leaves the
queue record unchanged; on an empty unfinished queue it parks; with count > 0 (finished
or not) it returns the oldest pending item, removes it from the window and decrements
count, the finished flag being kept.  The items stored so far are the items returned by
the gets so far followed by the pending items `pend` of the window, in order; so when a
get reports drained, every item ever stored has been returned.  Closing the queue loses
nothing: on a finished queue, once as many further gets have been called as there are
pending items, all of these have been returned, in order, whatever the other threads do
in between. -/
theorem get_drained_iff (q0 q : consumer_producer_t) (C : Int) (env : init_env)
    (moves : List queue_move) (hinit : consumer_producer_init q0 C env = (none, q)) :
    ((∃ s1, consumer_producer_get (sys_run (sys_init q) moves).queue = .returned none s1)
      ↔ ((sys_run (sys_init q) moves).queue.finished = true
          ∧ (sys_run (sys_init q) moves).queue.count = 0))
    ∧ (((sys_run (sys_init q) moves).queue.count = 0
          ∧ (sys_run (sys_init q) moves).queue.finished = true
          ∧ consumer_producer_get (sys_run (sys_init q) moves).queue
              = .returned none (sys_run (sys_init q) moves).queue)
       ∨ ((sys_run (sys_init q) moves).queue.count = 0
          ∧ (sys_run (sys_init q) moves).queue.finished = false
          ∧ consumer_producer_get (sys_run (sys_init q) moves).queue = .parked)
       ∨ (0 < (sys_run (sys_init q) moves).queue.count ∧ ∃ x s1,
            consumer_producer_get (sys_run (sys_init q) moves).queue = .returned (some x) s1
            ∧ window (sys_run (sys_init q) moves).queue = some x :: window s1
            ∧ s1.count + 1 = (sys_run (sys_init q) moves).queue.count
            ∧ s1.finished = (sys_run (sys_init q) moves).queue.finished))
    ∧ ∃ pend, window (sys_run (sys_init q) moves).queue = pend.map some
        ∧ (sys_run (sys_init q) moves).stored
            = got_items (sys_run (sys_init q) moves) ++ pend
        ∧ ((sys_run (sys_init q) moves).queue.finished = true
            → (sys_run (sys_init q) moves).queue.count = 0
            → (sys_run (sys_init q) moves).stored = got_items (sys_run (sys_init q) moves))
        ∧ ∀ after : List queue_move,
            (sys_run (sys_init q) moves).queue.finished = true →
            pend.length ≤ after.count (.call .get) →
            ∃ rest, got_items (sys_run (sys_run (sys_init q) moves) after)
              = got_items (sys_run (sys_init q) moves) ++ pend ++ rest := by
  obtain ⟨hpos, rfl, -⟩ := sys_init_facts q0 q C env hinit
  have hh := hist_ok_run moves _ (hist_ok_init _ hpos)
  have hr := hh.ring
  have hp := hist_ok_pending_set _ hh
  obtain ⟨pend, hpend, hst⟩ := hh.fifo
  generalize sys_run (sys_init (fresh_queue C.toNat)) moves = t at hh hr hp hpend hst
  have hcases := get_cases t.queue hr.inited
  have htri : (t.queue.count = 0 ∧ t.queue.finished = true
          ∧ consumer_producer_get t.queue = .returned none t.queue)
       ∨ (t.queue.count = 0 ∧ t.queue.finished = false
          ∧ consumer_producer_get t.queue = .parked)
       ∨ (0 < t.queue.count ∧ ∃ x s1, consumer_producer_get t.queue = .returned (some x) s1
            ∧ window t.queue = some x :: window s1 ∧ s1.count + 1 = t.queue.count
            ∧ s1.finished = t.queue.finished) := by
    by_cases hc : t.queue.count = 0
    · rw [if_pos hc] at hcases
      by_cases hf : t.queue.finished = true
      · rw [if_pos hf] at hcases
        exact Or.inl ⟨hc, hf, hcases⟩
      · rw [if_neg hf] at hcases
        exact Or.inr (Or.inl ⟨hc, by simpa using hf, hcases⟩)
    · rw [if_neg hc] at hcases
      have hwin := window_get_take t.queue hr hc
      rw [← get_take_item] at hwin
      cases hit : (get_take t.queue).1 with
      | none =>
        exfalso
        apply hp none _ rfl
        rw [hwin, hit]
        exact List.mem_cons_self _ _
      | some x =>
        rw [hit] at hcases hwin
        refine Or.inr (Or.inr ⟨Nat.pos_of_ne_zero hc, x, (get_take t.queue).2, hcases, hwin,
          ?_, get_take_finished t.queue⟩)
        rw [get_take_count]
        omega
  refine ⟨?_, htri, pend, hpend, hst, ?_, ?_⟩
  · constructor
    · rintro ⟨s1, hs1⟩
      rcases htri with ⟨hc, hf, -⟩ | ⟨-, -, hg⟩ | ⟨-, x, s2, hg, -⟩
      · exact ⟨hf, hc⟩
      · rw [hg] at hs1; cases hs1
      · rw [hg] at hs1; cases hs1
    · rintro ⟨hf, hc⟩
      rcases htri with ⟨-, -, hg⟩ | ⟨-, hf2, -⟩ | ⟨hpos2, -⟩
      · exact ⟨t.queue, hg⟩
      · rw [hf] at hf2; cases hf2
      · omega
  · intro _ hc
    have hlen : (window t.queue).length = 0 := by rw [window_length]; exact hc
    rw [hpend, List.length_map] at hlen
    rw [hst, List.length_eq_zero.1 hlen, List.append_nil]
  · intro after hf hn
    exact finished_delivers after t hh hf pend [] (by simpa using hpend) hn

theorem get_drained_iff_witness :
    consumer_producer_init queue_zero 1 env_ok = (none, fresh_queue 1)
    ∧ (sys_run (sys_init (fresh_queue 1)) demo_straddle_moves).queue.finished = true
    ∧ (sys_run (sys_init (fresh_queue 1)) demo_straddle_moves).queue.count = 1
    ∧ (sys_run (sys_init (fresh_queue 1)) demo_straddle_moves).stored = [cstr "a", cstr "b"]
    ∧ got_items (sys_run (sys_init (fresh_queue 1)) demo_straddle_moves) = [cstr "a"]
    ∧ ¬ (∃ s1, consumer_producer_get
          (sys_run (sys_init (fresh_queue 1)) demo_straddle_moves).queue
        = .returned none s1) :=
  ⟨by decide, by decide, by decide, by decide, by decide,
    fun h => absurd
      (((get_drained_iff queue_zero (fresh_queue 1) 1 env_ok demo_straddle_moves
        (by decide)).1.1 h).2) (by decide)⟩

/-- C21. In every state that the threads using a queue can reach from a successful
`consumer_producer_init` with capacity `C` by put, get and signal_finished (calls that
wait and are resumed, also after the closure, included): the capacity is `C`,
`0 ≤ head < C`, `0 ≤ tail < C`, `tail = (head + count) mod C`, and slot `i` of the ring
buffer is non-null exactly when `i` is one of the `count` positions starting at `head`,
cyclically.  The window of those slots holds, oldest first, the items `pend` that were
put (stored by a put that returned success) and not yet got, and
`consumer_producer_destroy` frees exactly these items, each once. -/
theorem ring_shape_and_destroy (q0 q : consumer_producer_t) (C : Int) (env : init_env)
    (moves : List queue_move) (hinit : consumer_producer_init q0 C env = (none, q)) :
    ((sys_run (sys_init q) moves).queue.capacity : Int) = C
    ∧ (sys_run (sys_init q) moves).queue.head < (sys_run (sys_init q) moves).queue.capacity
    ∧ (sys_run (sys_init q) moves).queue.tail < (sys_run (sys_init q) moves).queue.capacity
    ∧ (sys_run (sys_init q) moves).queue.tail
        = ((sys_run (sys_init q) moves).queue.head + (sys_run (sys_init q) moves).queue.count)
            % (sys_run (sys_init q) moves).queue.capacity
    ∧ (∀ i, (i < (sys_run (sys_init q) moves).queue.capacity
          ∧ (sys_run (sys_init q) moves).queue.items.getD i none ≠ none)
        ↔ ∃ k, k < (sys_run (sys_init q) moves).queue.count
            ∧ i = ((sys_run (sys_init q) moves).queue.head + k)
                % (sys_run (sys_init q) moves).queue.capacity)
    ∧ ∃ pend, (sys_run (sys_init q) moves).stored
          = got_items (sys_run (sys_init q) moves) ++ pend
        ∧ window (sys_run (sys_init q) moves).queue = pend.map some
        ∧ (consumer_producer_destroy (sys_run (sys_init q) moves).queue).1.Perm pend := by
  obtain ⟨hpos, rfl, hC⟩ := sys_init_facts q0 q C env hinit
  have hfresh : ring_ok (sys_init (fresh_queue C.toNat)).queue := ring_ok_fresh _ hpos
  have hh := hist_ok_run moves _ (hist_ok_init _ hpos)
  have hr := hh.ring
  have hp := hist_ok_pending_set _ hh
  have ho := sys_run_outside_null moves _ hfresh (outside_null_fresh _)
  have hcap := sys_run_capacity moves _ hfresh
  obtain ⟨pend, hpend, hst⟩ := hh.fifo
  have htail : (sys_run (sys_init (fresh_queue C.toNat)) moves).queue.tail
      < (sys_run (sys_init (fresh_queue C.toNat)) moves).queue.capacity := by
    rw [hr.tail_eq]
    exact Nat.mod_lt _ hr.cap_pos
  refine ⟨?_, hr.head_lt, htail, hr.tail_eq, fun i => slot_set_iff _ hr hp ho i, pend, hst,
    hpend, ?_⟩
  · rw [hcap]
    exact hC
  · have hfreed : (consumer_producer_destroy
          (sys_run (sys_init (fresh_queue C.toNat)) moves).queue).1
        = (List.range (sys_run (sys_init (fresh_queue C.toNat)) moves).queue.capacity).filterMap
            (fun i => (sys_run (sys_init (fresh_queue C.toNat)) moves).queue.items.getD i
              none) := by
      unfold consumer_producer_destroy
      simp [hr.inited]
    rw [hfreed]
    have hperm := freed_perm_window _ hr hp ho
    rw [hpend] at hperm
    simpa [List.filterMap_map] using hperm

theorem ring_shape_and_destroy_witness :
    consumer_producer_init queue_zero 3 env_ok = (none, fresh_queue 3)
    ∧ (sys_run (sys_init (fresh_queue 3)) demo_wrap_moves).queue.head = 2
    ∧ (sys_run (sys_init (fresh_queue 3)) demo_wrap_moves).queue.tail = 2
    ∧ (sys_run (sys_init (fresh_queue 3)) demo_wrap_moves).queue.count = 3
    ∧ (sys_run (sys_init (fresh_queue 3)) demo_wrap_moves).stored
        = [cstr "a", cstr "b", cstr "c", cstr "d", cstr "e"]
    ∧ got_items (sys_run (sys_init (fresh_queue 3)) demo_wrap_moves) = [cstr "a", cstr "b"]
    ∧ (consumer_producer_destroy (sys_run (sys_init (fresh_queue 3)) demo_wrap_moves).queue).1
        = [cstr "d", cstr "e", cstr "c"]
    ∧ (sys_run (sys_init (fresh_queue 3)) demo_wrap_moves).queue.tail
        = ((sys_run (sys_init (fresh_queue 3)) demo_wrap_moves).queue.head
            + (sys_run (sys_init (fresh_queue 3)) demo_wrap_moves).queue.count)
          % (sys_run (sys_init (fresh_queue 3)) demo_wrap_moves).queue.capacity :=
  ⟨by decide, by decide, by decide, by decide, by decide, by decide, by decide,
    (ring_shape_and_destroy queue_zero (fresh_queue 3) 3 env_ok demo_wrap_moves
      (by decide)).2.2.2.1⟩

/-- C8, as the claim states it, fails.  On a queue of capacity 1 holding "a", a put of
"b" finds the queue full and waits; the queue is closed; a get takes "a", which drains
the finished queue and signals the drained latch; the waiting put then re-takes the
lock, finds room and stores "b".  The queue is now finished with count 1 and the
drained latch still signalled; the get that takes "b" signals the latch a second time.
The same state is reached by `put_wake` on the closed, drained queue. -/
theorem straddling_put_breaks_drained_latch :
    consumer_producer_init queue_zero 1 env_ok = (none, fresh_queue 1)
    ∧ (sys_run (sys_init (fresh_queue 1)) demo_straddle_moves).queue.finished = true
    ∧ (sys_run (sys_init (fresh_queue 1)) demo_straddle_moves).queue.count = 1
    ∧ (sys_run (sys_init (fresh_queue 1)) demo_straddle_moves).queue.finished_monitor.signaled
        = true
    ∧ (sys_run (sys_init (fresh_queue 1)) demo_straddle_moves).queue.finished_monitor.signal_calls
        = 1
    ∧ (sys_run (sys_init (fresh_queue 1))
          (demo_straddle_moves ++ [.call .get])).queue.finished_monitor.signal_calls = 2
    ∧ (sys_run (sys_init (fresh_queue 1)) demo_straddle_moves).queue
        = put_store demo_closed_drained (cstr "b")
    ∧ put_wake demo_closed_drained (cstr "b")
        = .returned none (put_store demo_closed_drained (cstr "b")) := by
  decide

/-- C8, amended.  In every state that the threads using a freshly initialised queue can
reach by put, get and signal_finished (calls that wait and are resumed included): the
drained latch `finished_monitor` is signalled whenever the queue is finished and empty,
and only if the queue is finished; `monitor_signal` has reached it at most once more
often than items were stored after the closure.  If no item was stored after the
closure, the latch is signalled if and only if the queue is finished and empty, and
`monitor_signal` has reached it at most once.  No item is stored after the closure when
no put is inside its wait loop at the moment `signal_finished` first closes the queue,
and when every call is one atomic step that is never resumed (the queue then goes
through the states of `queue_run`). -/
theorem drained_latch_exact (q0 q : consumer_producer_t) (C : Int) (env : init_env)
    (moves : List queue_move) (hinit : consumer_producer_init q0 C env = (none, q)) :
    ((sys_run (sys_init q) moves).queue.finished = true
        → (sys_run (sys_init q) moves).queue.count = 0
        → (sys_run (sys_init q) moves).queue.finished_monitor.signaled = true)
    ∧ ((sys_run (sys_init q) moves).queue.finished_monitor.signaled = true
        → (sys_run (sys_init q) moves).queue.finished = true)
    ∧ (sys_run (sys_init q) moves).queue.finished_monitor.signal_calls
        ≤ (sys_run (sys_init q) moves).late_stores + 1
    ∧ ((sys_run (sys_init q) moves).late_stores = 0 →
        ((sys_run (sys_init q) moves).queue.finished_monitor.signaled = true
          ↔ ((sys_run (sys_init q) moves).queue.finished = true
              ∧ (sys_run (sys_init q) moves).queue.count = 0))
        ∧ (sys_run (sys_init q) moves).queue.finished_monitor.signal_calls ≤ 1)
    ∧ (∀ before after : List queue_move,
        moves = before ++ .call .signal_finished :: after →
        (sys_run (sys_init q) before).queue.finished = false →
        (sys_run (sys_init q) before).put_waiters = [] →
        (sys_run (sys_init q) moves).late_stores = 0)
    ∧ (∀ ops : List queue_op, moves = ops.map .call →
        (sys_run (sys_init q) moves).queue = queue_run q ops
        ∧ (sys_run (sys_init q) moves).late_stores = 0) := by
  obtain ⟨hpos, rfl, -⟩ := sys_init_facts q0 q C env hinit
  have hinv : ∀ mv, drained_sys_ok (sys_run (sys_init (fresh_queue C.toNat)) mv) :=
    fun mv => drained_sys_ok_run mv _ (drained_sys_ok_init _)
  have h := hinv moves
  refine ⟨h.fin_sig, fun hs => (h.sig_fin hs).1, ?_, ?_, ?_, ?_⟩
  · have := h.calls_le
    split_ifs at this <;> omega
  · intro hl
    refine ⟨⟨fun hs => ?_, fun hh => h.fin_sig hh.1 hh.2⟩, ?_⟩
    · obtain ⟨hf, hor⟩ := h.sig_fin hs
      rcases hor with h0 | hpos2
      · exact ⟨hf, h0⟩
      · omega
    · have := h.calls_le
      split_ifs at this <;> omega
  · intro before after hm hf hw
    subst hm
    have hb := hinv before
    have hstep : sys_run (sys_init (fresh_queue C.toNat))
          (before ++ .call .signal_finished :: after)
        = sys_run (sys_step (sys_run (sys_init (fresh_queue C.toNat)) before)
            (.call .signal_finished)) after := by
      rw [sys_run_append]; rfl
    rw [hstep]
    generalize sys_run (sys_init (fresh_queue C.toNat)) before = b at hb hf hw
    have hi2 : (sys_step b (.call .signal_finished)).queue.is_initialized = true := by
      show (consumer_producer_signal_finished b.queue).is_initialized = true
      rw [(signal_finished_ring _).2.2.2.2.2]; exact hb.inited
    have hf2 : (sys_step b (.call .signal_finished)).queue.finished = true :=
      signal_finished_sets b.queue hb.inited
    rw [no_waiter_no_late_store after _ hi2 hf2 hw]
    exact (hb.open_zero hf).1
  · intro ops hm
    subst hm
    exact sys_run_calls ops (sys_init (fresh_queue C.toNat)) rfl

theorem drained_latch_exact_witness :
    consumer_producer_init queue_zero 1 env_ok = (none, fresh_queue 1)
    ∧ (sys_run (sys_init (fresh_queue 1)) demo_straddle_moves).late_stores = 1
    ∧ (sys_run (sys_init (fresh_queue 1)) demo_straddle_moves).queue.finished_monitor.signal_calls
        ≤ (sys_run (sys_init (fresh_queue 1)) demo_straddle_moves).late_stores + 1
    ∧ (sys_run (sys_init (fresh_queue 1)) (demo_mixed_ops.map .call)).queue
        = queue_run (fresh_queue 1) demo_mixed_ops
    ∧ (sys_run (sys_init (fresh_queue 1)) (demo_mixed_ops.map .call)).queue.finished_monitor.signaled
        = true
    ∧ (sys_run (sys_init (fresh_queue 1))
          (demo_mixed_ops.map .call)).queue.finished_monitor.signal_calls ≤ 1 :=
  ⟨by decide, by decide,
    (drained_latch_exact queue_zero (fresh_queue 1) 1 env_ok demo_straddle_moves
      (by decide)).2.2.1,
    ((drained_latch_exact queue_zero (fresh_queue 1) 1 env_ok (demo_mixed_ops.map .call)
      (by decide)).2.2.2.2.2 demo_mixed_ops rfl).1,
    by decide,
    ((drained_latch_exact queue_zero (fresh_queue 1) 1 env_ok (demo_mixed_ops.map .call)
      (by decide)).2.2.2.1
      ((drained_latch_exact queue_zero (fresh_queue 1) 1 env_ok (demo_mixed_ops.map .call)
        (by decide)).2.2.2.2.2 demo_mixed_ops rfl).2).2⟩


/-! ## The pipeline as a set of threads: what every step keeps -/

theorem lines_at_succ (ts : List transform_fn) (xs : List CStr) (k : Nat) (t : transform_fn)
    (h : ts[k]? = some t) :
    lines_at ts xs (k + 1) = (lines_at ts xs k).filterMap (transform_value t) := by
  induction ts generalizing xs k with
  | nil => simp at h
  | cons a ts ih =>
    cases k with
    | zero =>
      simp only [List.getElem?_cons_zero, Option.some.injEq] at h
      subst h
      cases ts <;> rfl
    | succ k =>
      rw [List.getElem?_cons_succ] at h
      show lines_at ts _ (k + 1) = (lines_at ts _ k).filterMap _
      exact ih _ k h

theorem lines_at_length_le (ts : List transform_fn) (xs : List CStr) (k : Nat) :
    (lines_at ts xs k).length ≤ xs.length := by
  induction ts generalizing xs k with
  | nil => cases k <;> exact le_refl _
  | cons a ts ih =>
    cases k with
    | zero => exact le_refl _
    | succ k =>
      exact le_trans (ih _ k) (List.length_filterMap_le _ _)

theorem lines_at_chain (ts more : List transform_fn) (xs : List CStr)
    (hxs : ∀ x ∈ xs, (chain_apply ts x).isSome = true) :
    (∀ k, k ≤ ts.length → ∀ x ∈ lines_at (ts ++ more) xs k, x ≠ END_TOKEN)
    ∧ lines_at (ts ++ more) xs ts.length = xs.filterMap (chain_apply ts) := by
  induction ts generalizing xs with
  | nil =>
    have hne : ∀ x ∈ xs, x ≠ END_TOKEN := fun x hx => chain_apply_ne_sentinel [] x (hxs x hx)
    have h0 : lines_at ([] ++ more) xs 0 = xs := by cases more <;> rfl
    constructor
    · intro k hk x hx
      have hk0 : k = 0 := by simpa using hk
      subst hk0
      rw [h0] at hx
      exact hne x hx
    · show lines_at ([] ++ more) xs 0 = _
      rw [h0]
      have hc : xs.filterMap (chain_apply []) = xs.filterMap some := by
        apply List.filterMap_congr
        intro x hx
        simp [chain_apply, hne x hx]
      rw [hc, List.filterMap_some]
  | cons t ts ih =>
    have hne : ∀ x ∈ xs, x ≠ END_TOKEN :=
      fun x hx => chain_apply_ne_sentinel _ x (hxs x hx)
    have hys : ∀ y ∈ xs.filterMap (transform_value t), (chain_apply ts y).isSome = true := by
      intro y hy
      obtain ⟨x, hx, hv⟩ := List.mem_filterMap.1 hy
      have := hxs x hx
      simpa [chain_apply, hne x hx, hv] using this
    have hcomp : (xs.filterMap (transform_value t)).filterMap (chain_apply ts)
        = xs.filterMap (chain_apply (t :: ts)) := by
      rw [List.filterMap_filterMap]
      apply List.filterMap_congr
      intro x hx
      simp [chain_apply, hne x hx]
    obtain ⟨ih1, ih2⟩ := ih _ hys
    constructor
    · intro k hk x hx
      cases k with
      | zero => exact hne x hx
      | succ k =>
        exact ih1 k (by simpa using hk) x hx
    · show lines_at (ts ++ more) _ ts.length = _
      rw [ih2, hcomp]

theorem before_sentinel_of_not_mem (l : List CStr) (h : END_TOKEN ∉ l) :
    before_sentinel l = l := by
  unfold before_sentinel
  rw [List.takeWhile_eq_self_iff]
  intro x hx
  have : x ≠ END_TOKEN := fun he => h (he ▸ hx)
  simpa using this

theorem before_sentinel_append (l r : List CStr) (h : END_TOKEN ∉ l) :
    before_sentinel (l ++ r) = l ++ before_sentinel r := by
  induction l with
  | nil => rfl
  | cons a l ih =>
    have ha : a ≠ END_TOKEN := fun he => h (he ▸ List.mem_cons_self _ _)
    have hl : END_TOKEN ∉ l := fun hm => h (List.mem_cons_of_mem _ hm)
    have := ih hl
    unfold before_sentinel at this ⊢
    simp [ha, this]

theorem before_sentinel_sentinel (r : List CStr) :
    before_sentinel (END_TOKEN :: r) = [] := by
  simp [before_sentinel]

theorem stage_forwards_snoc (t : transform_fn) (l : List CStr) (x : CStr)
    (h : END_TOKEN ∉ l) :
    stage_forwards t (l ++ [x])
      = stage_forwards t l
        ++ (if x = END_TOKEN then [END_TOKEN] else (transform_value t x).toList) := by
  unfold stage_forwards
  rw [before_sentinel_append l [x] h, if_neg h, before_sentinel_of_not_mem l h]
  by_cases hx : x = END_TOKEN
  · subst hx
    simp [before_sentinel_sentinel]
  · have hb : before_sentinel [x] = [x] := before_sentinel_of_not_mem _ (by simpa using Ne.symm hx)
    have hm : END_TOKEN ∉ l ++ [x] := by simpa [h] using Ne.symm hx
    rw [hb, if_neg hx, if_neg hm, List.filterMap_append]
    cases hv : transform_value t x <;> simp [hv]

theorem stage_forwards_nil (t : transform_fn) : stage_forwards t [] = [] := by
  simp [stage_forwards, before_sentinel]

theorem stage_forwards_full (t : transform_fn) (lines : List CStr)
    (h : END_TOKEN ∉ lines) :
    stage_forwards t (lines ++ [END_TOKEN])
      = lines.filterMap (transform_value t) ++ [END_TOKEN] := by
  rw [stage_forwards_snoc t lines _ h, if_pos rfl]
  unfold stage_forwards
  rw [before_sentinel_of_not_mem lines h, if_neg h, List.append_nil]

/-- A prefix of `lines ++ ["<END>"]` is a prefix of `lines`, or the whole list. -/
theorem prefix_lines_cases (l lines : List CStr) (h : l <+: lines ++ [END_TOKEN])
    (hl : END_TOKEN ∉ lines) :
    (END_TOKEN ∉ l ∧ l <+: lines) ∨ l = lines ++ [END_TOKEN] := by
  obtain ⟨r, hr⟩ := h
  rcases List.eq_nil_or_concat r with rfl | ⟨r', z, rfl⟩
  · right
    simpa using hr
  · left
    rw [List.concat_eq_append, ← List.append_assoc] at hr
    have := List.append_inj' hr rfl
    obtain ⟨h1, -⟩ := this
    refine ⟨?_, ⟨r', h1⟩⟩
    intro hm
    apply hl
    rw [← h1]
    exact List.mem_append_left _ hm

theorem stage_forwards_mono (t : transform_fn) (l lines : List CStr)
    (h : l <+: lines ++ [END_TOKEN]) (hl : END_TOKEN ∉ lines) :
    stage_forwards t l <+: lines.filterMap (transform_value t) ++ [END_TOKEN] := by
  rcases prefix_lines_cases l lines h hl with ⟨hm, ⟨r, hr⟩⟩ | rfl
  · unfold stage_forwards
    rw [before_sentinel_of_not_mem l hm, if_neg hm, List.append_nil, ← hr,
      List.filterMap_append, List.append_assoc]
    exact List.prefix_append _ _
  · rw [stage_forwards_full t lines hl]

theorem window_filterMap_get_take (q : consumer_producer_t) (hr : ring_ok q)
    (hp : pending_set q) (hc : q.count ≠ 0) :
    ∃ x, (get_take q).1 = some x
      ∧ (window q).filterMap id = x :: (window (get_take q).2).filterMap id := by
  have hwin := window_get_take q hr hc
  rw [← get_take_item] at hwin
  cases hit : (get_take q).1 with
  | none =>
    exfalso
    apply hp none _ rfl
    rw [hwin, hit]
    exact List.mem_cons_self _ _
  | some x =>
    refine ⟨x, rfl, ?_⟩
    rw [hwin, hit]
    rfl

theorem pending_set_get_take (q : consumer_producer_t) (hr : ring_ok q)
    (hp : pending_set q) (hc : q.count ≠ 0) : pending_set (get_take q).2 := by
  intro e he
  apply hp e
  rw [window_get_take q hr hc]
  exact List.mem_cons_of_mem _ he

theorem pending_set_put_store (q : consumer_producer_t) (x : CStr) (hr : ring_ok q)
    (hp : pending_set q) (hc : q.count ≠ q.capacity) : pending_set (put_store q x) := by
  intro e he
  rw [window_put_store q x hr hc, List.mem_append] at he
  rcases he with he | he
  · exact hp e he
  · rw [List.mem_singleton] at he
    rw [he]; exact Option.some_ne_none x

theorem pending_set_signal_finished (q : consumer_producer_t) (hp : pending_set q) :
    pending_set (consumer_producer_signal_finished q) := by
  intro e he
  apply hp e
  rw [← window_signal_finished q]
  exact he

/-- A worker at `consumer_producer_get` whose wait state changes. -/
theorem stage_inv_get_wait (t : transform_fn) (hook : Option hook_ptr) (st : stage_t)
    (w w1 : wait_state) (h : stage_inv t hook st) (hpc : st.pc = .at_get w) :
    stage_inv t hook { st with pc := .at_get w1 } where
  inited := h.inited
  transform := h.transform
  hooked := h.hooked
  queue := h.queue
  ring := h.ring
  pending := h.pending
  latches := h.latches
  writes_eq := h.writes_eq
  at_get := fun _ _ => h.at_get w hpc
  at_hook := fun _ _ _ _ hh => by cases hh
  at_close := fun hh => by cases hh
  exited := fun hh => by cases hh

theorem worker_got_sentinel_hook (st : stage_t) (h : hook_ptr)
    (hep : st.ctx.end_pushed = false) (hnp : st.ctx.next_place_work = some h) :
    worker_got st END_TOKEN
      = { st with ctx := { st.ctx with end_pushed := true },
                  taken := st.taken ++ [END_TOKEN],
                  events := st.events ++ [.forward h END_TOKEN],
                  pc := .at_hook h END_TOKEN true .running } := by
  simp [worker_got, hep, hnp]

theorem worker_got_sentinel_last (st : stage_t)
    (hep : st.ctx.end_pushed = false) (hnp : st.ctx.next_place_work = none) :
    worker_got st END_TOKEN
      = { st with ctx := { st.ctx with end_pushed := true },
                  taken := st.taken ++ [END_TOKEN], pc := .at_close } := by
  simp [worker_got, hep, hnp]

theorem worker_got_forward (st : stage_t) (t : transform_fn) (h : hook_ptr) (x o : CStr)
    (hx : x ≠ END_TOKEN) (ht : st.ctx.process_function = some t)
    (hnp : st.ctx.next_place_work = some h) (hv : transform_value t x = some o) :
    worker_got st x
      = { st with taken := st.taken ++ [x],
                  events := st.events ++ [.transform x, .write (t (some x)).stdout]
                    ++ [.forward h o],
                  pc := .at_hook h o false .running } := by
  have hval : (t (some x)).result.value x = some o := hv
  simp [worker_got, hx, ht, hnp, hval]

theorem worker_got_keep (st : stage_t) (t : transform_fn) (x : CStr)
    (hx : x ≠ END_TOKEN) (ht : st.ctx.process_function = some t)
    (hno : st.ctx.next_place_work = none ∨ transform_value t x = none) :
    worker_got st x
      = { st with taken := st.taken ++ [x],
                  events := st.events ++ [.transform x, .write (t (some x)).stdout],
                  pc := .at_get .running } := by
  rcases hno with hnp | hv
  · simp only [worker_got, if_neg hx, ht, hnp, Option.map_some']
  · have hval : (t (some x)).result.value x = none := hv
    simp only [worker_got, if_neg hx, ht, Option.map_some', hval]
    cases st.ctx.next_place_work <;> rfl

/-- Lines 21-51 on the item `x` that the worker has just taken. -/
theorem worker_got_inv (t : transform_fn) (hook : Option hook_ptr) (st : stage_t) (x : CStr)
    (hi : st.ctx.initialized = true) (ht : st.ctx.process_function = some t)
    (hk : st.ctx.next_place_work = hook) (hq : st.ctx.queue = some (stage_queue st))
    (hring : ring_ok (stage_queue st)) (hpend : pending_set (stage_queue st))
    (hlat : latches_ok (stage_queue st))
    (hw : writes st.events = (before_sentinel st.taken).map (fun x => (t (some x)).stdout))
    (hnot : END_TOKEN ∉ st.taken) (hfin : (stage_queue st).finished = false)
    (hep : st.ctx.end_pushed = false) :
    stage_inv t hook (worker_got st x)
    ∧ (worker_got st x).place_work = st.place_work
    ∧ (worker_got st x).taken = st.taken ++ [x]
    ∧ stage_queue (worker_got st x) = stage_queue st
    ∧ (stage_sent t (worker_got st x) = stage_forwards t st.taken ∨ hook = none) := by
  have hsnoc := stage_forwards_snoc t st.taken x hnot
  by_cases hxe : x = END_TOKEN
  · subst hxe
    rw [if_pos rfl] at hsnoc
    have hbs : before_sentinel (st.taken ++ [END_TOKEN]) = before_sentinel st.taken := by
      rw [before_sentinel_append _ _ hnot, before_sentinel_sentinel, List.append_nil,
        before_sentinel_of_not_mem _ hnot]
    cases hh : hook with
    | none =>
      rw [hh] at hk
      rw [worker_got_sentinel_last st hep hk]
      refine ⟨?_, rfl, rfl, rfl, Or.inr rfl⟩
      constructor
      · exact hi
      · exact ht
      · exact hk
      · exact hq
      · exact hring
      · exact hpend
      · exact hlat
      · show writes st.events = _
        rw [hbs]; exact hw
      · intro _ hh2; cases hh2
      · intro _ _ _ _ hh2; cases hh2
      · intro _; exact ⟨by simp, hfin⟩
      · intro hh2; cases hh2
    | some a =>
      rw [hh] at hk
      rw [worker_got_sentinel_hook st a hep hk]
      refine ⟨?_, rfl, rfl, rfl, Or.inl ?_⟩
      · constructor
        · exact hi
        · exact ht
        · exact hk
        · exact hq
        · exact hring
        · exact hpend
        · exact hlat
        · show writes (st.events ++ [.forward a END_TOKEN]) = _
          rw [hbs, writes_append]
          simp [writes, hw]
        · intro _ hh2; cases hh2
        · intro h2 out last w2 hh2
          cases hh2
          exact ⟨rfl, ⟨_, hsnoc⟩, hfin, by simp, by simp⟩
        · intro hh2; cases hh2
        · intro hh2; cases hh2
      · show (stage_forwards t (st.taken ++ [END_TOKEN])).dropLast = _
        rw [hsnoc, List.dropLast_concat]
  · rw [if_neg hxe] at hsnoc
    have hbs : before_sentinel (st.taken ++ [x]) = before_sentinel st.taken ++ [x] := by
      rw [before_sentinel_append _ _ hnot, before_sentinel_of_not_mem _ hnot,
        before_sentinel_of_not_mem [x] (by simpa using Ne.symm hxe)]
    have hmem : END_TOKEN ∉ st.taken ++ [x] := by simpa [hnot] using Ne.symm hxe
    have hwr : writes (st.events ++ [.transform x, .write (t (some x)).stdout])
        = (before_sentinel (st.taken ++ [x])).map (fun x => (t (some x)).stdout) := by
      rw [hbs, writes_append, hw]
      simp [writes]
    have hkeep : ∀ hno : st.ctx.next_place_work = none ∨ transform_value t x = none,
        stage_inv t hook (worker_got st x) := by
      intro hno
      rw [worker_got_keep st t x hxe ht hno]
      constructor
      · exact hi
      · exact ht
      · exact hk
      · exact hq
      · exact hring
      · exact hpend
      · exact hlat
      · exact hwr
      · intro _ _; exact ⟨hmem, hfin, hep⟩
      · intro _ _ _ _ hh2; cases hh2
      · intro hh2; cases hh2
      · intro hh2; cases hh2
    cases hh : hook with
    | none =>
      have hk2 : st.ctx.next_place_work = none := by rw [hk, hh]
      refine ⟨hh ▸ hkeep (Or.inl hk2), ?_, ?_, ?_, Or.inr rfl⟩ <;>
        (rw [worker_got_keep st t x hxe ht (Or.inl hk2)]; try rfl)
    | some a =>
      have hk2 : st.ctx.next_place_work = some a := by rw [hk, hh]
      cases hv : transform_value t x with
      | none =>
        rw [hv] at hsnoc
        refine ⟨hh ▸ hkeep (Or.inr hv), ?_, ?_, ?_, Or.inl ?_⟩ <;>
          (rw [worker_got_keep st t x hxe ht (Or.inr hv)]; try rfl)
        show stage_forwards t (st.taken ++ [x]) = _
        rw [hsnoc]; simp
      | some o =>
        rw [hv] at hsnoc
        rw [worker_got_forward st t a x o hxe ht hk2 hv]
        refine ⟨?_, rfl, rfl, rfl, Or.inl ?_⟩
        · constructor
          · exact hi
          · exact ht
          · exact hk2
          · exact hq
          · exact hring
          · exact hpend
          · exact hlat
          · show writes (st.events ++ [.transform x, .write (t (some x)).stdout]
                ++ [.forward a o]) = _
            rw [writes_append, hwr]
            simp [writes]
          · intro _ hh2; cases hh2
          · intro h2 out last w2 hh2
            cases hh2
            exact ⟨rfl, ⟨_, hsnoc⟩, hfin, by simpa using hmem, fun _ => hep⟩
          · intro hh2; cases hh2
          · intro hh2; cases hh2
        · show (stage_forwards t (st.taken ++ [x])).dropLast = _
          rw [hsnoc]
          exact List.dropLast_concat

theorem worker_get_step_inv (t : transform_fn) (hook : Option hook_ptr) (st : stage_t)
    (w : wait_state) (h : stage_inv t hook st) (hpc : st.pc = .at_get w) :
    stage_inv t hook (worker_get_step st w)
    ∧ (worker_get_step st w).place_work = st.place_work
    ∧ stage_stored (worker_get_step st w) = stage_stored st
    ∧ (stage_sent t (worker_get_step st w) = stage_sent t st ∨ hook = none) := by
  obtain ⟨hnot, hfin, hep⟩ := h.at_get w hpc
  have hsent0 : stage_sent t st = stage_forwards t st.taken := by
    unfold stage_sent; rw [hpc]
  have hwait : ∀ w1, stage_inv t hook { st with pc := .at_get w1 }
      ∧ ({ st with pc := .at_get w1 } : stage_t).place_work = st.place_work
      ∧ stage_stored { st with pc := .at_get w1 } = stage_stored st
      ∧ (stage_sent t { st with pc := .at_get w1 } = stage_sent t st ∨ hook = none) := by
    intro w1
    refine ⟨stage_inv_get_wait t hook st w w1 h hpc, rfl, rfl, Or.inl ?_⟩
    rw [hsent0]; rfl
  have hsame : stage_inv t hook st ∧ st.place_work = st.place_work
      ∧ stage_stored st = stage_stored st
      ∧ (stage_sent t st = stage_sent t st ∨ hook = none) := ⟨h, rfl, rfl, Or.inl rfl⟩
  have hloop : ∀ r, r = get_wait_loop (stage_queue st) →
      stage_inv t hook (worker_after_get st r)
      ∧ (worker_after_get st r).place_work = st.place_work
      ∧ stage_stored (worker_after_get st r) = stage_stored st
      ∧ (stage_sent t (worker_after_get st r) = stage_sent t st ∨ hook = none) := by
    intro r hr
    rw [get_wait_loop_cases] at hr
    by_cases hc : (stage_queue st).count = 0
    · rw [if_pos hc, hfin] at hr
      simp only [Bool.false_eq_true, if_false] at hr
      subst hr
      exact hwait .asleep
    · rw [if_neg hc] at hr
      obtain ⟨x, hx, hwin⟩ := window_filterMap_get_take _ h.ring h.pending hc
      rw [hx] at hr
      subst hr
      have hfin1 : (get_take (stage_queue st)).2.finished = false := by
        rw [get_take_finished]; exact hfin
      obtain ⟨a1, a2, a3, a4, a5⟩ := worker_got_inv t hook
        { st with ctx := { st.ctx with queue := some (get_take (stage_queue st)).2 } } x
        h.inited h.transform h.hooked rfl (ring_ok_get_take _ h.ring hc)
        (pending_set_get_take _ h.ring h.pending hc) (latches_ok_get_take _ h.ring h.latches hc)
        h.writes_eq hnot hfin1 hep
      refine ⟨a1, a2, ?_, ?_⟩
      · show stage_stored (worker_got _ x) = _
        unfold stage_stored
        rw [a3, a4, hwin]
        show (st.taken ++ [x]) ++ _ = st.taken ++ (x :: _)
        simp
        rfl
      · rcases a5 with a5 | a5
        · left
          rw [hsent0]
          exact a5
        · exact Or.inr a5
  cases w with
  | running =>
    simp only [worker_get_step, h.queue]
    rw [get_wait_loop_eq _ h.ring.inited]
    exact hloop _ rfl
  | asleep =>
    simp only [worker_get_step, h.queue]
    cases monitor_wait (stage_queue st).not_empty_monitor with
    | none => exact hsame
    | some _ => exact hwait .woken
  | woken =>
    simp only [worker_get_step, h.queue]
    exact hloop _ rfl

/-- An item is stored in the queue of a stage by its producer. -/
theorem stage_inv_put_store (t : transform_fn) (hook : Option hook_ptr) (tgt : stage_t)
    (s : CStr) (h : stage_inv t hook tgt)
    (hc : (stage_queue tgt).count ≠ (stage_queue tgt).capacity) :
    stage_inv t hook
        (stage_put tgt s)
    ∧ stage_stored
        (stage_put tgt s)
        = stage_stored tgt ++ [s] := by
  have hq : stage_queue
      (stage_put tgt s)
      = put_store (stage_queue tgt) s := rfl
  constructor
  · constructor
    · exact h.inited
    · exact h.transform
    · exact h.hooked
    · rfl
    · rw [hq]; exact ring_ok_put_store _ s h.ring hc
    · rw [hq]; exact pending_set_put_store _ s h.ring h.pending hc
    · rw [hq]; exact latches_ok_put_store _ s h.ring h.latches
    · exact h.writes_eq
    · intro w hw
      rw [hq, put_store_finished]
      exact h.at_get w hw
    · intro a out last w hw
      rw [hq, put_store_finished]
      exact h.at_hook a out last w hw
    · intro hw
      rw [hq, put_store_finished]
      exact h.at_close hw
    · intro hw
      rw [hq, put_store_finished]
      exact h.exited hw
  · unfold stage_stored
    rw [hq, window_put_store _ s h.ring hc]
    show tgt.taken ++ _ = _
    simp

/-- What a step of a caller of `plugin_place_work` does to the stage, allocations
succeeding and the queue of the stage not being finished: the caller waits, or wakes,
or the item is stored and the call returns. -/
theorem place_step_cases (t : transform_fn) (hook : Option hook_ptr) (tgt : stage_t)
    (s : CStr) (w : wait_state) (h : stage_inv t hook tgt)
    (hfin : (stage_queue tgt).finished = false) :
    ((place_step true tgt s w).1 = tgt ∧ ∃ w1, (place_step true tgt s w).2 = some w1)
    ∨ ((stage_queue tgt).count ≠ (stage_queue tgt).capacity
        ∧ (place_step true tgt s w).2 = none
        ∧ (place_step true tgt s w).1
          = (stage_put tgt s)) := by
  have hsp : stage_put tgt s
      = { tgt with ctx := { tgt.ctx with queue := some (put_store (stage_queue tgt) s) } } :=
    rfl
  rw [hsp]
  cases w with
  | running =>
    have hput := put_cases (stage_queue tgt) s h.ring.inited
    rw [if_neg (by rw [hfin]; simp)] at hput
    simp only [place_step, plugin_place_work, h.inited, h.queue, hput, Bool.not_true,
      Bool.false_eq_true, if_false]
    by_cases hc : (stage_queue tgt).count = (stage_queue tgt).capacity
    · rw [if_pos hc]
      exact Or.inl ⟨rfl, _, rfl⟩
    · rw [if_neg hc]
      exact Or.inr ⟨hc, rfl, rfl⟩
  | asleep =>
    simp only [place_step]
    split_ifs
    · exact Or.inl ⟨rfl, _, rfl⟩
    · exact Or.inl ⟨rfl, _, rfl⟩
  | woken =>
    simp only [place_step, place_work_relock, h.queue, put_wait_loop_cases]
    by_cases hc : (stage_queue tgt).count = (stage_queue tgt).capacity
    · rw [if_pos hc]
      exact Or.inl ⟨rfl, _, rfl⟩
    · rw [if_neg hc]
      exact Or.inr ⟨hc, rfl, rfl⟩

/-- A worker inside its next-hook call whose wait state changes. -/
theorem stage_inv_hook_wait (t : transform_fn) (hook : Option hook_ptr) (st : stage_t)
    (a : hook_ptr) (out : CStr) (last : Bool) (w w1 : wait_state) (h : stage_inv t hook st)
    (hpc : st.pc = .at_hook a out last w) :
    stage_inv t hook { st with pc := .at_hook a out last w1 }
    ∧ stage_stored { st with pc := .at_hook a out last w1 } = stage_stored st
    ∧ stage_sent t { st with pc := .at_hook a out last w1 } = stage_sent t st := by
  refine ⟨?_, rfl, ?_⟩
  · constructor
    · exact h.inited
    · exact h.transform
    · exact h.hooked
    · exact h.queue
    · exact h.ring
    · exact h.pending
    · exact h.latches
    · exact h.writes_eq
    · intro _ hh; cases hh
    · intro a2 out2 last2 w2 hh
      cases hh
      exact h.at_hook _ _ _ w hpc
    · intro hh; cases hh
    · intro hh; cases hh
  · unfold stage_sent
    rw [hpc]

/-- The next-hook call of a worker has returned, the string being stored. -/
theorem stage_inv_after_hook (t : transform_fn) (hook : Option hook_ptr) (st : stage_t)
    (a : hook_ptr) (out : CStr) (last : Bool) (w : wait_state) (h : stage_inv t hook st)
    (hpc : st.pc = .at_hook a out last w) :
    stage_inv t hook { st with pc := after_hook last }
    ∧ stage_stored { st with pc := after_hook last } = stage_stored st
    ∧ stage_sent t { st with pc := after_hook last } = stage_sent t st ++ [out] := by
  obtain ⟨-, ⟨pre, hpre⟩, hfin, hlast, hep⟩ := h.at_hook a out last w hpc
  have hsent : stage_sent t st = pre := by
    unfold stage_sent
    rw [hpc]
    show (stage_forwards t st.taken).dropLast = pre
    rw [hpre, List.dropLast_concat]
  cases last with
  | true =>
    have hE : END_TOKEN ∈ st.taken := hlast.1 rfl
    refine ⟨?_, rfl, ?_⟩
    · constructor
      · exact h.inited
      · exact h.transform
      · exact h.hooked
      · exact h.queue
      · exact h.ring
      · exact h.pending
      · exact h.latches
      · exact h.writes_eq
      · intro _ hh; cases hh
      · intro _ _ _ _ hh; cases hh
      · intro _; exact ⟨hE, hfin⟩
      · intro hh; cases hh
    · rw [hsent, ← hpre]; rfl
  | false =>
    have hE : END_TOKEN ∉ st.taken := fun hm => by
      have := hlast.2 hm
      cases this
    refine ⟨?_, rfl, ?_⟩
    · constructor
      · exact h.inited
      · exact h.transform
      · exact h.hooked
      · exact h.queue
      · exact h.ring
      · exact h.pending
      · exact h.latches
      · exact h.writes_eq
      · intro _ _; exact ⟨hE, hfin, hep rfl⟩
      · intro _ _ _ _ hh; cases hh
      · intro hh; cases hh
      · intro hh; cases hh
    · rw [hsent, ← hpre]; rfl

/-- The worker closes its queue and leaves. -/
theorem worker_close_inv (t : transform_fn) (hook : Option hook_ptr) (st : stage_t)
    (h : stage_inv t hook st) (hpc : st.pc = .at_close) :
    stage_inv t hook (worker_close st)
    ∧ (worker_close st).place_work = st.place_work
    ∧ stage_stored (worker_close st) = stage_stored st
    ∧ stage_sent t (worker_close st) = stage_sent t st := by
  obtain ⟨hE, hfin⟩ := h.at_close hpc
  have hq : stage_queue (worker_close st)
      = consumer_producer_signal_finished (stage_queue st) := by
    unfold worker_close worker_leave worker_exit stage_queue
    simp [h.queue]
  refine ⟨?_, rfl, ?_, ?_⟩
  · constructor
    · exact h.inited
    · exact h.transform
    · exact h.hooked
    · show (worker_close st).ctx.queue = some (stage_queue (worker_close st))
      rw [hq]
      unfold worker_close worker_leave worker_exit
      simp [h.queue]
    · rw [hq]; exact ring_ok_signal_finished _ h.ring
    · rw [hq]; exact pending_set_signal_finished _ h.pending
    · rw [hq]; exact latches_ok_signal_finished _ h.ring h.latches
    · exact h.writes_eq
    · intro _ hh; cases hh
    · intro _ _ _ _ hh; cases hh
    · intro hh; cases hh
    · intro _
      rw [hq]
      exact ⟨hE, signal_finished_sets _ h.ring.inited⟩
  · unfold stage_stored
    rw [hq, window_signal_finished]
    rfl
  · unfold stage_sent
    rw [hpc]
    rfl

theorem getElem?_set_cases {α : Type} (l : List α) (i k : Nat) (a b : α)
    (hi : l[i]? = some b) : (l.set i a)[k]? = if k = i then some a else l[k]? := by
  have hlt : i < l.length := by
    by_contra hge
    rw [List.getElem?_eq_none (by omega)] at hi
    cases hi
  by_cases hk : k = i
  · subst hk
    rw [if_pos rfl, List.getElem?_set_self hlt]
  · rw [if_neg hk, List.getElem?_set_ne (fun h => hk h.symm)]

theorem map_set_same {α β : Type} (f : α → β) (l : List α) (i : Nat) (a b : α)
    (hi : l[i]? = some b) (hf : f a = f b) : (l.set i a).map f = l.map f := by
  apply List.ext_getElem?
  intro k
  rw [List.getElem?_map, List.getElem?_map, getElem?_set_cases l i k a b hi]
  by_cases hk : k = i
  · subst hk
    rw [if_pos rfl, hi]
    simp [hf]
  · rw [if_neg hk]

theorem stage_sent_congr (t : transform_fn) (a b : stage_t) (hpc : a.pc = b.pc)
    (ht : a.taken = b.taken) : stage_sent t a = stage_sent t b := by
  unfold stage_sent
  rw [hpc, ht]

/-- The next-hook of a stage that has a successor is not null. -/
theorem addrs_succ_some (ts : List transform_fn) (addrs : List hook_ptr) (xs : List CStr)
    (p : pipeline_t) (h : pipeline_inv ts addrs xs p) (k : Nat) (st : stage_t)
    (hk : p.stages[k]? = some st) : addrs[k]? = some st.place_work := by
  rw [← h.addr, List.getElem?_map, hk]
  rfl

/-- One stage changes, the items stored in its queue and the strings it has handed over
staying as they are. -/
theorem pipeline_inv_update (ts : List transform_fn) (addrs : List hook_ptr)
    (xs : List CStr) (p : pipeline_t) (h : pipeline_inv ts addrs xs p) (i : Nat)
    (st st1 : stage_t) (t : transform_fn) (hi : p.stages[i]? = some st)
    (ht : ts[i]? = some t) (hpw : st1.place_work = st.place_work)
    (hinv : stage_inv t addrs[i + 1]? st1) (hstored : stage_stored st1 = stage_stored st)
    (hsent : stage_sent t st1 = stage_sent t st ∨ addrs[i + 1]? = none)
    (feed : List CStr) (hfeed : feed = p.feed) (w : wait_state) :
    pipeline_inv ts addrs xs { stages := p.stages.set i st1, feed := feed, feed_wait := w } := by
  subst hfeed
  have hget := fun k => getElem?_set_cases p.stages i k st1 st hi
  constructor
  · show (p.stages.set i st1).length = _
    rw [List.length_set]; exact h.len
  · show (p.stages.set i st1).map _ = _
    rw [map_set_same _ _ _ _ _ hi hpw]; exact h.addr
  · intro k s hk
    change (p.stages.set i st1)[k]? = some s at hk
    rw [hget] at hk
    by_cases hki : k = i
    · subst hki
      rw [if_pos rfl] at hk
      cases hk
      obtain ⟨t2, ht2, -, hpre⟩ := h.stage k st hi
      exact ⟨t, ht, hinv, hstored ▸ hpre⟩
    · rw [if_neg hki] at hk
      exact h.stage k s hk
  · intro k a b t2 hka hkb ht2
    change (p.stages.set i st1)[k]? = some a at hka
    change (p.stages.set i st1)[k + 1]? = some b at hkb
    rw [hget] at hka hkb
    by_cases hki : k = i
    · subst hki
      rw [if_pos rfl] at hka
      rw [if_neg (by omega)] at hkb
      cases hka
      rw [ht] at ht2
      cases ht2
      rcases hsent with hs | hs
      · rw [hs]
        exact h.link k st b t hi hkb ht
      · rw [addrs_succ_some ts addrs xs p h _ b hkb] at hs
        cases hs
    · rw [if_neg hki] at hka
      by_cases hki2 : k + 1 = i
      · rw [if_pos hki2] at hkb
        cases hkb
        rw [hstored]
        exact h.link k a st t2 hka (hki2 ▸ hi) ht2
      · rw [if_neg hki2] at hkb
        exact h.link k a b t2 hka hkb ht2
  · intro s hs
    change (p.stages.set i st1)[0]? = some s at hs
    show stage_stored s ++ p.feed = _
    rw [hget] at hs
    by_cases h0 : 0 = i
    · rw [if_pos h0] at hs
      cases hs
      rw [hstored]
      exact h.main st (h0 ▸ hi)
    · rw [if_neg h0] at hs
      exact h.main s hs

theorem prefix_of_append_cons (a r xs : List CStr) (s e : CStr)
    (h : a ++ s :: r = xs ++ [e]) : a <+: xs := by
  rcases List.eq_nil_or_concat (s :: r) with h0 | ⟨r2, z, hz⟩
  · cases h0
  · rw [hz, List.concat_eq_append, ← List.append_assoc] at h
    exact ⟨r2, (List.append_inj' h rfl).1⟩

/-- The sentinel is not among the strings that a stage has handed over before the
string it is handing over now. -/
theorem sentinel_not_sent_before (t : transform_fn) (taken lines pre : List CStr)
    (out : CStr) (hpre : taken <+: lines ++ [END_TOKEN]) (hl : END_TOKEN ∉ lines)
    (hl1 : END_TOKEN ∉ lines.filterMap (transform_value t))
    (hf : stage_forwards t taken = pre ++ [out]) : END_TOKEN ∉ pre := by
  have hmono := stage_forwards_mono t taken lines hpre hl
  rw [hf] at hmono
  obtain ⟨r, hr⟩ := hmono
  rw [List.append_assoc] at hr
  have hp : pre <+: lines.filterMap (transform_value t) :=
    prefix_of_append_cons pre r _ out END_TOKEN hr
  intro hm
  exact hl1 (hp.subset hm)

/-- The queue of the stage that a worker is handing a string to is not finished. -/
theorem hook_target_open (ts : List transform_fn) (addrs : List hook_ptr) (xs : List CStr)
    (p : pipeline_t) (h : pipeline_inv ts addrs xs p)
    (hN : ∀ k, k < ts.length → ∀ x ∈ lines_at ts xs k, x ≠ END_TOKEN)
    (i : Nat) (st tgt : stage_t) (a : hook_ptr) (out : CStr) (last : Bool) (w : wait_state)
    (hi : p.stages[i]? = some st) (hj : p.stages[i + 1]? = some tgt)
    (hpc : st.pc = .at_hook a out last w) :
    (stage_queue tgt).finished = false := by
  obtain ⟨t, ht, hst, hpre⟩ := h.stage i st hi
  obtain ⟨t1, ht1, htgt, -⟩ := h.stage (i + 1) tgt hj
  obtain ⟨-, ⟨pre, hf⟩, -, -, -⟩ := hst.at_hook a out last w hpc
  have hlink := h.link i st tgt t hi hj ht
  have hsent : stage_sent t st = pre := by
    unfold stage_sent
    rw [hpc]
    show (stage_forwards t st.taken).dropLast = pre
    rw [hf, List.dropLast_concat]
  have hlt1 : i + 1 < ts.length := by
    by_contra hge
    rw [List.getElem?_eq_none (by omega)] at ht1
    cases ht1
  have hl : END_TOKEN ∉ lines_at ts xs i := fun hm => hN i (by omega) _ hm rfl
  have hl1 : END_TOKEN ∉ (lines_at ts xs i).filterMap (transform_value t) := by
    rw [← lines_at_succ ts xs i t ht]
    exact fun hm => hN (i + 1) hlt1 _ hm rfl
  have htk : st.taken <+: lines_at ts xs i ++ [END_TOKEN] :=
    (List.prefix_append _ _).trans hpre
  have hno := sentinel_not_sent_before t st.taken _ pre out htk hl hl1 hf
  cases hfin : (stage_queue tgt).finished with
  | false => rfl
  | true =>
    exfalso
    have hex : tgt.pc = .exited := by
      cases hp : tgt.pc with
      | at_get w2 => rw [(htgt.at_get w2 hp).2.1] at hfin; cases hfin
      | at_hook a2 o2 l2 w2 => rw [(htgt.at_hook a2 o2 l2 w2 hp).2.2.1] at hfin; cases hfin
      | at_close => rw [(htgt.at_close hp).2] at hfin; cases hfin
      | exited => rfl
    have hE := (htgt.exited hex).1
    apply hno
    rw [← hsent, ← hlink]
    exact List.mem_append_left _ hE

/-- The queue of the first stage is not finished while `main` has strings to feed. -/
theorem feed_target_open (ts : List transform_fn) (addrs : List hook_ptr) (xs : List CStr)
    (p : pipeline_t) (h : pipeline_inv ts addrs xs p)
    (hN : ∀ k, k < ts.length → ∀ x ∈ lines_at ts xs k, x ≠ END_TOKEN)
    (tgt : stage_t) (s : CStr) (rest : List CStr)
    (h0 : p.stages[0]? = some tgt) (hfeed : p.feed = s :: rest) :
    (stage_queue tgt).finished = false := by
  obtain ⟨t1, ht1, htgt, -⟩ := h.stage 0 tgt h0
  have hmain := h.main tgt h0
  rw [hfeed] at hmain
  have hlt : 0 < ts.length := by
    by_contra hge
    rw [List.getElem?_eq_none (by omega)] at ht1
    cases ht1
  have hxs : END_TOKEN ∉ xs := by
    intro hm
    have := hN 0 hlt END_TOKEN
    have h00 : lines_at ts xs 0 = xs := by cases ts <;> rfl
    rw [h00] at this
    exact this hm rfl
  have hp := prefix_of_append_cons _ _ _ _ _ hmain
  cases hfin : (stage_queue tgt).finished with
  | false => rfl
  | true =>
    exfalso
    have hex : tgt.pc = .exited := by
      cases hp : tgt.pc with
      | at_get w2 => rw [(htgt.at_get w2 hp).2.1] at hfin; cases hfin
      | at_hook a2 o2 l2 w2 => rw [(htgt.at_hook a2 o2 l2 w2 hp).2.2.1] at hfin; cases hfin
      | at_close => rw [(htgt.at_close hp).2] at hfin; cases hfin
      | exited => rfl
    have hE := (htgt.exited hex).1
    exact hxs (hp.subset (List.mem_append_left _ hE))

theorem find_stage_nodup (stages : List stage_t) (j : Nat) (tgt : stage_t)
    (hnd : (stages.map (fun s => s.place_work)).Nodup) (hj : stages[j]? = some tgt) :
    find_stage tgt.place_work stages = some j := by
  induction stages generalizing j with
  | nil => simp at hj
  | cons s rest ih =>
    rw [List.map_cons, List.nodup_cons] at hnd
    cases j with
    | zero =>
      simp only [List.getElem?_cons_zero, Option.some.injEq] at hj
      subst hj
      simp [find_stage]
    | succ j =>
      rw [List.getElem?_cons_succ] at hj
      have hne : s.place_work ≠ tgt.place_work := by
        intro he
        apply hnd.1
        rw [he]
        exact List.mem_map.2 ⟨tgt, List.getElem?_mem hj, rfl⟩
      simp [find_stage, hne, ih j hnd.2 hj]

/-- The next-hook call of the worker of stage `i` returns, the string being stored in
the queue of stage `i + 1`. -/
theorem pipeline_inv_hook_done (ts : List transform_fn) (addrs : List hook_ptr)
    (xs : List CStr) (p : pipeline_t) (h : pipeline_inv ts addrs xs p)
    (hN : ∀ k, k < ts.length → ∀ x ∈ lines_at ts xs k, x ≠ END_TOKEN)
    (i : Nat) (st tgt : stage_t) (a : hook_ptr) (out : CStr) (last : Bool) (w : wait_state)
    (hi : p.stages[i]? = some st) (hj : p.stages[i + 1]? = some tgt)
    (hpc : st.pc = .at_hook a out last w)
    (hc : (stage_queue tgt).count ≠ (stage_queue tgt).capacity) :
    pipeline_inv ts addrs xs
      ⟨(p.stages.set (i + 1) (stage_put tgt out)).set i { st with pc := after_hook last },
        p.feed, p.feed_wait⟩ := by
  obtain ⟨t, ht, hst, hpre⟩ := h.stage i st hi
  obtain ⟨t1, ht1, htgt, -⟩ := h.stage (i + 1) tgt hj
  obtain ⟨hst1, hstored1, hsent1⟩ := stage_inv_after_hook t _ st a out last w hst hpc
  obtain ⟨htgt1, hstored2⟩ := stage_inv_put_store t1 _ tgt out htgt hc
  have hlink := h.link i st tgt t hi hj ht
  obtain ⟨-, ⟨pre, hf⟩, -, -, -⟩ := hst.at_hook a out last w hpc
  have hsent : stage_sent t st = pre := by
    unfold stage_sent
    rw [hpc]
    show (stage_forwards t st.taken).dropLast = pre
    rw [hf, List.dropLast_concat]
  have hg1 := fun k => getElem?_set_cases p.stages (i + 1) k
    (stage_put tgt out) tgt hj
  have hi1 : (p.stages.set (i + 1)
      (stage_put tgt out))[i]? = some st := by
    rw [hg1, if_neg (by omega)]; exact hi
  have hg2 := fun k => getElem?_set_cases _ i k { st with pc := after_hook last } st hi1
  have hget : ∀ k, ((p.stages.set (i + 1)
      (stage_put tgt out)).set i
      { st with pc := after_hook last })[k]?
      = if k = i then some { st with pc := after_hook last }
        else if k = i + 1 then some (stage_put tgt out)
        else p.stages[k]? := by
    intro k
    rw [hg2, hg1]
  have hlt1 : i + 1 < ts.length := by
    by_contra hge
    rw [List.getElem?_eq_none (by omega)] at ht1
    cases ht1
  constructor
  · show (List.set _ _ _).length = _
    rw [List.length_set, List.length_set]; exact h.len
  · show (List.set _ _ _).map _ = _
    rw [map_set_same (fun s : stage_t => s.place_work) _ i { st with pc := after_hook last } st hi1
        rfl,
      map_set_same (fun s : stage_t => s.place_work) _ (i + 1) (stage_put tgt out) tgt hj rfl]
    exact h.addr
  · intro k s hk
    change (List.set _ _ _)[k]? = some s at hk
    rw [hget] at hk
    by_cases hki : k = i
    · subst hki
      rw [if_pos rfl] at hk
      cases hk
      exact ⟨t, ht, hst1, hstored1 ▸ hpre⟩
    · rw [if_neg hki] at hk
      by_cases hkj : k = i + 1
      · subst hkj
        rw [if_pos rfl] at hk
        cases hk
        refine ⟨t1, ht1, htgt1, ?_⟩
        rw [hstored2, hlink, hsent, ← hf, lines_at_succ ts xs i t ht]
        have hl : END_TOKEN ∉ lines_at ts xs i := fun hm => hN i (by omega) _ hm rfl
        exact stage_forwards_mono t st.taken _ ((List.prefix_append _ _).trans hpre) hl
      · rw [if_neg hkj] at hk
        exact h.stage k s hk
  · intro k x y t2 hkx hky ht2
    change (List.set _ _ _)[k]? = some x at hkx
    change (List.set _ _ _)[k + 1]? = some y at hky
    rw [hget] at hkx hky
    by_cases hki : k = i
    · subst hki
      rw [if_pos rfl] at hkx
      rw [if_neg (by omega), if_pos rfl] at hky
      cases hkx
      cases hky
      rw [ht] at ht2
      cases ht2
      rw [hstored2, hsent1, hlink]
    · rw [if_neg hki] at hkx
      by_cases hkj : k = i + 1
      · subst hkj
        rw [if_pos rfl] at hkx
        rw [if_neg (by omega), if_neg (by omega)] at hky
        cases hkx
        rw [ht1] at ht2
        cases ht2
        rw [h.link (i + 1) tgt y t1 hj hky ht1]
        exact stage_sent_congr _ _ _ rfl rfl
      · rw [if_neg hkj] at hkx
        by_cases hki2 : k + 1 = i
        · rw [if_pos hki2] at hky
          cases hky
          rw [hstored1]
          exact h.link k x st t2 hkx (hki2 ▸ hi) ht2
        · rw [if_neg hki2, if_neg (by omega)] at hky
          exact h.link k x y t2 hkx hky ht2
  · intro s hs
    change (List.set _ _ _)[0]? = some s at hs
    show stage_stored s ++ p.feed = _
    rw [hget] at hs
    by_cases h0 : 0 = i
    · rw [if_pos h0] at hs
      cases hs
      rw [hstored1]
      exact h.main st (h0 ▸ hi)
    · rw [if_neg h0, if_neg (by omega)] at hs
      exact h.main s hs

/-- The call of `plugs[0].place_work` by `main` returns, the string being stored in the
queue of the first stage. -/
theorem pipeline_inv_feed_done (ts : List transform_fn) (addrs : List hook_ptr)
    (xs : List CStr) (p : pipeline_t) (h : pipeline_inv ts addrs xs p)
    (tgt : stage_t) (others : List stage_t) (s : CStr) (rest : List CStr)
    (hst : p.stages = tgt :: others) (hfeed : p.feed = s :: rest)
    (hc : (stage_queue tgt).count ≠ (stage_queue tgt).capacity) (w : wait_state) :
    pipeline_inv ts addrs xs
      { stages := (stage_put tgt s) :: others,
        feed := rest, feed_wait := w } := by
  have h0 : p.stages[0]? = some tgt := by rw [hst]; simp
  obtain ⟨t1, ht1, htgt, -⟩ := h.stage 0 tgt h0
  obtain ⟨htgt1, hstored⟩ := stage_inv_put_store t1 _ tgt s htgt hc
  have hmain := h.main tgt h0
  rw [hfeed] at hmain
  have hset : (stage_put tgt s) :: others
      = p.stages.set 0 (stage_put tgt s) := by
    rw [hst]; rfl
  have hget := fun k => getElem?_set_cases p.stages 0 k
    (stage_put tgt s) tgt h0
  rw [hset]
  constructor
  · show (List.set _ _ _).length = _
    rw [List.length_set]; exact h.len
  · show (List.set _ _ _).map _ = _
    rw [map_set_same (fun s : stage_t => s.place_work) _ 0 (stage_put tgt s) tgt h0 rfl]
    exact h.addr
  · intro k x hk
    change (List.set _ _ _)[k]? = some x at hk
    rw [hget] at hk
    by_cases hk0 : k = 0
    · subst hk0
      rw [if_pos rfl] at hk
      cases hk
      refine ⟨t1, ht1, htgt1, ?_⟩
      rw [hstored]
      have h00 : lines_at ts xs 0 = xs := by cases ts <;> rfl
      rw [h00, ← hmain]
      exact ⟨rest, by simp⟩
    · rw [if_neg hk0] at hk
      exact h.stage k x hk
  · intro k x y t2 hkx hky ht2
    change (List.set _ _ _)[k]? = some x at hkx
    change (List.set _ _ _)[k + 1]? = some y at hky
    rw [hget] at hkx hky
    rw [if_neg (by omega)] at hky
    by_cases hk0 : k = 0
    · subst hk0
      rw [if_pos rfl] at hkx
      cases hkx
      rw [h.link 0 tgt y t2 h0 hky ht2]
      exact stage_sent_congr _ _ _ rfl rfl
    · rw [if_neg hk0] at hkx
      exact h.link k x y t2 hkx hky ht2
  · intro x hx
    change (List.set _ _ _)[0]? = some x at hx
    show stage_stored x ++ rest = _
    rw [hget, if_pos rfl] at hx
    cases hx
    rw [hstored, ← hmain]
    simp

theorem set_getElem?_same {α : Type} (l : List α) (i : Nat) (a : α) (h : l[i]? = some a) :
    l.set i a = l := by
  apply List.ext_getElem?
  intro k
  rw [getElem?_set_cases l i k a a h]
  by_cases hk : k = i
  · rw [if_pos hk, hk, h]
  · rw [if_neg hk]

section step_equations
variable (m : Bool) (p : pipeline_t) (i : Nat) (st : stage_t)

theorem pipeline_step_worker_none (hi : p.stages[i]? = none) :
    pipeline_step m p (.worker i) = p := by
  simp only [pipeline_step, hi]

theorem pipeline_step_at_get (w : wait_state) (hi : p.stages[i]? = some st)
    (hpc : st.pc = .at_get w) :
    pipeline_step m p (.worker i)
      = ⟨p.stages.set i (worker_get_step st w), p.feed, p.feed_wait⟩ := by
  simp only [pipeline_step, hi, hpc]

theorem pipeline_step_at_close (hi : p.stages[i]? = some st) (hpc : st.pc = .at_close) :
    pipeline_step m p (.worker i) = ⟨p.stages.set i (worker_close st), p.feed, p.feed_wait⟩ := by
  simp only [pipeline_step, hi, hpc]

theorem pipeline_step_exited (hi : p.stages[i]? = some st) (hpc : st.pc = .exited) :
    pipeline_step m p (.worker i) = p := by
  simp only [pipeline_step, hi, hpc]

theorem pipeline_step_hook_done (a : hook_ptr) (out : CStr) (last : Bool) (w : wait_state)
    (tgt : stage_t) (hi : p.stages[i]? = some st) (hpc : st.pc = .at_hook a out last w)
    (hj : p.stages[i + 1]? = some tgt) (hfind : find_stage a p.stages = some (i + 1))
    (hr : (place_step m tgt out w).2 = none) :
    pipeline_step m p (.worker i)
      = ⟨(p.stages.set (i + 1) (place_step m tgt out w).1).set i
            { st with pc := after_hook last }, p.feed, p.feed_wait⟩ := by
  have hi1 : (p.stages.set (i + 1) (place_step m tgt out w).1)[i]? = some st := by
    rw [getElem?_set_cases _ _ _ _ _ hj, if_neg (by omega)]; exact hi
  simp only [pipeline_step, hi, hpc, worker_hook_step, hfind, hj, hi1, hr]

theorem pipeline_step_hook_wait (a : hook_ptr) (out : CStr) (last : Bool) (w w1 : wait_state)
    (tgt : stage_t) (hi : p.stages[i]? = some st) (hpc : st.pc = .at_hook a out last w)
    (hj : p.stages[i + 1]? = some tgt) (hfind : find_stage a p.stages = some (i + 1))
    (hr : (place_step m tgt out w).2 = some w1) :
    pipeline_step m p (.worker i)
      = ⟨(p.stages.set (i + 1) (place_step m tgt out w).1).set i
            { st with pc := .at_hook a out last w1 }, p.feed, p.feed_wait⟩ := by
  have hi1 : (p.stages.set (i + 1) (place_step m tgt out w).1)[i]? = some st := by
    rw [getElem?_set_cases _ _ _ _ _ hj, if_neg (by omega)]; exact hi
  simp only [pipeline_step, hi, hpc, worker_hook_step, hfind, hj, hi1, hr]

theorem pipeline_step_main_nil (hfeed : p.feed = []) : pipeline_step m p .main = p := by
  simp only [pipeline_step, hfeed]

theorem pipeline_step_main_none (hst : p.stages = []) : pipeline_step m p .main = p := by
  simp only [pipeline_step, hst]
  cases p.feed <;> rfl

theorem pipeline_step_main_done (s : CStr) (rest : List CStr) (tgt : stage_t)
    (others : List stage_t) (hfeed : p.feed = s :: rest) (hst : p.stages = tgt :: others)
    (hr : (place_step m tgt s p.feed_wait).2 = none) :
    pipeline_step m p .main
      = ⟨(place_step m tgt s p.feed_wait).1 :: others, rest, .running⟩ := by
  simp only [pipeline_step, hfeed, hst, hr]

theorem pipeline_step_main_wait (s : CStr) (rest : List CStr) (tgt : stage_t)
    (others : List stage_t) (w1 : wait_state) (hfeed : p.feed = s :: rest)
    (hst : p.stages = tgt :: others) (hr : (place_step m tgt s p.feed_wait).2 = some w1) :
    pipeline_step m p .main
      = ⟨(place_step m tgt s p.feed_wait).1 :: others, s :: rest, w1⟩ := by
  simp only [pipeline_step, hfeed, hst, hr]

end step_equations

/-- The stage that the next-hook of a worker inside its hook call leads to. -/
theorem hook_target (ts : List transform_fn) (addrs : List hook_ptr) (xs : List CStr)
    (p : pipeline_t) (h : pipeline_inv ts addrs xs p) (hnd : addrs.Nodup)
    (i : Nat) (st : stage_t) (a : hook_ptr) (out : CStr) (last : Bool) (w : wait_state)
    (hi : p.stages[i]? = some st) (hpc : st.pc = .at_hook a out last w) :
    ∃ tgt, p.stages[i + 1]? = some tgt ∧ find_stage a p.stages = some (i + 1) := by
  obtain ⟨t, -, hst, -⟩ := h.stage i st hi
  have ha := (hst.at_hook a out last w hpc).1
  rw [← h.addr, List.getElem?_map, Option.map_eq_some'] at ha
  obtain ⟨tgt, htgt, hpw⟩ := ha
  refine ⟨tgt, htgt, ?_⟩
  rw [← hpw]
  exact find_stage_nodup p.stages _ tgt (h.addr ▸ hnd) htgt

/-- Every step of a thread keeps the pipeline in order, allocations succeeding. -/
theorem pipeline_inv_step (ts : List transform_fn) (addrs : List hook_ptr) (xs : List CStr)
    (p : pipeline_t) (mv : pipeline_move) (h : pipeline_inv ts addrs xs p)
    (hnd : addrs.Nodup)
    (hN : ∀ k, k < ts.length → ∀ x ∈ lines_at ts xs k, x ≠ END_TOKEN) :
    pipeline_inv ts addrs xs (pipeline_step true p mv) := by
  cases mv with
  | main =>
    cases hfeed : p.feed with
    | nil => rw [pipeline_step_main_nil true p hfeed]; exact h
    | cons s rest =>
      cases hst : p.stages with
      | nil => rw [pipeline_step_main_none true p hst]; exact h
      | cons tgt others =>
        have h0 : p.stages[0]? = some tgt := by rw [hst]; simp
        obtain ⟨t1, -, htgt, -⟩ := h.stage 0 tgt h0
        have hopen := feed_target_open ts addrs xs p h hN tgt s rest h0 hfeed
        rcases place_step_cases t1 _ tgt s p.feed_wait htgt hopen with ⟨e1, w1, e2⟩
          | ⟨hc, e2, e1⟩
        · rw [pipeline_step_main_wait true p s rest tgt others w1 hfeed hst e2, e1]
          exact ⟨hst ▸ h.len, hst ▸ h.addr, hst ▸ h.stage, hst ▸ h.link,
            fun x hx => hfeed ▸ h.main x (hst ▸ hx)⟩
        · rw [pipeline_step_main_done true p s rest tgt others hfeed hst e2, e1]
          exact pipeline_inv_feed_done ts addrs xs p h tgt others s rest hst hfeed hc _
  | worker i =>
    cases hi : p.stages[i]? with
    | none => rw [pipeline_step_worker_none true p i hi]; exact h
    | some st =>
      obtain ⟨t, ht, hst, hpre⟩ := h.stage i st hi
      cases hpc : st.pc with
      | at_get w =>
        rw [pipeline_step_at_get true p i st w hi hpc]
        obtain ⟨a1, a2, a3, a4⟩ := worker_get_step_inv t _ st w hst hpc
        exact pipeline_inv_update ts addrs xs p h i st _ t hi ht a2 a1 a3 a4 p.feed rfl
          p.feed_wait
      | at_hook a out last w =>
        obtain ⟨tgt, hj, hfind⟩ := hook_target ts addrs xs p h hnd i st a out last w hi hpc
        obtain ⟨t1, -, htgt, -⟩ := h.stage (i + 1) tgt hj
        have hopen := hook_target_open ts addrs xs p h hN i st tgt a out last w hi hj hpc
        rcases place_step_cases t1 _ tgt out w htgt hopen with ⟨e1, w1, e2⟩ | ⟨hc, e2, e1⟩
        · rw [pipeline_step_hook_wait true p i st a out last w w1 tgt hi hpc hj hfind e2, e1,
            set_getElem?_same _ _ _ hj]
          obtain ⟨b1, b2, b3⟩ := stage_inv_hook_wait t _ st a out last w w1 hst hpc
          exact pipeline_inv_update ts addrs xs p h i st { st with pc := .at_hook a out last w1 }
            t hi ht rfl b1 b2 (Or.inl b3) p.feed rfl p.feed_wait
        · rw [pipeline_step_hook_done true p i st a out last w tgt hi hpc hj hfind e2, e1]
          exact pipeline_inv_hook_done ts addrs xs p h hN i st tgt a out last w hi hj hpc hc
      | at_close =>
        rw [pipeline_step_at_close true p i st hi hpc]
        obtain ⟨a1, a2, a3, a4⟩ := worker_close_inv t _ st hst hpc
        exact pipeline_inv_update ts addrs xs p h i st _ t hi ht a2 a1 a3 (Or.inl a4) p.feed rfl
          p.feed_wait
      | exited => rw [pipeline_step_exited true p i st hi hpc]; exact h

theorem pipeline_inv_run (ts : List transform_fn) (addrs : List hook_ptr) (xs : List CStr)
    (moves : List pipeline_move) (p : pipeline_t) (h : pipeline_inv ts addrs xs p)
    (hnd : addrs.Nodup)
    (hN : ∀ k, k < ts.length → ∀ x ∈ lines_at ts xs k, x ≠ END_TOKEN) :
    pipeline_inv ts addrs xs (pipeline_run true p moves) := by
  induction moves generalizing p with
  | nil => exact h
  | cons mv moves ih => exact ih _ (pipeline_inv_step ts addrs xs p mv h hnd hN)

end Pipeline
